import Mathlib

/-!
# Pub/sub: frame codec, session ring, bucket registry, sessions, push manager

A shallow embedding of `pkg/getty/codec.go`, `pkg/bytes.go`,
`connect-node/ring.go`, `connect-node/channel.go`, `connect-node/bucket.go`,
`connect-node/server.go`, `connect-node/server_websocket.go` and
`push-manager/server.go`, with the properties of the specification stated and
proved over it.

Conventions of the embedding

* a Go `byte` is a `Fin 256`; a Go `string` is the list of its bytes (Go
  strings are byte sequences, `string(b)` and `copy(dst, s)` move bytes);
* a Go `[]byte` that is only read is a `List Byte`; the session read buffer,
  which is sliced beyond its length, is a `ByteSlice` carrying the bytes up
  to its capacity;
* `int`, `int16`, `int32` values are `Int`, `uint16`, `uint32`, `uint64`
  values are `Nat`, and every conversion of the source is written as the
  explicit wrap-around it performs;
* a run-time panic (slice or index out of range) is the `none` of an
  `Option`, or a dedicated constructor of the result type;
* the lengths up to which the built-in `make` returns are the parameter
  `MakeLimits` of the constructors that allocate (`Ring.init`, `NewChannel`,
  `Pool.grow`); above them `make` panics.
-/

namespace Pubsub

/-! ## Bytes and big-endian fields (`encoding/binary`) -/

/-- Go `byte`. -/
abbrev Byte := Fin 256

/-- The conversion `byte(n)` of an unsigned value. -/
def toByte (n : Nat) : Byte := ⟨n % 256, Nat.mod_lt _ (by decide)⟩

/-- The value `binary.BigEndian.Uint16(b)` on a two byte slice. -/
def Uint16 (b : List Byte) : Nat :=
  (b.getD 0 0).val * 256 + (b.getD 1 0).val

/-- The value `binary.BigEndian.Uint32(b)` on a four byte slice. -/
def Uint32 (b : List Byte) : Nat :=
  (b.getD 0 0).val * 16777216 + (b.getD 1 0).val * 65536
    + (b.getD 2 0).val * 256 + (b.getD 3 0).val

/-- The two bytes stored by `binary.BigEndian.PutUint16(_, v)`. -/
def PutUint16 (v : Nat) : List Byte := [toByte (v / 256), toByte v]

/-- The four bytes stored by `binary.BigEndian.PutUint32(_, v)`. -/
def PutUint32 (v : Nat) : List Byte :=
  [toByte (v / 16777216), toByte (v / 65536), toByte (v / 256), toByte v]

/-- The conversion `int16(x)` of a `uint16` value. -/
def toInt16 (x : Nat) : Int :=
  if x % 65536 < 32768 then ((x % 65536 : Nat) : Int) else ((x % 65536 : Nat) : Int) - 65536

/-- The conversion `int32(x)` of a `uint32` value. -/
def toInt32 (x : Nat) : Int :=
  if x % 4294967296 < 2147483648 then ((x % 4294967296 : Nat) : Int)
  else ((x % 4294967296 : Nat) : Int) - 4294967296

/-- The conversion `uint16(x)` of a signed value. -/
def toUint16 (x : Int) : Nat := (x % 65536).toNat

/-- The conversion `uint32(x)` of a signed value. -/
def toUint32 (x : Int) : Nat := (x % 4294967296).toNat

/-! ## Slices -/

/-- A Go byte slice together with the part of its backing array that lies
between its length and its capacity: `vis` are the `len` visible bytes,
`spare` the bytes a re-slice can still reach. -/
structure ByteSlice where
  vis : List Byte
  spare : List Byte
deriving DecidableEq

/-- Go `len(s)`. -/
def ByteSlice.len (s : ByteSlice) : Nat := s.vis.length

/-- Go `cap(s)`. -/
def ByteSlice.cap (s : ByteSlice) : Nat := s.vis.length + s.spare.length

/-- Go `copy(dst, src)`: the first `min(len(dst), len(src))` bytes of `dst`
are overwritten. -/
def copyBytes (dst : ByteSlice) (src : List Byte) : ByteSlice :=
  { vis := src.take dst.vis.length ++ dst.vis.drop src.length, spare := dst.spare }

/-- The slice expression `s[lo:hi]` read as bytes; `none` is the run-time
panic "slice bounds out of range" (`0 ≤ lo ≤ hi ≤ cap(s)` is required). -/
def ByteSlice.slice (s : ByteSlice) (lo hi : Int) : Option (List Byte) :=
  if 0 ≤ lo ∧ lo ≤ hi ∧ hi ≤ (s.cap : Int) then
    some (((s.vis ++ s.spare).drop lo.toNat).take (hi - lo).toNat)
  else none

/-- Go `copy(dst[off:], src)` on a list that is exactly `len(dst)` long. -/
def writeAt (dst : List Byte) (off : Nat) (src : List Byte) : List Byte :=
  dst.take off ++ src.take (dst.length - off) ++ dst.drop (off + src.length)

/-! ## Frames (`protocol.Proto`) and the codec constants -/

/-- The frame `protocol.Proto`: `Ver`, `Op`, `Seq` are `int32`, the ids are
strings, `Body` is a byte slice that may be `nil`. -/
structure Proto where
  Ver : Int
  Op : Int
  Seq : Int
  Roomid : List Byte
  Userid : List Byte
  Body : Option (List Byte)
deriving DecidableEq

/-- The zero value of `protocol.Proto`. -/
instance : Inhabited Proto := ⟨⟨0, 0, 0, [], [], none⟩⟩

/-- Go `len(p.Body)`, zero for a nil body. -/
def Proto.bodyBytes (p : Proto) : List Byte := p.Body.getD []

/-- The constant `protocol.MaxBodySize`, `1 << 12`. -/
def MaxBodySize : Int := 4096

/-- The constant `_rawHeaderSize`, `4 + 2 + 2 + 4 + 4`. -/
def _rawHeaderSize : Int := 16

/-- The constant `_stringLenSize`. -/
def _stringLenSize : Int := 2

/-- The constant `_maxPackSize`, `MaxBodySize + _rawHeaderSize`. -/
def _maxPackSize : Int := MaxBodySize + _rawHeaderSize

/-- The errors `Read` returns. -/
inductive CodecErr
  | ErrNotEnoughStream
  | ErrProtoPackLen
  | ErrProtoHeaderLen
deriving DecidableEq

/-- What a call of `Read` does: it returns the triple `(pkg, n, err)` or it
panics. -/
inductive ReadResult
  | ret (pkg : Option Proto) (n : Int) (err : Option CodecErr)
  | panic
deriving DecidableEq

/-- The state of the session read buffer once `Read` is past its first
`copy` (line 98). -/
def ReadBufferAfter (buf : ByteSlice) (data : List Byte) : ByteSlice :=
  copyBytes buf data

/-- The tail of `Read` from the body on (lines 167-182): `bodyOffset`, the
body slice and the returned triple. -/
def readBody (bufBytes : ByteSlice) (packLen : Int) (pkg : Proto)
    (userIdOffset userIdLen : Int) : ReadResult :=
  let bodyOffset := userIdOffset + _stringLenSize + userIdLen
  let bodyLen := packLen - bodyOffset
  if bodyLen > 0 then
    match bufBytes.slice bodyOffset (bodyOffset + bodyLen) with
    | none => .panic
    | some b => .ret (some { pkg with Body := some b }) packLen none
  else
    .ret (some { pkg with Body := none }) packLen none

/-- The part of `Read` that decodes the user id (lines 150-165) and goes on
with the body. -/
def readUserId (bufBytes : ByteSlice) (packLen : Int) (pkg : Proto)
    (userIdOffset : Int) : ReadResult :=
  if (bufBytes.len : Int) < userIdOffset + _stringLenSize then
    .ret none 0 (some .ErrNotEnoughStream)
  else
    match bufBytes.slice userIdOffset (userIdOffset + _stringLenSize) with
    | none => .panic
    | some l =>
      let userIdLen := toInt16 (Uint16 l)
      if userIdLen > 0 then
        let userIdDataOffset := userIdOffset + _stringLenSize
        if (bufBytes.len : Int) < userIdDataOffset + userIdLen then
          .ret none 0 (some .ErrNotEnoughStream)
        else
          match bufBytes.slice userIdDataOffset (userIdDataOffset + userIdLen) with
          | none => .panic
          | some u => readBody bufBytes packLen { pkg with Userid := u } userIdOffset userIdLen
      else
        readBody bufBytes packLen { pkg with Userid := [] } userIdOffset userIdLen

/-- The part of `Read` that decodes the room id (lines 133-148) and goes on
with the user id. -/
def readRoomId (bufBytes : ByteSlice) (packLen : Int) (pkg : Proto) : ReadResult :=
  let roomIdOffset : Int := 12 + 4
  if (bufBytes.len : Int) < roomIdOffset + _stringLenSize then
    .ret none 0 (some .ErrNotEnoughStream)
  else
    match bufBytes.slice roomIdOffset (roomIdOffset + _stringLenSize) with
    | none => .panic
    | some l =>
      let roomIdLen := toInt16 (Uint16 l)
      if roomIdLen > 0 then
        let roomIdDataOffset := roomIdOffset + _stringLenSize
        if (bufBytes.len : Int) < roomIdDataOffset + roomIdLen then
          .ret none 0 (some .ErrNotEnoughStream)
        else
          match bufBytes.slice roomIdDataOffset (roomIdDataOffset + roomIdLen) with
          | none => .panic
          | some r =>
            readUserId bufBytes packLen { pkg with Roomid := r }
              (roomIdOffset + _stringLenSize + roomIdLen)
      else
        readUserId bufBytes packLen { pkg with Roomid := [] }
          (roomIdOffset + _stringLenSize + roomIdLen)

/-- The part of `Read` that checks `headerLen` and decodes `Ver`, `Op`,
`Seq` (lines 118-131). -/
def readHeader (bufBytes : ByteSlice) (packLen : Int) : ReadResult :=
  match bufBytes.slice 4 6 with
  | none => .panic
  | some h =>
    if toInt16 (Uint16 h) ≠ _rawHeaderSize then .ret none 0 (some .ErrProtoHeaderLen)
    else
      match bufBytes.slice 6 8, bufBytes.slice 8 12, bufBytes.slice 12 (12 + 4) with
      | some v, some o, some s =>
        readRoomId bufBytes packLen
          { Ver := toInt32 (Uint16 v), Op := toInt32 (Uint32 o), Seq := toInt32 (Uint32 s),
            Roomid := [], Userid := [], Body := none }
      | _, _, _ => .panic

/-- The method `ProtoPackageHandler.Read` on the session buffer
`h.ReadBuffer.Bytes() = buf` and the window `data`. -/
def Read (buf : ByteSlice) (data : List Byte) : ReadResult :=
  if (data.length : Int) < _rawHeaderSize then .ret none 0 (some .ErrNotEnoughStream)
  else
    let bufBytes := copyBytes buf data
    match bufBytes.slice 0 4 with
    | none => .panic
    | some pl =>
      let packLen := toInt32 (Uint32 pl)
      if packLen < 0 ∨ packLen > _maxPackSize then .ret none 0 (some .ErrProtoPackLen)
      else if (data.length : Int) < packLen then .ret none 0 (some .ErrNotEnoughStream)
      else
        let bufBytes :=
          if (bufBytes.len : Int) < packLen then copyBytes bufBytes (data.take packLen.toNat)
          else bufBytes
        readHeader bufBytes packLen

/-- The method `ProtoPackageHandler.Write` on a `*protocol.Proto`: the
buffer of `packLen` zero bytes and the stores into it, in source order. -/
def Write (p : Proto) : List Byte :=
  let roomIdLen := p.Roomid.length
  let userIdLen := p.Userid.length
  let packLen := 16 + 2 + roomIdLen + 2 + userIdLen + p.bodyBytes.length
  let result := List.replicate packLen (0 : Byte)
  let result := writeAt result 0 (PutUint32 (toUint32 packLen))
  let result := writeAt result 4 (PutUint16 (toUint16 16))
  let result := writeAt result 6 (PutUint16 (toUint16 p.Ver))
  let result := writeAt result 8 (PutUint32 (toUint32 p.Op))
  let result := writeAt result 12 (PutUint32 (toUint32 p.Seq))
  let roomIdOffset := 12 + 4
  let result := writeAt result roomIdOffset (PutUint16 (toUint16 roomIdLen))
  let result := if roomIdLen > 0 then writeAt result (roomIdOffset + 2) p.Roomid else result
  let userIdOffset := roomIdOffset + 2 + roomIdLen
  let result := writeAt result userIdOffset (PutUint16 (toUint16 userIdLen))
  let result := if userIdLen > 0 then writeAt result (userIdOffset + 2) p.Userid else result
  let bodyOffset := userIdOffset + 2 + userIdLen
  let result :=
    if p.Body.isSome ∧ p.bodyBytes.length > 0 then writeAt result bodyOffset p.bodyBytes
    else result
  result

/-! ## The wire format of the specification -/

/-- The encoded length of a frame: the 16 byte header, the two length
prefixed ids and the body. -/
def encLen (p : Proto) : Nat :=
  16 + 2 + p.Roomid.length + 2 + p.Userid.length + p.bodyBytes.length

/-- The wire format of the specification (4.1), field after field:
`packLen:u32`, `headerLen:u16`, `ver:u16`, `op:i32`, `seq:i32`, the length
prefixed `roomId` and `userId`, then the body. -/
def wireFormat (p : Proto) : List Byte :=
  PutUint32 (encLen p) ++ PutUint16 16 ++ PutUint16 (toUint16 p.Ver)
    ++ PutUint32 (toUint32 p.Op) ++ PutUint32 (toUint32 p.Seq)
    ++ PutUint16 p.Roomid.length ++ p.Roomid
    ++ PutUint16 p.Userid.length ++ p.Userid ++ p.bodyBytes

/-! ## Sample inputs -/

/-- A frame with a body of `MaxBodySize` bytes and empty ids. -/
def maxBodyFrame : Proto :=
  { Ver := 1, Op := 1, Seq := 1, Roomid := [], Userid := [],
    Body := some (List.replicate 4096 0) }

/-- The join frame of scenario 1: `ver 1, op 1, seq 1, "r1", "u1", "alice"`. -/
def sampleFrame : Proto :=
  { Ver := 1, Op := 1, Seq := 1, Roomid := [114, 49], Userid := [117, 49],
    Body := some [97, 108, 105, 99, 101] }

/-- A read buffer of `n` zero bytes with no spare capacity, as the last
buffer of a freshly grown pool slab is. -/
def zeroBuffer (n : Nat) : ByteSlice := { vis := List.replicate n 0, spare := [] }

/-- A window of 20 bytes whose `packLen` field is 15: `headerLen 16, ver 1,
op 1, seq 1`, then two zero id lengths. -/
def shortPackWindow : List Byte :=
  [0, 0, 0, 15, 0, 16, 0, 1, 0, 0, 0, 1, 0, 0, 0, 1, 0, 0, 0, 0]

/-- A window of 20 bytes, `packLen 20, headerLen 16, ver 1, op 1, seq 1`,
whose `roomIdLen` field is `0x8000` and whose `userIdLen` field is 0. -/
def negativeLenWindow : List Byte :=
  [0, 0, 0, 20, 0, 16, 0, 1, 0, 0, 0, 1, 0, 0, 0, 1, 128, 0, 0, 0]

/-- A window of 20 bytes, `packLen 20`, whose `headerLen` field is 12. -/
def badHeaderWindow : List Byte :=
  [0, 0, 0, 20, 0, 12, 0, 1, 0, 0, 0, 1, 0, 0, 0, 1, 0, 0, 0, 0]

/-- The user id `"u1"`. -/
def idU1 : List Byte := [117, 49]

/-- The room id `"r1"`. -/
def idR1 : List Byte := [114, 49]

/-- The push of scenario 2: `op 2, roomId "r1", body "hi"`. -/
def pushHi : Proto :=
  { Ver := 1, Op := 2, Seq := 0, Roomid := idR1, Userid := [], Body := some [104, 105] }

/-! ## Allocation (the built-in `make`) -/

/-- What the built-in `make` can allocate on the machine the program runs on:
the largest length for which `make([]protocol.Proto, n)`,
`make(chan *protocol.Proto, n)`, `make([]byte, n)` and `make([]Buffer, n)`
return. For a longer one, as for a negative one, `make` does not return: it
panics (`makeslice: len out of range`, `makechan: size out of range`) or the
runtime stops for lack of memory. The bounds depend on the platform and on the
size of an element (the struct `protocol.Proto` is declared in generated code
that is not among the sources), so they are parameters. -/
structure MakeLimits where
  protos : Nat
  signals : Nat
  bytes : Nat
  buffers : Nat
deriving DecidableEq

/-- Whether `make` returns for the length `n`, `limit` being the largest
length it can allocate. -/
def makeOk (limit : Nat) (n : Int) : Bool := decide (0 ≤ n ∧ n ≤ (limit : Int))

/-- A machine on which `make` returns for up to `2 ^ 20` frames, `2 ^ 20`
mailbox entries, `2 ^ 30` bytes and `2 ^ 20` buffers. -/
def smallMachine : MakeLimits :=
  { protos := 1048576, signals := 1048576, bytes := 1073741824, buffers := 1048576 }

/-! ## The session ring (`connect-node/ring.go`) -/

/-- The modulus of `uint64` arithmetic, `2 ^ 64`. -/
def u64 : Nat := 18446744073709551616

/-- The `uint64` expression `x - 1`, wrapping at zero. -/
def subOne64 (x : Nat) : Nat := (x + u64 - 1) % u64

/-- The struct `Ring`: `rp`, `num`, `mask`, `wp` are `uint64`, `data` is the
slot array. -/
structure Ring where
  rp : Nat
  num : Nat
  mask : Nat
  wp : Nat
  data : List Proto
deriving DecidableEq

/-- The zero value `new(Ring)`. -/
def Ring.zero : Ring := { rp := 0, num := 0, mask := 0, wp := 0, data := [] }

/-- The loop `for num&(num-1) != 0 { num &= num - 1 }` of `init`. Every
iteration strictly lowers `num`, so `fuel = num` iterations are never used up
(`initLoop_exit` below). -/
def initLoop : Nat → Nat → Nat
  | 0, num => num
  | fuel + 1, num =>
    if num &&& subOne64 num ≠ 0 then initLoop fuel (num &&& subOne64 num) else num

/-- The value of `num` after the rounding block of `init` (lines 30-35). -/
def roundNum (num : Nat) : Nat :=
  if num &&& subOne64 num ≠ 0 then (initLoop num num * 2) % u64 else num

/-- The method `Ring.init(num uint64)`. `make([]protocol.Proto, num)` is the
list of `num` zero frames; `none` is its panic, on a length that does not fit
an `int` or is above what `make` can allocate. -/
def Ring.init (L : MakeLimits) (r : Ring) (num : Nat) : Option Ring :=
  let num := roundNum num
  if num < 9223372036854775808 ∧ makeOk L.protos num then
    some { r with data := List.replicate num default, num := num, mask := subOne64 num }
  else none

/-- The constructor `NewRing(num int)`, with its conversion `uint64(num)`. -/
def NewRing (L : MakeLimits) (num : Int) : Option Ring :=
  Ring.zero.init L (num % (u64 : Int)).toNat

/-- The method `Ring.Init(num int)`, with its conversion `uint64(num)`. -/
def Ring.Init (L : MakeLimits) (r : Ring) (num : Int) : Option Ring :=
  r.init L (num % (u64 : Int)).toNat

/-- The ring `r.init(num)` leaves when its `make` returns (`init_done`
below). -/
def Ring.initDone (r : Ring) (num : Nat) : Ring :=
  let num := roundNum num
  { r with data := List.replicate num default, num := num, mask := subOne64 num }

/-- The ring `NewRing(num)` returns when its `make` returns (`NewRing_done`
below). -/
def NewRingDone (num : Int) : Ring := Ring.zero.initDone (num % (u64 : Int)).toNat

/-- The errors of the ring (`pkg.ErrRingEmpty`, `pkg.ErrRingFull`). -/
inductive RingErr
  | ErrRingEmpty
  | ErrRingFull
deriving DecidableEq

/-- What `Get` and `Set` return: a pointer to slot `i` of `data`, an error,
or the index expression `r.data[i]` panics. -/
inductive SlotResult
  | slot (i : Nat)
  | err (e : RingErr)
  | panic
deriving DecidableEq

/-- The method `Ring.Get`. -/
def Ring.Get (r : Ring) : SlotResult :=
  if r.rp = r.wp then .err .ErrRingEmpty
  else if r.rp &&& r.mask < r.data.length then .slot (r.rp &&& r.mask) else .panic

/-- The method `Ring.GetAdv`, `r.rp++`. -/
def Ring.GetAdv (r : Ring) : Ring := { r with rp := (r.rp + 1) % u64 }

/-- The method `Ring.SetAdv`, `r.wp++`. -/
def Ring.SetAdv (r : Ring) : Ring := { r with wp := (r.wp + 1) % u64 }

/-- The method `Ring.Set`; `r.wp - r.rp` is the wrapping `uint64`
difference. -/
def Ring.Set (r : Ring) : SlotResult :=
  if (r.wp + u64 - r.rp) % u64 ≥ r.num then .err .ErrRingFull
  else if r.wp &&& r.mask < r.data.length then .slot (r.wp &&& r.mask) else .panic

/-- The method `Ring.Reset`. -/
def Ring.Reset (r : Ring) : Ring := { r with rp := 0, wp := 0 }

/-- The store `*slot = *p` through the pointer `Set` returned. -/
def Ring.store (r : Ring) (i : Nat) (p : Proto) : Ring := { r with data := r.data.set i p }

/-- A step of the producer or of the consumer of a ring. -/
inductive RingOp
  | push (p : Proto)
  | pop
deriving DecidableEq

/-- A ring together with the history of a run: the frames the producer got
accepted and the frames the consumer read, both in order. -/
structure RingRun where
  ring : Ring
  accepted : List Proto
  observed : List Proto
deriving DecidableEq

/-- The run that starts on a ring initialised with size `n`, the ring
`NewRing(n)` returns. -/
def RingRun.fresh (n : Int) : RingRun :=
  { ring := NewRingDone n, accepted := [], observed := [] }

/-- One step. The producer (`OnMessage`, lines 392-403) calls `Set`, drops the
frame on `ErrRingFull`, else copies the frame into the slot and calls
`SetAdv`. The consumer (`dispatchWebsocket`, lines 213-225) calls `Get`, stops
on `ErrRingEmpty`, else reads the slot and calls `GetAdv`. `none` is a
panic. -/
def RingRun.step (s : RingRun) : RingOp → Option RingRun
  | .push p =>
    match s.ring.Set with
    | .err _ => some s
    | .panic => none
    | .slot i => some { s with ring := (s.ring.store i p).SetAdv, accepted := s.accepted ++ [p] }
  | .pop =>
    match s.ring.Get with
    | .err _ => some s
    | .panic => none
    | .slot i =>
      some { s with ring := s.ring.GetAdv, observed := s.observed ++ [s.ring.data.getD i default] }

/-- A sequence of steps, in order. -/
def RingRun.run (s : RingRun) : List RingOp → Option RingRun
  | [] => some s
  | op :: ops => (s.step op).bind (fun t => t.run ops)

/-! ## Channels, rooms and buckets (`connect-node/channel.go`, `bucket.go`) -/

/-- A Go `string`, as its bytes. -/
abbrev GoString := List Byte

/-- A Go `map[string]V`, as a list of bindings with pairwise distinct keys.
The order of the list stands for the (unspecified) iteration order of
`range`. -/
abbrev GoMap (V : Type) := List (GoString × V)

/-- The map read `m[k]`, with `none` for an absent key. -/
def GoMap.get {V : Type} (m : GoMap V) (k : GoString) : Option V := List.lookup k m

/-- The map write `m[k] = v`. -/
def GoMap.set {V : Type} (m : GoMap V) (k : GoString) (v : V) : GoMap V :=
  (k, v) :: m.filter (fun kv => kv.1 ≠ k)

/-- The map removal `delete(m, k)`. -/
def GoMap.del {V : Type} (m : GoMap V) (k : GoString) : GoMap V :=
  m.filter (fun kv => kv.1 ≠ k)

/-- A `*Channel`, the address of a channel. -/
abbrev ChanPtr := Nat

/-- A `*Room`, the address of a room. -/
abbrev RoomPtr := Nat

/-- A value of the signal mailbox `chan *protocol.Proto`. The dispatcher tells
the two sentinels `protocol.ProtoReady` and `protocol.ProtoFinish` from pushed
frames by pointer identity, so they are constructors of their own. -/
inductive Sig
  | ProtoReady
  | ProtoFinish
  | frame (p : Proto)
deriving DecidableEq

/-- The struct `Channel`. `signal` holds the queued values of the mailbox,
oldest first, and `signalCap` is the capacity it was made with. `watchOps`
lists the keys of the `map[int32]struct{}`. -/
structure Channel where
  Room : Option RoomPtr
  ClientReqQueue : Ring
  signal : List Sig
  signalCap : Nat
  Mid : Int
  Key : GoString
  IP : GoString
  watchOps : List Int
deriving DecidableEq

/-- The constructor `NewChannel(cli, svr)`; `none` is a panic of
`ClientReqQueue.Init(cli)` or of `make(chan *protocol.Proto, svr)`. -/
def NewChannel (L : MakeLimits) (cli svr : Int) : Option Channel :=
  match Ring.zero.Init L cli with
  | none => none
  | some q =>
    if makeOk L.signals svr then
      some { Room := none, ClientReqQueue := q, signal := [], signalCap := svr.toNat,
             Mid := 0, Key := [], IP := [], watchOps := [] }
    else none

/-- The channel `NewChannel(cli, svr)` returns when its two `make` return
(`NewChannel_done` below). -/
def NewChannelDone (cli : Int) (svr : Nat) : Channel :=
  { Room := none, ClientReqQueue := NewRingDone cli, signal := [], signalCap := svr,
    Mid := 0, Key := [], IP := [], watchOps := [] }

/-- The method `Channel.Watch`. -/
def Channel.Watch (c : Channel) (accepts : List Int) : Channel :=
  { c with watchOps := accepts.foldl (fun w op => if op ∈ w then w else op :: w) c.watchOps }

/-- The method `Channel.UnWatch`. -/
def Channel.UnWatch (c : Channel) (accepts : List Int) : Channel :=
  { c with watchOps := accepts.foldl (fun w op => w.filter (fun x => x ≠ op)) c.watchOps }

/-- The method `Channel.NeedPush`. -/
def Channel.NeedPush (c : Channel) (op : Int) : Bool := decide (op ∈ c.watchOps)

/-- The error of a dropped push (`pkg.ErrSignalFullMsgDropped`). -/
inductive ChanErr
  | ErrSignalFullMsgDropped
deriving DecidableEq

/-- The method `Channel.Push`: a `select` with a `default` branch, so the
send happens when the mailbox has room and the frame is dropped otherwise. -/
def Channel.Push (c : Channel) (p : Proto) : Channel × Option ChanErr :=
  if c.signal.length < c.signalCap then ({ c with signal := c.signal ++ [.frame p] }, none)
  else (c, some .ErrSignalFullMsgDropped)

/-- The method `Channel.Close`, the plain send `c.signal <- ProtoFinish`. On
a mailbox that has no room the send cannot complete: `none`. -/
def Channel.Close (c : Channel) : Option Channel :=
  if c.signal.length < c.signalCap then some { c with signal := c.signal ++ [.ProtoFinish] }
  else none

/-- The method `Channel.Signal`, the plain send `c.signal <- ProtoReady`. -/
def Channel.Signal (c : Channel) : Option Channel :=
  if c.signal.length < c.signalCap then some { c with signal := c.signal ++ [.ProtoReady] }
  else none

/-- Modelled from the spec: the struct `Room` of `connect-node/room.go`, which
is not among the sources. The spec (3, 4.7) gives it an `id`, the counters
`online` and `allOnline` and the set of its member channels. -/
structure Room where
  ID : GoString
  members : List ChanPtr
  Online : Int
  AllOnline : Int
deriving DecidableEq

/-- Modelled from the spec: the constructor `NewRoom(id)` of `room.go`, a room
with no member. -/
def NewRoom (id : GoString) : Room := { ID := id, members := [], Online := 0, AllOnline := 0 }

/-- Modelled from the spec: the method `Room.Put(ch)` of `room.go`, "`Put(ch)`
adds", the counter `online` following the membership. -/
def Room.Put (r : Room) (ch : ChanPtr) : Room :=
  { r with members := ch :: r.members.filter (fun c => c ≠ ch), Online := r.Online + 1 }

/-- The heap the bucket's pointers refer to: the channels and rooms by
address, and the address the next `NewRoom` returns. -/
structure Heap where
  chans : ChanPtr → Channel
  roomObjs : RoomPtr → Room
  nextRoom : RoomPtr

/-- Modelled from the spec: the request `push.BroadcastRoomReq` of the
generated `protocol/push` package, which is not among the sources; the spec
(6) gives it a room id and a frame, `BroadcastRoom(roomId, frame)`. The frame
is a pointer and may be nil. -/
structure BroadcastRoomReq where
  RoomID : GoString
  Proto : Option Proto
deriving DecidableEq

/-- The struct `config.BucketConfig`. -/
structure BucketConfig where
  Size : Nat
  Channel : Nat
  Room : Nat
  RoutineAmount : Nat
  RoutineSize : Nat
deriving DecidableEq

/-- The struct `Bucket`: the maps `chs`, `rooms` and `ipCnts`, the
configuration `c`, the worker mailboxes `routines` (each holds its queued
requests, oldest first, and was made with capacity `c.RoutineSize`) and the
`uint64` counter `routinesNum`. -/
structure Bucket where
  chs : GoMap ChanPtr
  rooms : GoMap RoomPtr
  ipCnts : GoMap Int
  c : BucketConfig := { Size := 0, Channel := 0, Room := 0, RoutineAmount := 0, RoutineSize := 0 }
  routines : List (List BroadcastRoomReq) := []
  routinesNum : Nat := 0
deriving DecidableEq

/-- The maps of `NewBucket`. -/
def NewBucket : Bucket := { chs := [], rooms := [], ipCnts := [] }

/-- The constructor `NewBucket(c)` with its configuration: empty maps and
`c.RoutineAmount` empty worker mailboxes. The workers `roomprc` it starts run
beside the callers and are not part of the state. -/
def NewBucketOf (c : BucketConfig) : Bucket :=
  { NewBucket with c := c, routines := List.replicate c.RoutineAmount [] }

/-- The store of a changed channel at its address. -/
def Heap.setChan (h : Heap) (c : ChanPtr) (v : Channel) : Heap :=
  { h with chans := Function.update h.chans c v }

/-- The store of a changed room at its address. -/
def Heap.setRoom (h : Heap) (r : RoomPtr) (v : Room) : Heap :=
  { h with roomObjs := Function.update h.roomObjs r v }

/-- The statement `b.ipCnts[ip]++` on an `int32` counter. -/
def incIpCnt (m : GoMap Int) (ip : GoString) : GoMap Int :=
  m.set ip (toInt32 (toUint32 ((m.get ip).getD 0 + 1)))

/-- Lines 115-117 of `Bucket.Put`: the channel registered under the key, when
there is one, is closed. `none` when that send cannot complete. -/
def Bucket.evict (b : Bucket) (h : Heap) (key : GoString) : Option Heap :=
  match b.chs.get key with
  | none => some h
  | some old => ((h.chans old).Close).map (fun c => h.setChan old c)

/-- Lines 121-128 of `Bucket.Put`: for a non-empty room id the room is looked
up, or made and registered, and becomes the channel's room. The result holds
the local variable `room`. -/
def Bucket.enterRoom (b : Bucket) (h : Heap) (roomId : GoString) (channel : ChanPtr) :
    Bucket × Heap × Option RoomPtr :=
  if roomId ≠ [] then
    match b.rooms.get roomId with
    | some room =>
      (b, h.setChan channel { h.chans channel with Room := some room }, some room)
    | none =>
      let room := h.nextRoom
      let h1 : Heap := { (h.setRoom room (NewRoom roomId)) with nextRoom := room + 1 }
      ({ b with rooms := b.rooms.set roomId room },
        h1.setChan channel { h1.chans channel with Room := some room }, some room)
  else (b, h, none)

/-- The method `Bucket.Put(roomId, channel)`: the bucket and the heap it
leaves, or `none` when the send inside `Close` cannot complete. The returned
`err` of `room.Put` is always nil in the model of `Room`. -/
def Bucket.Put (b : Bucket) (h : Heap) (roomId : GoString) (channel : ChanPtr) :
    Option (Bucket × Heap) :=
  match b.evict h (h.chans channel).Key with
  | none => none
  | some h1 =>
    let b1 : Bucket := { b with chs := b.chs.set (h1.chans channel).Key channel }
    match b1.enterRoom h1 roomId channel with
    | (b2, h2, room) =>
      let b3 : Bucket := { b2 with ipCnts := incIpCnt b2.ipCnts (h2.chans channel).IP }
      match room with
      | some r => some (b3, h2.setRoom r ((h2.roomObjs r).Put channel))
      | none => some (b3, h2)

/-- The test `p.Roomid != "" && ch.Room != nil && ch.Room.ID != p.Roomid` of
`Bucket.Broadcast` (line 189). -/
def roomMismatch (p : Proto) (h : Heap) (c : Channel) : Bool :=
  decide (p.Roomid ≠ []) &&
    (match c.Room with
     | none => false
     | some r => decide ((h.roomObjs r).ID ≠ p.Roomid))

/-- One round of the loop of `Bucket.Broadcast` (lines 182-198) on the
channel `ch`: skipped when the channel does not watch `op`, skipped on a room
mismatch, else `ch.Push(p)`, whose error is only logged. -/
def broadcastOne (p : Proto) (op : Int) (h : Heap) (ch : ChanPtr) : Heap :=
  let c := h.chans ch
  if ¬ c.NeedPush op then h
  else if roomMismatch p h c then h
  else h.setChan ch (c.Push p).1

/-- The method `Bucket.Broadcast(p, op)`: the loop over `range b.chs`. -/
def Bucket.Broadcast (b : Bucket) (h : Heap) (p : Proto) (op : Int) : Heap :=
  b.chs.foldl (fun h kv => broadcastOne p op h kv.2) h

/-! ## Leaving rooms, worker mailboxes and the node server (`bucket.go`, `server.go`) -/

/-- What a call does: it returns, it cannot complete because a plain send on
a full mailbox blocks, or it panics. -/
inductive Outcome (α : Type)
  | done (a : α)
  | blocks
  | panic
deriving DecidableEq

/-- Modelled from the spec: the method `Room.Del(ch)` of `room.go`, which is
not among the sources: "`Del(ch)` removes and returns `true` when the room is
now empty", the counter `online` following the call. -/
def Room.Del (r : Room) (ch : ChanPtr) : Room × Bool :=
  ({ r with members := r.members.filter (fun c => c ≠ ch), Online := r.Online - 1 },
    decide (r.members.filter (fun c => c ≠ ch) = []))

/-- The method `Bucket.DelRoom(room)`: the entry under the room's id is
deleted. The call `room.Close()` that follows (`room.go`, not among the
sources) acts on the room only, and `DelRoom` is called on a room whose `Del`
has just reported it empty. -/
def Bucket.DelRoom (b : Bucket) (h : Heap) (room : RoomPtr) : Bucket :=
  { b with rooms := b.rooms.del (h.roomObjs room).ID }

/-- The statement `if room != nil && room.Del(ch) { b.DelRoom(room) }` of
`Del` (line 158) and of `ChangeRoom` (lines 78 and 93). -/
def Bucket.leaveRoom (b : Bucket) (h : Heap) (room : Option RoomPtr) (ch : ChanPtr) :
    Bucket × Heap :=
  match room with
  | none => (b, h)
  | some r =>
    let h1 := h.setRoom r ((h.roomObjs r).Del ch).1
    if ((h.roomObjs r).Del ch).2 then (b.DelRoom h1 r, h1) else (b, h1)

/-- The statement `if b.ipCnts[ip] > 1 { b.ipCnts[ip]-- } else
{ delete(b.ipCnts, ip) }` of `Del` (lines 149-153). -/
def decIpCnt (m : GoMap Int) (ip : GoString) : GoMap Int :=
  if (m.get ip).getD 0 > 1 then m.set ip (toInt32 (toUint32 ((m.get ip).getD 0 - 1)))
  else m.del ip

/-- The part of `Bucket.Del` under the lock (lines 144-154). -/
def Bucket.unregister (b : Bucket) (h : Heap) (dch : ChanPtr) : Bucket :=
  match b.chs.get (h.chans dch).Key with
  | some ch =>
    { b with chs := if ch = dch then b.chs.del (h.chans ch).Key else b.chs,
             ipCnts := decIpCnt b.ipCnts (h.chans ch).IP }
  | none => b

/-- The method `Bucket.Del(dch)`. -/
def Bucket.Del (b : Bucket) (h : Heap) (dch : ChanPtr) : Bucket × Heap :=
  let room := (h.chans dch).Room
  (b.unregister h dch).leaveRoom h room dch

/-- Lines 86-91 of `Bucket.ChangeRoom`: the room with the new id is looked up,
or made and registered. The result holds the local variable `newRoom`. -/
def Bucket.ensureRoom (b : Bucket) (h : Heap) (newRoomID : GoString) :
    Bucket × Heap × RoomPtr :=
  match b.rooms.get newRoomID with
  | some room => (b, h, room)
  | none =>
    ({ b with rooms := b.rooms.set newRoomID h.nextRoom },
      { (h.setRoom h.nextRoom (NewRoom newRoomID)) with nextRoom := h.nextRoom + 1 },
      h.nextRoom)

/-- The method `Bucket.ChangeRoom(newRoomID, channel)`. Its `err` is that of
`newRoom.Put`, always nil in the model of `Room`. -/
def Bucket.ChangeRoom (b : Bucket) (h : Heap) (newRoomID : GoString) (channel : ChanPtr) :
    Bucket × Heap :=
  let originalRoom := (h.chans channel).Room
  if newRoomID = [] then
    match b.leaveRoom h originalRoom channel with
    | (b1, h1) => (b1, h1.setChan channel { h1.chans channel with Room := none })
  else
    match b.ensureRoom h newRoomID with
    | (b1, h1, newRoom) =>
      match b1.leaveRoom h1 originalRoom channel with
      | (b2, h2) =>
        let h3 := h2.setRoom newRoom ((h2.roomObjs newRoom).Put channel)
        (b2, h3.setChan channel { h3.chans channel with Room := some newRoom })

/-- The method `Bucket.Channel(key)`. -/
def Bucket.Channel (b : Bucket) (key : GoString) : Option ChanPtr := b.chs.get key

/-- The method `Bucket.RoomsCount`: the `Online` count of every room of the
bucket whose count is positive, by room id. -/
def Bucket.RoomsCount (b : Bucket) (h : Heap) : GoMap Int :=
  b.rooms.foldl
    (fun res kv => if (h.roomObjs kv.2).Online > 0 then res.set kv.1 (h.roomObjs kv.2).Online
      else res) []

/-- The method `Bucket.UpRoomsCount(roomCountMap)`: every room of the bucket
gets `AllOnline = roomCountMap[roomID]`, zero for an absent id. -/
def Bucket.UpRoomsCount (b : Bucket) (h : Heap) (roomCountMap : GoMap Int) : Heap :=
  b.rooms.foldl
    (fun h kv => h.setRoom kv.2
      { h.roomObjs kv.2 with AllOnline := (roomCountMap.get kv.1).getD 0 }) h

/-- The method `Bucket.BroadcastRoom(arg)`: the counter is advanced, the
worker `counter % RoutineAmount` is picked (a zero `RoutineAmount` is a
division by zero, an index beyond `routines` is out of range) and the request
is sent to its mailbox with a plain send. -/
def Bucket.BroadcastRoom (b : Bucket) (arg : BroadcastRoomReq) : Outcome Bucket :=
  let n := (b.routinesNum + 1) % u64
  if b.c.RoutineAmount = 0 then .panic
  else
    match b.routines[n % b.c.RoutineAmount]? with
    | none => .panic
    | some q =>
      if q.length < b.c.RoutineSize then
        .done { b with routinesNum := n,
                       routines := b.routines.set (n % b.c.RoutineAmount) (q ++ [arg]) }
      else .blocks

/-- The part of the struct `ConnectNodeServer` the push path uses: the
buckets and `bucketIdx`, their number as a `uint32`. -/
structure ConnectNodeServer where
  buckets : List Bucket
  bucketIdx : Nat
deriving DecidableEq

/-- The method `ConnectNodeServer.Bucket(clientID)`, the index of the bucket
it returns. `cityHash32` stands for the library function
`cityhash.CityHash32`; a zero `bucketIdx` is a division by zero. -/
def ConnectNodeServer.Bucket (s : ConnectNodeServer) (cityHash32 : GoString → Nat)
    (clientID : GoString) : Outcome Bucket :=
  if s.bucketIdx = 0 then .panic
  else
    match s.buckets[(cityHash32 clientID % 4294967296) % s.bucketIdx]? with
    | none => .panic
    | some b => .done b

/-- Modelled from the spec: the request `push.PushMsgReq` of the generated
`protocol/push` package, which is not among the sources; the spec (6) gives
`PushMsg(keys[], frame, protoOp)`. The frame is a pointer and may be nil. -/
structure PushMsgReq where
  Keys : List GoString
  Proto : Option Proto
  ProtoOp : Int
deriving DecidableEq

/-- Modelled from the spec: the request `push.BroadcastReq` of the generated
`protocol/push` package, which is not among the sources; the spec (6) gives
`Broadcast(frame, protoOp, speed?)`. The frame is a pointer and may be nil. -/
structure BroadcastReq where
  Proto : Option Proto
  ProtoOp : Int
  Speed : Int
deriving DecidableEq

/-- Modelled from the spec: the generated getter `BroadcastReq.GetProto`,
which is not among the sources: it returns the frame of the request, nil when
the request carries none. -/
def BroadcastReq.GetProto (req : BroadcastReq) : Option Pubsub.Proto := req.Proto

/-- The errors the push calls return. -/
inductive RpcErr
  | ErrPushMsgArg
  | ErrBroadCastArg
  | ErrBroadCastRoomArg
  | chan (e : ChanErr)
deriving DecidableEq

/-- The pair `(reply, err)` a push call returns; `reply` tells whether the
reply pointer is non-nil. -/
structure RpcReturn where
  reply : Bool
  err : Option RpcErr
deriving DecidableEq

/-- The loop of `ConnectNodeServer.PushMsg` (lines 132-149) from the key list
`keys` on. -/
def pushMsgLoop (s : ConnectNodeServer) (cityHash32 : GoString → Nat) (p : Proto)
    (protoOp : Int) : List GoString → Heap → Outcome (RpcReturn × Heap)
  | [], h => .done ({ reply := true, err := none }, h)
  | key :: keys, h =>
    match s.Bucket cityHash32 key with
    | .panic => .panic
    | .blocks => .blocks
    | .done bucket =>
      match bucket.Channel key with
      | none => pushMsgLoop s cityHash32 p protoOp keys h
      | some channel =>
        if ¬ (h.chans channel).NeedPush protoOp then pushMsgLoop s cityHash32 p protoOp keys h
        else
          match ((h.chans channel).Push p).2 with
          | some e =>
            .done ({ reply := false, err := some (.chan e) },
              h.setChan channel ((h.chans channel).Push p).1)
          | none =>
            pushMsgLoop s cityHash32 p protoOp keys
              (h.setChan channel ((h.chans channel).Push p).1)

/-- The method `ConnectNodeServer.PushMsg`. -/
def ConnectNodeServer.PushMsg (s : ConnectNodeServer) (cityHash32 : GoString → Nat) (h : Heap)
    (req : PushMsgReq) : Outcome (RpcReturn × Heap) :=
  match req.Proto with
  | none => .done ({ reply := false, err := some .ErrPushMsgArg }, h)
  | some p =>
    if req.Keys.length = 0 then .done ({ reply := false, err := some .ErrPushMsgArg }, h)
    else pushMsgLoop s cityHash32 p req.ProtoOp req.Keys h

/-- The method `ConnectNodeServer.Broadcast`. Its first statement logs
`req.GetProto().Roomid`, a field read through the pointer the getter returns,
which panics on nil; then comes the nil test. The fan-out it starts with `go`
is given by the heap once that loop over the buckets has run. -/
def ConnectNodeServer.Broadcast (s : ConnectNodeServer) (h : Heap) (req : BroadcastReq) :
    Outcome (RpcReturn × Heap) :=
  match req.GetProto with
  | none => .panic
  | some p =>
    match req.Proto with
    | none => .done ({ reply := false, err := some .ErrBroadCastArg }, h)
    | some _ =>
      .done ({ reply := true, err := none },
        s.buckets.foldl (fun h b => b.Broadcast h p req.ProtoOp) h)

/-- The loop of `ConnectNodeServer.BroadcastRoom` (lines 184-187) over the
buckets `todo`, with the buckets already served in `served`. -/
def broadcastRoomLoop (req : BroadcastRoomReq) :
    List Bucket → List Bucket → Outcome (List Bucket)
  | served, [] => .done served
  | served, b :: todo =>
    match b.BroadcastRoom req with
    | .panic => .panic
    | .blocks => .blocks
    | .done b1 => broadcastRoomLoop req (served ++ [b1]) todo

/-- The method `ConnectNodeServer.BroadcastRoom`. -/
def ConnectNodeServer.BroadcastRoom (s : ConnectNodeServer) (req : BroadcastRoomReq) :
    Outcome (RpcReturn × ConnectNodeServer) :=
  if req.Proto = none ∨ req.RoomID = [] then
    .done ({ reply := false, err := some .ErrBroadCastRoomArg }, s)
  else
    match broadcastRoomLoop req [] s.buckets with
    | .panic => .panic
    | .blocks => .blocks
    | .done bs => .done ({ reply := true, err := none }, { s with buckets := bs })

/-- One round of the loop of `ConnectNodeServer.onlineproc` (lines 102-117):
the local `roomCount` it has summed up, and the heap after every bucket got
`UpRoomsCount(allRoomsCount)`, where `allRoomsCount` is the map variable that
is declared and never assigned. -/
def ConnectNodeServer.onlineproc (s : ConnectNodeServer) (h : Heap) : GoMap Int × Heap :=
  let allRoomsCount : GoMap Int := []
  let roomCount : GoMap Int :=
    s.buckets.foldl
      (fun rc bucket =>
        (bucket.RoomsCount h).foldl
          (fun rc kv => rc.set kv.1 (toInt32 (toUint32 ((rc.get kv.1).getD 0 + kv.2)))) rc) []
  (roomCount, s.buckets.foldl (fun h bucket => bucket.UpRoomsCount h allRoomsCount) h)

/-- The calls of a bucket that register, remove and move channels. -/
inductive BucketOp
  | Put (roomId : GoString) (channel : ChanPtr)
  | Del (channel : ChanPtr)
  | ChangeRoom (newRoomID : GoString) (channel : ChanPtr)
deriving DecidableEq

/-- One call on a bucket; `none` when the send inside `Put` cannot
complete. -/
def Bucket.apply (b : Bucket) (h : Heap) : BucketOp → Option (Bucket × Heap)
  | .Put roomId channel => b.Put h roomId channel
  | .Del channel => some (b.Del h channel)
  | .ChangeRoom newRoomID channel => some (b.ChangeRoom h newRoomID channel)

/-- A sequence of calls on a bucket, in order. -/
def Bucket.run (b : Bucket) (h : Heap) : List BucketOp → Option (Bucket × Heap)
  | [] => some (b, h)
  | op :: ops => (b.apply h op).bind (fun s => s.1.run s.2 ops)

/-! ## The per-ip counters of a bucket (`bucket.go`) -/

/-- The number of channels stored in `chs` whose `IP` is `ip`. -/
def Bucket.ipCount (b : Bucket) (h : Heap) (ip : GoString) : Nat :=
  (b.chs.filter (fun kv => decide ((h.chans kv.2).IP = ip))).length

/-- A call that replaces no channel and touches no counter of another
channel: a `Put` whose key is not taken, or a `Del` whose key is absent or
held by the deleted channel itself. -/
def BucketOp.plain (b : Bucket) (h : Heap) : BucketOp → Bool
  | .Put _ ch => decide (b.chs.get (h.chans ch).Key = none)
  | .Del ch =>
    decide (b.chs.get (h.chans ch).Key = none ∨ b.chs.get (h.chans ch).Key = some ch)
  | .ChangeRoom _ _ => false

/-- A sequence of calls each of which is `plain` in the state it is made
in. -/
def Bucket.plainRun (b : Bucket) (h : Heap) : List BucketOp → Bool
  | [] => true
  | op :: ops =>
    op.plain b h &&
      (match b.apply h op with
       | some s => s.1.plainRun s.2 ops
       | none => false)

/-! ## The buffer pool (`pkg/bytes.go`) -/

/-- The conversion of an integer to a 64 bit `int`, wrapping around. -/
def wrapInt64 (x : Int) : Int := (x + 9223372036854775808) % 18446744073709551616
  - 9223372036854775808

/-- A `*Buffer`, the address of a buffer. -/
abbrev BufPtr := Nat

/-- A `[]byte` slice header: the backing array it points into (`region`, one
per `make`), the offset of its first byte there, its length and its
capacity. -/
structure SliceRef where
  region : Nat
  off : Nat
  len : Nat
  cap : Nat
deriving DecidableEq

/-- The struct `Buffer`; a nil `buf` and a nil `next` are `none`. -/
structure Buffer where
  buf : Option SliceRef
  next : Option BufPtr
deriving DecidableEq

/-- The zero value of `Buffer`. -/
def Buffer.zero : Buffer := { buf := none, next := none }

/-- The struct `Pool` (without its lock). -/
structure Pool where
  free : Option BufPtr
  max : Int
  num : Int
  size : Int
deriving DecidableEq

/-- The heap the pool's pointers refer to: the buffers by address, the address
the next `make([]Buffer, _)` starts at and the number of the next backing
array. -/
structure PoolHeap where
  bufs : BufPtr → Buffer
  nextBuf : Nat
  nextRegion : Nat

/-- The method `Pool.init(num, size)`. -/
def Pool.init (p : Pool) (num size : Int) : Pool :=
  { p with num := num, size := size, max := wrapInt64 (num * size) }

/-- The constructor `NewPool(num, size)`. -/
def NewPool (num size : Int) : Pool :=
  Pool.init { free := none, max := 0, num := 0, size := 0 } num size

/-- The slice expression `buf[lo:hi]` on the array `make([]byte, max)` with
the number `region`; `none` is the panic "slice bounds out of range". -/
def sliceOf (region : Nat) (max lo hi : Int) : Option SliceRef :=
  if 0 ≤ lo ∧ lo ≤ hi ∧ hi ≤ max then
    some { region := region, off := lo.toNat, len := (hi - lo).toNat, cap := (max - lo).toNat }
  else none

/-- The loop `for i = 1; i < p.num; i++` of `grow` (lines 53-57), from the
values `i` and `b` of its variables on; `bs[j]` has the address `base + j`.
It returns the final `i`, `b` and buffers; `none` is a panic, or the fuel
used up, which `p.num` rounds never do. -/
def growLoop (p : Pool) (region : Nat) (base : BufPtr) :
    Nat → Nat → BufPtr → (BufPtr → Buffer) → Option (Nat × BufPtr × (BufPtr → Buffer))
  | 0, _, _, _ => none
  | fuel + 1, i, b, bufs =>
    if (i : Int) < p.num then
      match sliceOf region p.max (wrapInt64 (((i : Int) - 1) * p.size))
          (wrapInt64 ((i : Int) * p.size)) with
      | none => none
      | some s =>
        let bufs1 := Function.update bufs b { bufs b with buf := some s }
        let bufs2 := Function.update bufs1 b { bufs1 b with next := some (base + i) }
        match (bufs2 b).next with
        | none => none
        | some b1 => growLoop p region base fuel (i + 1) b1 bufs2
    else some (i, b, bufs)

/-- The method `Pool.grow`: one array of `p.max` bytes and one array of
`p.num` buffers are made, and the buffers are linked into the free list, each
with its slice of the bytes. `none` is a panic: `make([]byte, p.max)` or
`make([]Buffer, p.num)` with a negative length or one above what `make` can
allocate, `&bs[0]` on an empty array, or a slice out of range. -/
def Pool.grow (L : MakeLimits) (p : Pool) (H : PoolHeap) : Option (Pool × PoolHeap) :=
  if ¬ makeOk L.bytes p.max then none
  else if ¬ makeOk L.buffers p.num then none
  else if p.num = 0 then none
  else
    let base := H.nextBuf
    let bufs0 : BufPtr → Buffer :=
      fun a => if base ≤ a ∧ a < base + p.num.toNat then Buffer.zero else H.bufs a
    match growLoop p H.nextRegion base p.num.toNat 1 base bufs0 with
    | none => none
    | some (i, b, bufs) =>
      match sliceOf H.nextRegion p.max (wrapInt64 (((i : Int) - 1) * p.size))
          (wrapInt64 ((i : Int) * p.size)) with
      | none => none
      | some s =>
        let bufs1 := Function.update bufs b { bufs b with buf := some s }
        some ({ p with free := some base },
          { bufs := Function.update bufs1 b { bufs1 b with next := none },
            nextBuf := base + p.num.toNat, nextRegion := H.nextRegion + 1 })

/-- The method `Pool.Get`: the buffer it returns, and the pool and the heap
it leaves; `none` is a panic. -/
def Pool.Get (L : MakeLimits) (p : Pool) (H : PoolHeap) :
    Option (BufPtr × Pool × PoolHeap) :=
  match p.free with
  | some b => some (b, { p with free := (H.bufs b).next }, H)
  | none =>
    match p.grow L H with
    | none => none
    | some (p1, H1) =>
      match p1.free with
      | none => none
      | some b => some (b, { p1 with free := (H1.bufs b).next }, H1)

/-- The method `Pool.Put(b)` on a non-nil buffer. -/
def Pool.Put (p : Pool) (H : PoolHeap) (b : BufPtr) : Pool × PoolHeap :=
  ({ p with free := some b },
   { H with bufs := Function.update H.bufs b { H.bufs b with next := p.free } })

/-- The first `n` buffers of the list that starts at `b` and follows
`next`. -/
def freeList (bufs : BufPtr → Buffer) : Nat → Option BufPtr → List BufPtr
  | 0, _ => []
  | _ + 1, none => []
  | n + 1, some b => b :: freeList bufs n (bufs b).next

/-- A heap of zero buffers. -/
def emptyPoolHeap : PoolHeap := { bufs := fun _ => Buffer.zero, nextBuf := 0, nextRegion := 0 }

/-! ## The session handler (`connect-node/server_websocket.go`) -/

/-- The constant `protocol.OpAuth`. -/
def OpAuth : Int := 7

/-- The part of a `getty.Session` the handler acts on: the packets handed to
`WritePkg`, in order, and whether `Close` was called. -/
structure Session where
  pkgs : List Proto
  closed : Bool
deriving DecidableEq

/-- The struct `ProtoMessageHandler` of one session. `bucket` is the index
of the bucket `h.bucket` points to, `none` while the pointer is nil. -/
structure ProtoMessageHandler where
  roomId : GoString
  clientId : GoString
  bucket : Option Nat
  auth : Bool
  channel : ChanPtr
deriving DecidableEq

/-- The constructor `newProtoMessageHandler(server, channel, _)`. -/
def newProtoMessageHandler (channel : ChanPtr) : ProtoMessageHandler :=
  { roomId := [], clientId := [], bucket := none, auth := false, channel := channel }

/-- What the handler of a session can reach: the node server with its
buckets, the heap of channels and rooms, and the session. -/
structure World where
  server : ConnectNodeServer
  heap : Heap
  session : Session

/-- The index `cityhash.CityHash32(clientID) % s.bucketIdx` of
`ConnectNodeServer.Bucket`, for a server with buckets. -/
def ConnectNodeServer.bucketIndex (s : ConnectNodeServer) (cityHash32 : GoString → Nat)
    (clientID : GoString) : Nat :=
  (cityHash32 clientID % 4294967296) % s.bucketIdx

/-- The method `ProtoMessageHandler.authWebsocket`: whether it returned nil,
and the handler and the world it leaves. It blocks when the `Put` does. -/
def ProtoMessageHandler.authWebsocket (h : ProtoMessageHandler)
    (cityHash32 : GoString → Nat) (w : World) (p : Proto) :
    Outcome (Bool × ProtoMessageHandler × World) :=
  if p.Roomid ≠ [] ∧ p.Userid ≠ [] ∧ (p.Op = OpAuth ∨ p.Op = 1) then
    match w.server.Bucket cityHash32 p.Userid with
    | .panic => .panic
    | .blocks => .blocks
    | .done b =>
      match b.Put w.heap p.Roomid h.channel with
      | none => .blocks
      | some (b1, heap1) =>
        let idx := w.server.bucketIndex cityHash32 p.Userid
        .done (true,
          { h with roomId := p.Roomid, clientId := p.Userid, bucket := some idx, auth := true },
          { w with server := { w.server with buckets := w.server.buckets.set idx b1 },
                   heap := heap1 })
  else .done (false, h, w)

/-- The method `ProtoMessageHandler.OnMessage` on a package `pkg`, `none`
when it is not a `*proto.Proto`. -/
def ProtoMessageHandler.OnMessage (h : ProtoMessageHandler) (cityHash32 : GoString → Nat)
    (w : World) (pkg : Option Proto) : Outcome (ProtoMessageHandler × World) :=
  match pkg with
  | none => .done (h, w)
  | some p =>
    match (if ¬ h.auth then h.authWebsocket cityHash32 w p else .done (true, h, w)) with
    | .panic => .panic
    | .blocks => .blocks
    | .done (false, h1, w1) => .done (h1, w1)
    | .done (true, h1, w1) =>
      match (w1.heap.chans h1.channel).ClientReqQueue.Set with
      | .err _ => .done (h1, w1)
      | .panic => .panic
      | .slot i =>
        let c := w1.heap.chans h1.channel
        let c1 : Channel := { c with ClientReqQueue := (c.ClientReqQueue.store i p).SetAdv }
        match c1.Signal with
        | none => .blocks
        | some c2 => .done (h1, { w1 with heap := w1.heap.setChan h1.channel c2 })

/-- The errors `processClientRequest` returns: that of the Controller call
and that of `WritePkg`. -/
inductive SessErr
  | joinRoom
  | writePkg
deriving DecidableEq

/-- The body `"join room success"` of the join reply. -/
def joinRoomSuccess : List Byte :=
  [106, 111, 105, 110, 32, 114, 111, 111, 109, 32, 115, 117, 99, 99, 101, 115, 115]

/-- The method `ProtoMessageHandler.processClientRequest`. The Controller
call `JoinRoom(roomId, userId)` and the result of `session.WritePkg` are
outside the repository: `JoinRoom` tells whether the call succeeds, `writeErr`
whether `WritePkg` returns an error for the packet. -/
def ProtoMessageHandler.processClientRequest (h : ProtoMessageHandler)
    (JoinRoom : GoString → GoString → Bool) (writeErr : Proto → Bool) (w : World) (p : Proto) :
    Option SessErr × World :=
  if p.Op = 1 then
    if ¬ JoinRoom p.Roomid p.Userid then (some .joinRoom, w)
    else
      let heap1 := w.heap.setChan h.channel ((w.heap.chans h.channel).Watch [2])
      let resp : Proto :=
        { Ver := p.Ver, Op := toInt32 (toUint32 (p.Op + 1)), Seq := p.Seq, Roomid := p.Roomid,
          Userid := p.Userid, Body := some joinRoomSuccess }
      let w1 : World :=
        { w with heap := heap1, session := { w.session with pkgs := w.session.pkgs ++ [resp] } }
      if writeErr resp then (some .writePkg, w1) else (none, w1)
  else if p.Op = 5 then
    let resp : Proto :=
      { Ver := p.Ver, Op := 6, Seq := p.Seq, Roomid := p.Roomid, Userid := p.Userid,
        Body := none }
    (none, { w with session := { w.session with pkgs := w.session.pkgs ++ [resp] } })
  else (none, w)

/-! ## The push manager (`push-manager/server.go`) -/

/-- A `*BroadcastClient`, the address of a client. -/
abbrev ClientPtr := Nat

/-- The struct `BroadcastClient`: `broadcastChan` holds the queued requests,
oldest first, `chanCap` is the capacity the channel was made with and `closed`
tells whether `Close` has closed it. The connection, the context and the
workers, which run beside the callers, are not part of the state. -/
structure BroadcastClient where
  serverID : GoString
  broadcastChan : List BroadcastReq
  chanCap : Nat
  routineSize : Nat
  closed : Bool
deriving DecidableEq

/-- The heap of clients: the clients by address and the address the next
`&BroadcastClient{...}` gets. -/
structure ClientHeap where
  clients : ClientPtr → BroadcastClient
  nextClient : Nat

/-- The part of the struct `PushManagerServer` the claims are about: the map
`broadCastClientMap` from node id to client. -/
structure PushManagerServer where
  broadCastClientMap : GoMap ClientPtr
deriving DecidableEq

/-- The node id `fmt.Sprintf("connect-node-%s", instance)`. -/
def nodeIDOf (inst : GoString) : GoString :=
  [99, 111, 110, 110, 101, 99, 116, 45, 110, 111, 100, 101, 45] ++ inst

/-- The client `createBroadcastClient` makes for a node (lines 168-179): an
empty queue of capacity 1000 and 10 workers. -/
def newBroadcastClient (nodeID : GoString) : BroadcastClient :=
  { serverID := nodeID, broadcastChan := [], chanCap := 1000, routineSize := 10,
    closed := false }

/-- The loop over `instances` of `createBroadcastClient` (lines 142-187).
`dial` tells for which addresses `grpc.DialContext` succeeds. -/
def createLoop (dial : GoString → Bool) :
    List GoString → GoMap ClientPtr → ClientHeap → GoMap ClientPtr × ClientHeap
  | [], comets, H => (comets, H)
  | inst :: rest, comets, H =>
    match comets.get (nodeIDOf inst) with
    | some _ => createLoop dial rest comets H
    | none =>
      if dial inst then
        createLoop dial rest (comets.set (nodeIDOf inst) H.nextClient)
          { clients := Function.update H.clients H.nextClient (newBroadcastClient (nodeIDOf inst)),
            nextClient := H.nextClient + 1 }
      else createLoop dial rest comets H

/-- The copy loop `for k, v := range m { comets[k] = v }` into a new map
(lines 134-139). -/
def copyMap (m : GoMap ClientPtr) : GoMap ClientPtr :=
  m.foldl (fun c kv => GoMap.set c kv.1 kv.2) []

/-- The method `PushManagerServer.createBroadcastClient(instances)`: the map
is copied, the loop adds the clients that are missing, and the copy becomes
the map. -/
def PushManagerServer.createBroadcastClient (s : PushManagerServer) (H : ClientHeap)
    (dial : GoString → Bool) (instances : List GoString) : PushManagerServer × ClientHeap :=
  let comets := copyMap s.broadCastClientMap
  ({ s with broadCastClientMap := (createLoop dial instances comets H).1 },
    (createLoop dial instances comets H).2)

/-- Modelled from the spec: the request `broadcast.BroadCastReq` of the
generated `protocol/broadcast` package, which is not among the sources; the
spec (6) gives `Broadcast(frame)`. The frame is a pointer and may be nil. -/
structure BroadCastReq where
  Proto : Option Proto
deriving DecidableEq

/-- Modelled from the spec: the reply `broadcast.BroadCastReply` of the
generated `protocol/broadcast` package, "replies `{code,msg,desc}`". -/
structure BroadCastReply where
  Code : GoString
  Msg : GoString
  Desc : GoString
deriving DecidableEq

/-- One round of the loop of `EnqueueBroadcastMsg` (lines 235-240): the
`select` sends when the queue has room and takes the `default` branch when
it is full; a send on a closed channel panics (`none`). -/
def enqueueOne (args : BroadcastReq) (H : ClientHeap) (client : ClientPtr) :
    Option ClientHeap :=
  if (H.clients client).closed then none
  else if (H.clients client).broadcastChan.length < (H.clients client).chanCap then
    some { H with
      clients := Function.update H.clients client
        { H.clients client with broadcastChan := (H.clients client).broadcastChan ++ [args] } }
  else some H

/-- The loop of `EnqueueBroadcastMsg` over the clients of the map. -/
def enqueueLoop (args : BroadcastReq) : List (GoString × ClientPtr) → ClientHeap →
    Option ClientHeap
  | [], H => some H
  | kv :: rest, H =>
    match enqueueOne args H kv.2 with
    | none => none
    | some H1 => enqueueLoop args rest H1

/-- The method `PushManagerServer.EnqueueBroadcastMsg(req)`. Building `args`
reads `req.Proto.Op`, a field read through the frame pointer, which panics on
nil. -/
def PushManagerServer.EnqueueBroadcastMsg (s : PushManagerServer) (H : ClientHeap)
    (req : BroadCastReq) : Outcome ClientHeap :=
  match req.Proto with
  | none => .panic
  | some p =>
    match enqueueLoop { Proto := req.Proto, ProtoOp := p.Op, Speed := 0 }
        s.broadCastClientMap H with
    | none => .panic
    | some H1 => .done H1

/-- The reply of `PushManagerServer.Broadcast`: code `"0"`, message `"OK"`
and its description. -/
def broadcastReplyOK : BroadCastReply :=
  { Code := [48], Msg := [79, 75],
    Desc := [230, 182, 136, 230, 129, 175, 229, 183, 178, 229, 138, 160, 229, 133, 165, 230,
      142, 168, 233, 128, 129, 233, 152, 159, 229, 136, 151] }

/-- The method `PushManagerServer.Broadcast(req)`. -/
def PushManagerServer.Broadcast (s : PushManagerServer) (H : ClientHeap)
    (req : BroadCastReq) : Outcome (BroadCastReply × ClientHeap) :=
  match s.EnqueueBroadcastMsg H req with
  | .panic => .panic
  | .blocks => .blocks
  | .done H1 => .done (broadcastReplyOK, H1)

/-! ## Invariants used in the proofs -/

/-- The shape `init` gives a ring: `num` slots, `mask = num - 1`, and `num`
zero or a power of two that a `uint64` holds. -/
def RingShape (r : Ring) : Prop :=
  r.data.length = r.num ∧ r.mask = subOne64 r.num ∧ (r.num = 0 ∨ ∃ k, k ≤ 63 ∧ r.num = 2 ^ k)

/-- The invariant of a run: with `R` frames read and `W` frames accepted so
far, `rp` and `wp` are `R` and `W` modulo `2 ^ 64`, at most `num` frames are
in flight, and the slot `j mod num` holds the `j`-th accepted frame for every
frame `j` in flight. -/
def RingInv (s : RingRun) : Prop :=
  RingShape s.ring ∧
  ∃ R W : Nat, R ≤ W ∧ W - R ≤ s.ring.num ∧ s.ring.rp = R % u64 ∧ s.ring.wp = W % u64 ∧
    s.accepted.length = W ∧ s.observed = s.accepted.take R ∧
    ∀ j, R ≤ j → j < W → s.ring.data[j % s.ring.num]? = s.accepted[j]?

/-- The run that wraps the write pointer of a one slot ring: `2 ^ 64 - 1`
times a frame is pushed and read, then one more frame is pushed. -/
def wrapOps : List RingOp :=
  (List.replicate (u64 - 1) [RingOp.push default, RingOp.pop]).flatten ++ [RingOp.push default]

/-- A heap of new sessions that all carry the key `"u1"`: every address holds
a channel made by `NewChannel(5, 10)`. -/
def sessionsU1 : Heap :=
  { chans := fun _ => { NewChannelDone 5 10 with Key := idU1 },
    roomObjs := fun _ => NewRoom [],
    nextRoom := 0 }

/-- A heap of sessions with the key `"u1"` that have subscribed to op 2 and
have no room. -/
def watchersU1 : Heap :=
  { chans := fun _ => { (NewChannelDone 5 10).Watch [2] with Key := idU1 },
    roomObjs := fun _ => NewRoom [],
    nextRoom := 0 }

/-- A heap of sessions with the key `"u1"` whose mailbox of capacity 1 is
full: every address holds a channel made by `NewChannel(5, 1)` that has been
pushed one frame. -/
def fullSessionsU1 : Heap :=
  { chans := fun _ => { ((NewChannelDone 5 1).Push pushHi).1 with Key := idU1 },
    roomObjs := fun _ => NewRoom [],
    nextRoom := 0 }

/-- The user id `"u2"`. -/
def idU2 : List Byte := [117, 50]

/-- A heap of two kinds of sessions that watch op 2 and have a mailbox of
capacity 1: the channel at address 0 has the key `"u1"` and a full mailbox,
every other channel has the key `"u2"` and an empty mailbox. -/
def fullAndFreeSessions : Heap :=
  { chans := fun i =>
      if i = 0 then { (((NewChannelDone 5 1).Watch [2]).Push pushHi).1 with Key := idU1 }
      else { (NewChannelDone 5 1).Watch [2] with Key := idU2 },
    roomObjs := fun _ => NewRoom [],
    nextRoom := 0 }

/-- A bucket configuration with one worker whose mailbox holds one request. -/
def oneWorkerConfig : BucketConfig :=
  { Size := 1, Channel := 8, Room := 8, RoutineAmount := 1, RoutineSize := 1 }

/-- The room broadcast of scenario 2, `roomId "r1"`, frame `pushHi`. -/
def roomReqHi : BroadcastRoomReq := { RoomID := idR1, Proto := some pushHi }

/-- The bucket and the heap after the session at address 0 of `sessionsU1`
was put into the room `"r1"` of an empty bucket. -/
def oneSessionU1 : Bucket × Heap :=
  (NewBucket.run sessionsU1 [.Put idR1 0]).getD (NewBucket, sessionsU1)

/-- The invariant of a bucket whose channels, with the keys `K`, have all
joined the one room `r`, held at address `R`: exactly the channels of `S` are
registered, each under its key and with the room `R`, the members of `R` are
the channels of `S`, and `rooms[r]` is `R` as long as `S` is not empty and
absent once it is. -/
def Registered (K : ChanPtr → GoString) (r : GoString) (R : RoomPtr) (S : List ChanPtr)
    (b : Bucket) (h : Heap) : Prop :=
  (∀ c, (h.chans c).Key = K c) ∧
  (∀ c ∈ S, b.chs.get (K c) = some c) ∧
  (∀ k v, b.chs.get k = some v → v ∈ S ∧ K v = k) ∧
  (∀ c ∈ S, (h.chans c).Room = some R) ∧
  (h.roomObjs R).ID = r ∧
  (∀ c, c ∈ (h.roomObjs R).members ↔ c ∈ S) ∧
  (S ≠ [] → b.rooms.get r = some R) ∧
  (S = [] → b.rooms.get r = none)

/-- The invariant of a bucket whose channels, with the keys `K`, were put
with the empty room id: exactly the channels of `S` are registered, each under
its key, and `rooms` is empty. -/
def RegisteredNoRoom (K : ChanPtr → GoString) (S : List ChanPtr) (b : Bucket) (h : Heap) :
    Prop :=
  (∀ c, (h.chans c).Key = K c) ∧
  (∀ c ∈ S, b.chs.get (K c) = some c) ∧
  (∀ k v, b.chs.get k = some v → v ∈ S ∧ K v = k) ∧
  b.rooms = []

/-- A window of 18 bytes, `packLen 18, headerLen 16, ver 1, op 1, seq 1`,
whose last two bytes, the `roomIdLen` field, are `0xFFFE`. -/
def backwardLenWindow : List Byte :=
  [0, 0, 0, 18, 0, 16, 0, 1, 0, 0, 0, 1, 0, 0, 0, 1, 255, 254]

/-- A heap of new sessions as `newSessionFunc` makes them: every address
holds a channel made by `NewChannel(5, 10)`, whose `Key` and `IP` nothing
assigns. -/
def freshSessions : Heap :=
  { chans := fun _ => NewChannelDone 5 10,
    roomObjs := fun _ => NewRoom [],
    nextRoom := 0 }

/-- A node with one empty bucket, new sessions and a session nothing was
written to. -/
def freshWorld : World :=
  { server := { buckets := [NewBucket], bucketIdx := 1 },
    heap := freshSessions,
    session := { pkgs := [], closed := false } }

/-- A join frame of a second user: `ver 1, op 1, seq 1, "r1", "u2"`. -/
def joinFrameU2 : Proto :=
  { Ver := 1, Op := 1, Seq := 1, Roomid := idR1, Userid := idU2, Body := none }

/-- The bucket and the heap after the sessions at the addresses 0 and 1 of
`sessionsU1`, which have the same key and the same ip, were put into the room
`"r1"` of an empty bucket: the second `Put` evicted the first session. -/
def evictedSessionU1 : Bucket × Heap :=
  (NewBucket.run sessionsU1 [.Put idR1 0, .Put idR1 1]).getD (NewBucket, sessionsU1)

/-- The address `"a"` of a connect-node. -/
def addrA : GoString := [97]

/-- The address `"b"` of a connect-node. -/
def addrB : GoString := [98]

/-- A heap without clients. -/
def noClients : ClientHeap :=
  { clients := fun _ => newBroadcastClient [], nextClient := 0 }

/-- A push manager that has never seen a node. -/
def newPushManager : PushManagerServer := { broadCastClientMap := [] }

/-- The push manager and its clients after the snapshot `["a"]` was
reconciled. -/
def managerOfA : PushManagerServer × ClientHeap :=
  newPushManager.createBroadcastClient noClients (fun _ => true) [addrA]

/-- The invariant of the per-ip counters: the keys of `chs` are pairwise
distinct and are the keys of the channels stored under them, at most `n`
channels are stored, and `ipCnts[ip]` is the number of stored channels with
that ip, absent when there is none. -/
def IpInv (n : Nat) (b : Bucket) (h : Heap) : Prop :=
  (b.chs.map Prod.fst).Nodup ∧
  (∀ kv ∈ b.chs, (h.chans kv.2).Key = kv.1) ∧
  b.chs.length ≤ n ∧
  ∀ ip, b.ipCnts.get ip
    = if b.ipCount h ip = 0 then none else some ((b.ipCount h ip : Nat) : Int)

/-! ## The codec: lemmas -/

/-- A slice of the read buffer that lies inside both the window and the visible
part of the buffer reads, after `copy(bufBytes, data)`, the bytes of the window. -/
theorem slice_copy (buf : ByteSlice) (data : List Byte) (lo hi : Nat) (h1 : lo ≤ hi)
    (h2 : hi ≤ data.length) (h3 : hi ≤ buf.len) :
    (copyBytes buf data).slice lo hi = some ((data.drop lo).take (hi - lo)) := by
  unfold ByteSlice.slice ByteSlice.cap copyBytes
  unfold ByteSlice.len at h3
  have e1 : ((hi : Int) - (lo : Int)).toNat = hi - lo := by omega
  simp only [List.length_append, List.length_take, List.length_drop, Int.toNat_ofNat, e1]
  rw [if_pos (by omega)]
  congr 1
  apply List.ext_getElem?
  intro n
  simp only [List.getElem?_take, List.getElem?_drop, List.getElem?_append, List.length_take,
    List.length_append, List.length_drop]
  split_ifs <;> first | rfl | omega

theorem copyBytes_len (buf : ByteSlice) (data : List Byte) :
    (copyBytes buf data).len = buf.len := by
  simp only [copyBytes, ByteSlice.len, List.length_append, List.length_take, List.length_drop]
  omega

/-- The second `copy` of `Read` (line 115) stores a leading part of the window
over the buffer that already holds the window: it changes nothing. -/
theorem copyBytes_again (buf : ByteSlice) (data : List Byte) (n : Nat) :
    copyBytes (copyBytes buf data) (data.take n) = copyBytes buf data := by
  unfold copyBytes
  simp only [ByteSlice.mk.injEq, and_true]
  apply List.ext_getElem?
  intro i
  simp only [List.getElem?_take, List.getElem?_drop, List.getElem?_append, List.length_take,
    List.length_append, List.length_drop, Nat.min_def]
  split_ifs <;> first
    | rfl
    | omega
    | (congr 1; omega)
    | (rw [List.getElem?_eq_none (by omega), List.getElem?_eq_none (by omega)])

theorem writeAt_nil (l : List Byte) (off : Nat) : writeAt l off [] = l := by
  simp [writeAt]

/-- A store right behind the bytes written so far, into the zeroed rest. -/
theorem writeAt_at (a bs : List Byte) (n off : Nat) (h : off = a.length) (hn : bs.length ≤ n) :
    writeAt (a ++ List.replicate n 0) off bs = (a ++ bs) ++ List.replicate (n - bs.length) 0 := by
  subst h
  unfold writeAt
  simp only [List.take_left', List.length_append, List.length_replicate, Nat.add_sub_cancel_left,
    List.append_assoc, List.append_cancel_left_eq]
  rw [List.take_of_length_le hn, List.drop_append, List.drop_replicate]

theorem Uint32_PutUint32 (v : Nat) : Uint32 (PutUint32 v) = v % 4294967296 := by
  simp only [Uint32, PutUint32, toByte, List.getD_cons_zero, List.getD_cons_succ]
  omega

theorem Uint16_PutUint16 (v : Nat) : Uint16 (PutUint16 v) = v % 65536 := by
  simp only [Uint16, PutUint16, toByte, List.getD_cons_zero, List.getD_cons_succ]
  omega

theorem Uint16_lt (b : List Byte) : Uint16 b < 65536 := by
  unfold Uint16
  have h0 := (b.getD 0 0).isLt
  have h1 := (b.getD 1 0).isLt
  omega

theorem Uint32_lt (b : List Byte) : Uint32 b < 4294967296 := by
  unfold Uint32
  have h0 := (b.getD 0 0).isLt
  have h1 := (b.getD 1 0).isLt
  have h2 := (b.getD 2 0).isLt
  have h3 := (b.getD 3 0).isLt
  omega

theorem PutUint32_toUint32 (n : Nat) : PutUint32 (toUint32 (n : Int)) = PutUint32 n := by
  have h : toUint32 (n : Int) = n % 4294967296 := by unfold toUint32; omega
  simp only [PutUint32, toByte, h, List.cons.injEq, Fin.mk.injEq, and_true]
  omega

theorem PutUint16_toUint16 (n : Nat) : PutUint16 (toUint16 (n : Int)) = PutUint16 n := by
  have h : toUint16 (n : Int) = n % 65536 := by unfold toUint16; omega
  simp only [PutUint16, toByte, h, List.cons.injEq, Fin.mk.injEq, and_true]
  omega

theorem ite_writeAt (c : Prop) [Decidable c] (r : List Byte) (off : Nat) (bs : List Byte)
    (hc : ¬ c → bs = []) : (if c then writeAt r off bs else r) = writeAt r off bs := by
  by_cases hcc : c
  · rw [if_pos hcc]
  · rw [if_neg hcc, hc hcc, writeAt_nil]

/-- The stores of `Write`, in source order, produce the wire format of the
specification. -/
theorem Write_eq_wireFormat (p : Proto) : Write p = wireFormat p := by
  have l4 : ∀ v, (PutUint32 v).length = 4 := fun _ => rfl
  have l2 : ∀ v, (PutUint16 v).length = 2 := fun _ => rfl
  unfold Write wireFormat encLen
  simp only []
  rw [ite_writeAt (p.Roomid.length > 0) _ _ p.Roomid
    (fun h => List.length_eq_zero.mp (by omega))]
  rw [ite_writeAt (p.Userid.length > 0) _ _ p.Userid
    (fun h => List.length_eq_zero.mp (by omega))]
  rw [ite_writeAt (p.Body.isSome ∧ p.bodyBytes.length > 0) _ _ p.bodyBytes
    (fun h => by
      cases hb : p.Body with
      | none => simp [Proto.bodyBytes, hb]
      | some b =>
        have : ¬ (p.bodyBytes.length > 0) := fun h2 => h ⟨by simp [hb], h2⟩
        exact List.length_eq_zero.mp (by omega))]
  rw [show List.replicate (16 + 2 + p.Roomid.length + 2 + p.Userid.length + p.bodyBytes.length)
      (0 : Byte) = [] ++ List.replicate
        (16 + 2 + p.Roomid.length + 2 + p.Userid.length + p.bodyBytes.length) 0 from rfl]
  rw [writeAt_at [] _ _ 0 rfl (by rw [l4]; omega)]
  rw [writeAt_at _ _ _ 4 (by simp [l4]) (by simp only [l4, l2]; omega)]
  rw [writeAt_at _ _ _ 6 (by simp [l4, l2]) (by simp only [l4, l2]; omega)]
  rw [writeAt_at _ _ _ 8 (by simp [l4, l2]) (by simp only [l4, l2]; omega)]
  rw [writeAt_at _ _ _ 12 (by simp [l4, l2]) (by simp only [l4, l2]; omega)]
  rw [writeAt_at _ _ _ (12 + 4) (by simp [l4, l2]) (by simp only [l4, l2]; omega)]
  rw [writeAt_at _ _ _ (12 + 4 + 2) (by simp [l4, l2]) (by simp only [l4, l2]; omega)]
  rw [writeAt_at _ _ _ (12 + 4 + 2 + p.Roomid.length) (by simp [l4, l2]; omega) (by simp only [l4, l2]; omega)]
  rw [writeAt_at _ _ _ (12 + 4 + 2 + p.Roomid.length + 2) (by simp [l4, l2]; omega) (by simp only [l4, l2]; omega)]
  rw [writeAt_at _ _ _ (12 + 4 + 2 + p.Roomid.length + 2 + p.Userid.length) (by simp [l4, l2]; omega) (by simp only [l4, l2]; omega)]
  have z : toUint16 16 = 16 := by decide
  simp only [l4, l2, PutUint32_toUint32, PutUint16_toUint16, z, List.nil_append]
  rw [show 16 + 2 + p.Roomid.length + 2 + p.Userid.length + p.bodyBytes.length - 4 - 2 - 2 - 4 - 4
      - 2 - p.Roomid.length - 2 - p.Userid.length - p.bodyBytes.length = 0 by omega]
  simp

/-- A slice of the read buffer that covers the middle one of three parts of the
window reads that part. -/
theorem slice_mid (buf : ByteSlice) (data pre mid post : List Byte) (lo hi : Int)
    (hd : data = pre ++ mid ++ post) (hlo : lo = pre.length)
    (hhi : hi = (pre.length : Int) + mid.length) (hb : pre.length + mid.length ≤ buf.len) :
    (copyBytes buf data).slice lo hi = some mid := by
  have h := slice_copy buf data pre.length (pre.length + mid.length) (by omega)
    (by rw [hd]; simp only [List.length_append]; omega) hb
  rw [hlo, hhi]
  rw [show ((pre.length : Int) + (mid.length : Int)) = ((pre.length + mid.length : Nat) : Int) by
    simp]
  rw [h, hd]
  simp

theorem toInt16_small (n : Nat) (h : n < 32768) : toInt16 (Uint16 (PutUint16 n)) = n := by
  rw [Uint16_PutUint16]
  unfold toInt16
  have : n % 65536 % 65536 = n := by omega
  rw [this, if_pos h]

theorem toInt32_Uint32_small (n : Nat) (h : n < 2147483648) :
    toInt32 (Uint32 (PutUint32 n)) = n := by
  rw [Uint32_PutUint32]
  unfold toInt32
  have : n % 4294967296 % 4294967296 = n := by omega
  rw [this, if_pos h]

theorem toInt32_toUint32 (x : Int) (h1 : -2147483648 ≤ x) (h2 : x < 2147483648) :
    toInt32 (Uint32 (PutUint32 (toUint32 x))) = x := by
  rw [Uint32_PutUint32]
  unfold toInt32 toUint32
  split_ifs <;> omega

theorem toInt32_toUint16 (x : Int) (h1 : 0 ≤ x) (h2 : x < 65536) :
    toInt32 (Uint16 (PutUint16 (toUint16 x))) = x := by
  rw [Uint16_PutUint16]
  unfold toInt32 toUint16
  split_ifs <;> omega

/-- The body step of `Read` on a buffer that holds `body` from the body offset up
to `packLen`. -/
theorem readBody_ok (B : ByteSlice) (L : Int) (pkg : Proto) (uo ul : Int) (body : List Byte)
    (hs : B.slice (uo + 2 + ul) L = some body) (hlen : L - (uo + 2 + ul) = body.length) :
    readBody B L pkg uo ul
      = .ret (some { pkg with Body := if body = [] then none else some body }) L none := by
  unfold readBody
  simp only [_stringLenSize]
  by_cases hb : body = []
  · have h0 : ¬ (L - (uo + 2 + ul) > 0) := by rw [hlen, hb]; simp
    rw [if_neg h0, if_pos hb]
  · have h0 : L - (uo + 2 + ul) > 0 := by
      rw [hlen]
      have := List.length_pos.mpr hb
      omega
    rw [if_pos h0, if_neg hb, show uo + 2 + ul + (L - (uo + 2 + ul)) = L by omega, hs]

/-- The user id step of `Read` on a buffer that holds a length prefixed user id
and the body. -/
theorem readUserId_ok (B : ByteSlice) (L : Int) (pkg : Proto) (uo : Int) (uid body : List Byte)
    (hB : uo + 2 + uid.length ≤ B.len) (hul : uid.length < 32768)
    (h7 : B.slice uo (uo + 2) = some (PutUint16 uid.length))
    (h8 : B.slice (uo + 2) (uo + 2 + uid.length) = some uid)
    (h9 : B.slice (uo + 2 + uid.length) L = some body)
    (hlen : L - (uo + 2 + uid.length) = body.length) :
    readUserId B L pkg uo
      = .ret (some { pkg with Userid := uid, Body := if body = [] then none else some body })
          L none := by
  unfold readUserId
  simp only [_stringLenSize]
  rw [if_neg (by omega), h7]
  simp only [toInt16_small _ hul]
  by_cases hu : uid = []
  · subst hu
    rw [if_neg (by simp)]
    exact readBody_ok B L _ uo _ body h9 hlen
  · have := List.length_pos.mpr hu
    rw [if_pos (by omega), if_neg (by omega), h8]
    exact readBody_ok B L _ uo _ body h9 hlen

/-- The room id step of `Read` on a buffer that holds the two length prefixed
ids and the body. -/
theorem readRoomId_ok (B : ByteSlice) (L : Int) (pkg : Proto) (rid uid body : List Byte)
    (hB : (18 : Int) + rid.length + 2 + uid.length ≤ B.len)
    (hrl : rid.length < 32768) (hul : uid.length < 32768)
    (h5 : B.slice 16 18 = some (PutUint16 rid.length))
    (h6 : B.slice 18 (18 + rid.length) = some rid)
    (h7 : B.slice (18 + rid.length) (18 + rid.length + 2) = some (PutUint16 uid.length))
    (h8 : B.slice (18 + rid.length + 2) (18 + rid.length + 2 + uid.length) = some uid)
    (h9 : B.slice (18 + rid.length + 2 + uid.length) L = some body)
    (hlen : L - (18 + rid.length + 2 + uid.length) = body.length) :
    readRoomId B L pkg
      = .ret (some { pkg with Roomid := rid, Userid := uid,
                              Body := if body = [] then none else some body }) L none := by
  unfold readRoomId
  simp only [_stringLenSize, Int.reduceAdd]
  rw [if_neg (by omega), h5]
  simp only [toInt16_small _ hrl]
  by_cases hr : rid = []
  · subst hr
    rw [if_neg (by simp)]
    exact readUserId_ok B L _ _ uid body hB hul h7 h8 h9 hlen
  · have := List.length_pos.mpr hr
    rw [if_pos (by omega), if_neg (by omega), h6]
    exact readUserId_ok B L _ _ uid body hB hul h7 h8 h9 hlen

/-- Decoding an encoded frame, possibly followed by further bytes: inside the
pack limit `Read` returns the frame, with a nil body for an empty one, and
consumes exactly the encoded length. -/
theorem Read_wireFormat (buf : ByteSlice) (F : Proto) (rest : List Byte)
    (hv : 0 ≤ F.Ver ∧ F.Ver < 65536)
    (hop : -2147483648 ≤ F.Op ∧ F.Op < 2147483648)
    (hseq : -2147483648 ≤ F.Seq ∧ F.Seq < 2147483648)
    (hL : encLen F ≤ 4112) (hbuf : encLen F ≤ buf.len) :
    Read buf (wireFormat F ++ rest)
      = .ret (some { F with Body := if F.bodyBytes = [] then none else some F.bodyBytes })
          (encLen F) none := by
  have l4 : ∀ v, (PutUint32 v).length = 4 := fun _ => rfl
  have l2 : ∀ v, (PutUint16 v).length = 2 := fun _ => rfl
  have hlen : (wireFormat F).length = encLen F := by
    simp only [wireFormat, encLen, List.length_append, l4, l2]
  have hL2 : 16 + 2 + F.Roomid.length + 2 + F.Userid.length + F.bodyBytes.length ≤ 4112 := hL
  have hbuf2 : 16 + 2 + F.Roomid.length + 2 + F.Userid.length + F.bodyBytes.length ≤ buf.len := hbuf
  generalize hdata0 : wireFormat F ++ rest = data
  have hdata := hdata0.symm
  obtain ⟨B, hB⟩ : ∃ b, b = copyBytes buf data := ⟨_, rfl⟩
  have hBlen : B.len = buf.len := by rw [hB, copyBytes_len]
  have s0 : B.slice 0 4 = some (PutUint32 (encLen F)) := by
    rw [hB]
    exact slice_mid buf data [] _ (PutUint16 16 ++ PutUint16 (toUint16 F.Ver)
      ++ PutUint32 (toUint32 F.Op) ++ PutUint32 (toUint32 F.Seq)
      ++ PutUint16 F.Roomid.length ++ F.Roomid
      ++ PutUint16 F.Userid.length ++ F.Userid ++ F.bodyBytes ++ rest) 0 4
      (by rw [hdata]; simp [wireFormat]) (by simp) (by simp [l4])
      (by simp only [l4, List.length_nil]; omega)
  have s1 : B.slice 4 6 = some (PutUint16 16) := by
    rw [hB]
    exact slice_mid buf data (PutUint32 (encLen F)) _ (PutUint16 (toUint16 F.Ver)
      ++ PutUint32 (toUint32 F.Op) ++ PutUint32 (toUint32 F.Seq)
      ++ PutUint16 F.Roomid.length ++ F.Roomid
      ++ PutUint16 F.Userid.length ++ F.Userid ++ F.bodyBytes ++ rest) 4 6
      (by rw [hdata]; simp [wireFormat]) (by simp [l4]) (by simp [l4, l2])
      (by simp only [l4, l2]; omega)
  have s2 : B.slice 6 8 = some (PutUint16 (toUint16 F.Ver)) := by
    rw [hB]
    exact slice_mid buf data (PutUint32 (encLen F) ++ PutUint16 16) _
      (PutUint32 (toUint32 F.Op) ++ PutUint32 (toUint32 F.Seq)
      ++ PutUint16 F.Roomid.length ++ F.Roomid
      ++ PutUint16 F.Userid.length ++ F.Userid ++ F.bodyBytes ++ rest) 6 8
      (by rw [hdata]; simp [wireFormat]) (by simp only [List.length_append, l4, l2]; omega)
      (by simp only [List.length_append, l4, l2]; omega)
      (by simp only [l4, l2, List.length_append]; omega)
  have s3 : B.slice 8 12 = some (PutUint32 (toUint32 F.Op)) := by
    rw [hB]
    exact slice_mid buf data (PutUint32 (encLen F) ++ PutUint16 16 ++ PutUint16 (toUint16 F.Ver)) _
      (PutUint32 (toUint32 F.Seq)
      ++ PutUint16 F.Roomid.length ++ F.Roomid
      ++ PutUint16 F.Userid.length ++ F.Userid ++ F.bodyBytes ++ rest) 8 12
      (by rw [hdata]; simp [wireFormat]) (by simp only [List.length_append, l4, l2]; omega)
      (by simp only [List.length_append, l4, l2]; omega)
      (by simp only [l4, l2, List.length_append]; omega)
  have s4 : B.slice 12 (12 + 4) = some (PutUint32 (toUint32 F.Seq)) := by
    rw [hB]
    exact slice_mid buf data (PutUint32 (encLen F) ++ PutUint16 16 ++ PutUint16 (toUint16 F.Ver)
      ++ PutUint32 (toUint32 F.Op)) _
      (PutUint16 F.Roomid.length ++ F.Roomid
      ++ PutUint16 F.Userid.length ++ F.Userid ++ F.bodyBytes ++ rest) 12 (12 + 4)
      (by rw [hdata]; simp [wireFormat]) (by simp only [List.length_append, l4, l2]; omega)
      (by simp only [List.length_append, l4, l2]; omega)
      (by simp only [l4, l2, List.length_append]; omega)
  have s5 : B.slice 16 18 = some (PutUint16 F.Roomid.length) := by
    rw [hB]
    exact slice_mid buf data (PutUint32 (encLen F) ++ PutUint16 16 ++ PutUint16 (toUint16 F.Ver)
      ++ PutUint32 (toUint32 F.Op) ++ PutUint32 (toUint32 F.Seq)) _
      (F.Roomid ++ PutUint16 F.Userid.length ++ F.Userid ++ F.bodyBytes ++ rest) 16 18
      (by rw [hdata]; simp [wireFormat]) (by simp only [List.length_append, l4, l2]; omega)
      (by simp only [List.length_append, l4, l2]; omega)
      (by simp only [l4, l2, List.length_append]; omega)
  have s6 : B.slice 18 (18 + (F.Roomid.length : Int)) = some F.Roomid := by
    rw [hB]
    exact slice_mid buf data (PutUint32 (encLen F) ++ PutUint16 16 ++ PutUint16 (toUint16 F.Ver)
      ++ PutUint32 (toUint32 F.Op) ++ PutUint32 (toUint32 F.Seq) ++ PutUint16 F.Roomid.length) _
      (PutUint16 F.Userid.length ++ F.Userid ++ F.bodyBytes ++ rest) _ _
      (by rw [hdata]; simp [wireFormat]) (by simp only [List.length_append, l4, l2]; omega)
      (by simp only [List.length_append, l4, l2]; omega)
      (by simp only [l4, l2, List.length_append]; omega)
  have s7 : B.slice (18 + (F.Roomid.length : Int)) (18 + (F.Roomid.length : Int) + 2)
      = some (PutUint16 F.Userid.length) := by
    rw [hB]
    exact slice_mid buf data (PutUint32 (encLen F) ++ PutUint16 16 ++ PutUint16 (toUint16 F.Ver)
      ++ PutUint32 (toUint32 F.Op) ++ PutUint32 (toUint32 F.Seq) ++ PutUint16 F.Roomid.length
      ++ F.Roomid) _
      (F.Userid ++ F.bodyBytes ++ rest) _ _
      (by rw [hdata]; simp [wireFormat]) (by simp only [List.length_append, l4, l2]; omega)
      (by simp only [List.length_append, l4, l2]; omega)
      (by simp only [l4, l2, List.length_append]; omega)
  have s8 : B.slice (18 + (F.Roomid.length : Int) + 2)
      (18 + (F.Roomid.length : Int) + 2 + (F.Userid.length : Int)) = some F.Userid := by
    rw [hB]
    exact slice_mid buf data (PutUint32 (encLen F) ++ PutUint16 16 ++ PutUint16 (toUint16 F.Ver)
      ++ PutUint32 (toUint32 F.Op) ++ PutUint32 (toUint32 F.Seq) ++ PutUint16 F.Roomid.length
      ++ F.Roomid ++ PutUint16 F.Userid.length) _
      (F.bodyBytes ++ rest) _ _
      (by rw [hdata]; simp [wireFormat]) (by simp only [List.length_append, l4, l2]; omega)
      (by simp only [List.length_append, l4, l2]; omega)
      (by simp only [l4, l2, List.length_append]; omega)
  have s9 : B.slice (18 + (F.Roomid.length : Int) + 2 + (F.Userid.length : Int))
      (encLen F : Int) = some F.bodyBytes := by
    rw [hB]
    exact slice_mid buf data (PutUint32 (encLen F) ++ PutUint16 16 ++ PutUint16 (toUint16 F.Ver)
      ++ PutUint32 (toUint32 F.Op) ++ PutUint32 (toUint32 F.Seq) ++ PutUint16 F.Roomid.length
      ++ F.Roomid ++ PutUint16 F.Userid.length ++ F.Userid) _
      rest _ _
      (by rw [hdata]; simp [wireFormat]) (by simp only [List.length_append, l4, l2]; omega)
      (by simp only [List.length_append, l4, l2, encLen]; omega)
      (by simp only [l4, l2, List.length_append]; omega)
  have hdl : data.length = encLen F + rest.length := by
    rw [hdata, List.length_append, hlen]
  have e0 : toInt32 (Uint32 (PutUint32 (encLen F))) = (encLen F : Int) :=
    toInt32_Uint32_small _ (by omega)
  have e1 : toInt16 (Uint16 (PutUint16 16)) = 16 := by decide
  have e2 := toInt32_toUint16 F.Ver hv.1 hv.2
  have e3 := toInt32_toUint32 F.Op hop.1 hop.2
  have e4 := toInt32_toUint32 F.Seq hseq.1 hseq.2
  have e5 := toInt16_small F.Roomid.length (by unfold encLen at hL; omega)
  have e6 := toInt16_small F.Userid.length (by unfold encLen at hL; omega)
  unfold Read
  rw [if_neg (by rw [hdl]; unfold _rawHeaderSize encLen; omega)]
  simp only []
  rw [← hB, s0]
  simp only [e0]
  rw [if_neg (by unfold _maxPackSize MaxBodySize _rawHeaderSize; omega), if_neg (by omega),
    if_neg (by rw [hBlen]; omega)]
  unfold readHeader
  rw [s1]
  simp only [e1, _rawHeaderSize, ne_eq, not_true_eq_false, if_false, s2, s3, s4, e2, e3, e4]
  exact readRoomId_ok B _ _ F.Roomid F.Userid F.bodyBytes (by rw [hBlen]; unfold encLen at hbuf; omega)
    (by omega) (by omega) s5 s6 s7 s8 s9 (by unfold encLen; omega)

theorem Uint32_take (l : List Byte) : Uint32 (l.take 4) = Uint32 l := by
  simp [Uint32, List.getD_eq_getElem?_getD, List.getElem?_take]

theorem Uint16_take (l : List Byte) : Uint16 (l.take 2) = Uint16 l := by
  simp [Uint16, List.getD_eq_getElem?_getD, List.getElem?_take]

theorem toInt32_small (x : Nat) (h : x < 2147483648) : toInt32 x = x := by
  unfold toInt32
  have : x % 4294967296 = x := by omega
  rw [this, if_pos h]

theorem toInt16_eq_iff (x : Nat) (h : x < 65536) : toInt16 x = 16 ↔ x = 16 := by
  unfold toInt16
  have : x % 65536 = x := by omega
  rw [this]
  split_ifs <;> omega

/-- The first slice of `Read`: the `packLen` field of the window. -/
theorem slice_packLen (buf : ByteSlice) (data : List Byte) (hd : 16 ≤ data.length)
    (hb : 4 ≤ buf.len) : (copyBytes buf data).slice 0 4 = some (data.take 4) := by
  have h := slice_copy buf data 0 4 (by omega) (by omega) hb
  simpa using h

/-- A `packLen` field above `_maxPackSize`, also one that is negative as an
`int32`, is rejected with `ErrProtoPackLen`. -/
theorem Read_packLen_too_big (buf : ByteSlice) (data : List Byte) (hd : 16 ≤ data.length)
    (hb : 4 ≤ buf.len) (hp : 4112 < Uint32 data) :
    Read buf data = .ret none 0 (some .ErrProtoPackLen) := by
  unfold Read
  rw [if_neg (by unfold _rawHeaderSize; omega)]
  simp only []
  rw [slice_packLen buf data hd hb]
  simp only [Uint32_take]
  have hlt := Uint32_lt data
  rw [if_pos]
  unfold toInt32 _maxPackSize MaxBodySize _rawHeaderSize
  split_ifs <;> omega

/-- Past the length checks `Read` is `readRoomId` on the buffer that holds
the window, with the header fields of the window. -/
theorem Read_eq_readRoomId (buf : ByteSlice) (data : List Byte) (hd : 16 ≤ data.length)
    (hb : 16 ≤ buf.len) (hp : Uint32 data ≤ 4112) (hl : Uint32 data ≤ data.length)
    (hh : Uint16 (data.drop 4) = 16) :
    Read buf data = readRoomId (copyBytes buf data) (Uint32 data)
      { Ver := toInt32 (Uint16 (data.drop 6)), Op := toInt32 (Uint32 (data.drop 8)),
        Seq := toInt32 (Uint32 (data.drop 12)), Roomid := [], Userid := [], Body := none } := by
  have s1 : (copyBytes buf data).slice 4 6 = some ((data.drop 4).take 2) := by
    simpa using slice_copy buf data 4 6 (by omega) (by omega) (by omega)
  have s2 : (copyBytes buf data).slice 6 8 = some ((data.drop 6).take 2) := by
    simpa using slice_copy buf data 6 8 (by omega) (by omega) (by omega)
  have s3 : (copyBytes buf data).slice 8 12 = some ((data.drop 8).take 4) := by
    simpa using slice_copy buf data 8 12 (by omega) (by omega) (by omega)
  have s4 : (copyBytes buf data).slice 12 (12 + 4) = some ((data.drop 12).take 4) := by
    simpa using slice_copy buf data 12 16 (by omega) (by omega) (by omega)
  unfold Read
  rw [if_neg (by unfold _rawHeaderSize; omega)]
  simp only []
  rw [slice_packLen buf data hd (by omega)]
  simp only [Uint32_take, toInt32_small (Uint32 data) (by omega)]
  rw [if_neg (by unfold _maxPackSize MaxBodySize _rawHeaderSize; omega), if_neg (by omega)]
  have hcopy : (if ((copyBytes buf data).len : Int) < (Uint32 data : Int)
      then copyBytes (copyBytes buf data) (data.take (Uint32 data : Int).toNat)
      else copyBytes buf data) = copyBytes buf data := by
    split_ifs
    · exact copyBytes_again buf data _
    · rfl
  rw [hcopy]
  unfold readHeader
  rw [s1]
  simp only [Uint16_take, hh]
  rw [if_neg (by decide)]
  simp only [s2, s3, s4, Uint16_take, Uint32_take]

/-! ## The codec: the properties of the specification -/

theorem wireFormat_length (F : Proto) : (wireFormat F).length = encLen F := by
  have l4 : ∀ v, (PutUint32 v).length = 4 := fun _ => rfl
  have l2 : ∀ v, (PutUint16 v).length = 2 := fun _ => rfl
  simp only [wireFormat, encLen, List.length_append, l4, l2]

theorem Uint32_wireFormat (F : Proto) : Uint32 (wireFormat F) = encLen F % 4294967296 := by
  rw [← Uint32_PutUint32]
  simp [wireFormat, PutUint32, Uint32]

theorem zeroBuffer_len (n : Nat) : (zeroBuffer n).len = n := by
  simp only [zeroBuffer, ByteSlice.len, List.length_replicate]

theorem maxBodyFrame_encLen : encLen maxBodyFrame = 4116 := by
  simp only [encLen, maxBodyFrame, Proto.bodyBytes, Option.getD_some, List.length_replicate,
    List.length_nil]

/-- C1, as stated, fails: the frame with empty ids and a body of 4096 bytes is
encoded in 4116 bytes, and `Read` rejects that encoding with
`ErrProtoPackLen`, whatever room the read buffer has. -/
theorem C1_roundtrip_fails_at_max_body :
    maxBodyFrame.bodyBytes.length ≤ 4096 ∧
    Read (zeroBuffer 8192) (Write maxBodyFrame) = .ret none 0 (some .ErrProtoPackLen) := by
  have hlen := maxBodyFrame_encLen
  refine ⟨by simp only [maxBodyFrame, Proto.bodyBytes, Option.getD_some, List.length_replicate,
    le_refl], ?_⟩
  rw [Write_eq_wireFormat]
  apply Read_packLen_too_big
  · rw [wireFormat_length, hlen]; decide
  · rw [zeroBuffer_len]; decide
  · rw [Uint32_wireFormat, hlen]; decide

/-- C1, amended. Codec round trip within the pack limit: for every frame `F`
with `0 ≤ ver < 65536`, `op` and `seq` in the `int32` range and an encoded
length `16 + 2 + |roomId| + 2 + |userId| + |body|` of at most 4112, and every
read buffer that holds the encoding, `Read` on the bytes of `Write(F)`
succeeds, consumes all of them and returns a frame equal to `F` in `ver`,
`op`, `seq`, `roomId`, `userId` and the body bytes. -/
theorem C1_roundtrip_within_pack_limit (buf : ByteSlice) (F : Proto)
    (hv : 0 ≤ F.Ver ∧ F.Ver < 65536)
    (hop : -2147483648 ≤ F.Op ∧ F.Op < 2147483648)
    (hseq : -2147483648 ≤ F.Seq ∧ F.Seq < 2147483648)
    (hL : 16 + 2 + F.Roomid.length + 2 + F.Userid.length + F.bodyBytes.length ≤ 4112)
    (hbuf : (Write F).length ≤ buf.len) :
    ∃ p, Read buf (Write F) = .ret (some p) (Write F).length none ∧
      p.Ver = F.Ver ∧ p.Op = F.Op ∧ p.Seq = F.Seq ∧ p.Roomid = F.Roomid ∧
      p.Userid = F.Userid ∧ p.bodyBytes = F.bodyBytes := by
  rw [Write_eq_wireFormat, wireFormat_length] at *
  have h := Read_wireFormat buf F [] hv hop hseq hL hbuf
  rw [List.append_nil] at h
  refine ⟨_, h, rfl, rfl, rfl, rfl, rfl, ?_⟩
  simp only [Proto.bodyBytes]
  split_ifs with hb
  · simp only [Proto.bodyBytes] at hb
    simp [hb]
  · rfl

/-- C1, amended, on the join frame of scenario 1 and a buffer of 4112
bytes. -/
theorem C1_roundtrip_within_pack_limit_witness :
    ∃ p, Read (zeroBuffer 4112) (Write sampleFrame)
        = .ret (some p) (Write sampleFrame).length none ∧
      p.Ver = sampleFrame.Ver ∧ p.Op = sampleFrame.Op ∧ p.Seq = sampleFrame.Seq ∧
      p.Roomid = sampleFrame.Roomid ∧ p.Userid = sampleFrame.Userid ∧
      p.bodyBytes = sampleFrame.bodyBytes :=
  C1_roundtrip_within_pack_limit (zeroBuffer 4112) sampleFrame (by decide) (by decide)
    (by decide) (by decide) (by rw [zeroBuffer_len]; decide)

/-- C2, the code at the failing input: on a window whose `packLen` field is
15, below the 16 bytes of the header, `Read` does not return
`ErrProtoPackLen`; with any read buffer of 20 bytes or more it returns a frame,
15 consumed bytes and no error. -/
theorem C2_short_packLen_accepted (buf : ByteSlice) (hb : 20 ≤ buf.len) :
    Read buf shortPackWindow
      = .ret (some { Ver := 1, Op := 1, Seq := 1, Roomid := [], Userid := [], Body := none })
          15 none := by
  have s5 : (copyBytes buf shortPackWindow).slice 16 18 = some [0, 0] := by
    simpa [shortPackWindow] using slice_copy buf shortPackWindow 16 18 (by omega) (by decide)
      (by omega)
  have s6 : (copyBytes buf shortPackWindow).slice 18 20 = some [0, 0] := by
    simpa [shortPackWindow] using slice_copy buf shortPackWindow 18 20 (by omega) (by decide)
      (by omega)
  have hlen : (copyBytes buf shortPackWindow).len = buf.len := copyBytes_len _ _
  rw [Read_eq_readRoomId buf shortPackWindow (by decide) (by omega) (by decide) (by decide)
    (by decide)]
  have e0 : Uint32 shortPackWindow = 15 := by decide
  have e1 : toInt32 (Uint16 (shortPackWindow.drop 6)) = 1 := by decide
  have e2 : toInt32 (Uint32 (shortPackWindow.drop 8)) = 1 := by decide
  have e3 : toInt32 (Uint32 (shortPackWindow.drop 12)) = 1 := by decide
  have e5 : toInt16 (Uint16 [0, 0]) = 0 := by decide
  rw [e0, e1, e2, e3]
  unfold readRoomId
  simp only [_stringLenSize, Int.reduceAdd]
  rw [if_neg (by rw [hlen]; omega), s5]
  simp only [e5]
  rw [if_neg (by decide)]
  unfold readUserId
  simp only [_stringLenSize, Int.reduceAdd, add_zero]
  rw [if_neg (by rw [hlen]; omega), s6]
  simp only [e5]
  rw [if_neg (by decide)]
  unfold readBody
  simp only [_stringLenSize, Int.reduceAdd, add_zero]
  rw [if_neg (by decide)]
  rfl

/-- C2 at the failing input, with a zeroed read buffer of 4112 bytes. -/
theorem C2_short_packLen_accepted_witness :
    Uint32 shortPackWindow = 15 ∧
    Read (zeroBuffer 4112) shortPackWindow
      = .ret (some { Ver := 1, Op := 1, Seq := 1, Roomid := [], Userid := [], Body := none })
          15 none :=
  ⟨by decide, C2_short_packLen_accepted (zeroBuffer 4112) (by rw [zeroBuffer_len]; decide)⟩

/-- C3, the code at the failing input: on a complete window of 20 bytes whose
`roomIdLen` field is `0x8000`, which `int16` reads as `-32768`, `Read` panics:
the user id offset `18 - 32768` is negative, the length test before it does
not catch that, and the slice expression at that offset is out of range. -/
theorem C3_negative_roomIdLen_panics (buf : ByteSlice) (hb : 4112 ≤ buf.len) :
    Read buf negativeLenWindow = .panic := by
  have s5 : (copyBytes buf negativeLenWindow).slice 16 18 = some [128, 0] := by
    simpa [negativeLenWindow] using slice_copy buf negativeLenWindow 16 18 (by omega)
      (by decide) (by omega)
  have hlen : (copyBytes buf negativeLenWindow).len = buf.len := copyBytes_len _ _
  rw [Read_eq_readRoomId buf negativeLenWindow (by decide) (by omega) (by decide) (by decide)
    (by decide)]
  have e5 : toInt16 (Uint16 [128, 0]) = -32768 := by decide
  unfold readRoomId
  simp only [_stringLenSize, Int.reduceAdd]
  rw [if_neg (by rw [hlen]; omega), s5]
  simp only [e5]
  rw [if_neg (by decide)]
  unfold readUserId
  simp only [_stringLenSize, Int.reduceAdd, Int.reduceNeg]
  rw [if_neg (by rw [hlen]; omega)]
  have hs : (copyBytes buf negativeLenWindow).slice (-32750) (-32748) = none := by
    unfold ByteSlice.slice
    rw [if_neg (by omega)]
  rw [hs]

/-- C3 at the failing input, with a zeroed read buffer of 4112 bytes. -/
theorem C3_negative_roomIdLen_panics_witness :
    4112 ≤ (zeroBuffer 4112).len ∧ Read (zeroBuffer 4112) negativeLenWindow = .panic :=
  ⟨le_of_eq (zeroBuffer_len 4112).symm,
    C3_negative_roomIdLen_panics (zeroBuffer 4112) (le_of_eq (zeroBuffer_len 4112).symm)⟩

/-- C4. Read rejections consume nothing: for every window whose `packLen`
field is within `16 .. 4112` and every read buffer of at least 6 bytes, `Read`
returns `ErrNotEnoughStream` when the window is shorter than `packLen`, and
`ErrProtoHeaderLen` when the window holds all `packLen` bytes and its
`headerLen` field is not 16; both times with no frame and 0 consumed bytes. -/
theorem C4_read_rejections (buf : ByteSlice) (data : List Byte) (hb : 6 ≤ buf.len)
    (hp : 16 ≤ Uint32 data ∧ Uint32 data ≤ 4112) :
    (data.length < Uint32 data → Read buf data = .ret none 0 (some .ErrNotEnoughStream)) ∧
    (Uint32 data ≤ data.length → Uint16 (data.drop 4) ≠ 16 →
      Read buf data = .ret none 0 (some .ErrProtoHeaderLen)) := by
  constructor
  · intro hlt
    unfold Read
    by_cases hd : (data.length : Int) < _rawHeaderSize
    · rw [if_pos hd]
    · rw [if_neg hd]
      unfold _rawHeaderSize at hd
      simp only []
      rw [slice_packLen buf data (by omega) (by omega)]
      simp only [Uint32_take, toInt32_small (Uint32 data) (by omega)]
      rw [if_neg (by unfold _maxPackSize MaxBodySize _rawHeaderSize; omega), if_pos (by omega)]
  · intro hle hh
    have hd : 16 ≤ data.length := by omega
    have s1 : (copyBytes buf data).slice 4 6 = some ((data.drop 4).take 2) := by
      simpa using slice_copy buf data 4 6 (by omega) (by omega) (by omega)
    unfold Read
    rw [if_neg (by unfold _rawHeaderSize; omega)]
    simp only []
    rw [slice_packLen buf data hd (by omega)]
    simp only [Uint32_take, toInt32_small (Uint32 data) (by omega)]
    rw [if_neg (by unfold _maxPackSize MaxBodySize _rawHeaderSize; omega), if_neg (by omega)]
    have hcopy : (if ((copyBytes buf data).len : Int) < (Uint32 data : Int)
        then copyBytes (copyBytes buf data) (data.take (Uint32 data : Int).toNat)
        else copyBytes buf data) = copyBytes buf data := by
      split_ifs
      · exact copyBytes_again buf data _
      · rfl
    rw [hcopy]
    unfold readHeader
    rw [s1]
    simp only [Uint16_take]
    rw [if_pos]
    unfold _rawHeaderSize
    exact fun h => hh ((toInt16_eq_iff _ (Uint16_lt _)).mp h)

/-- C4 on a complete window with `headerLen` 12 and on its first 18 bytes. -/
theorem C4_read_rejections_witness :
    Read (zeroBuffer 4112) (badHeaderWindow.take 18) = .ret none 0 (some .ErrNotEnoughStream) ∧
    Read (zeroBuffer 4112) badHeaderWindow = .ret none 0 (some .ErrProtoHeaderLen) :=
  ⟨(C4_read_rejections (zeroBuffer 4112) (badHeaderWindow.take 18)
      (by rw [zeroBuffer_len]; decide) (by decide)).1 (by decide),
   (C4_read_rejections (zeroBuffer 4112) badHeaderWindow
      (by rw [zeroBuffer_len]; decide) (by decide)).2 (by decide) (by decide)⟩

/-- C5. `Write` emits exactly the wire format: for every frame with
`0 ≤ ver < 65536` and id lengths below 65536 the result has length
`L = 16 + 2 + |roomId| + 2 + |userId| + |body|` and is, in this order and with
nothing after, `L` as a big-endian `u32`, 16 and `ver` as big-endian `u16`,
`op` and `seq` as big-endian 32 bit values, the `u16` length and the bytes of
`roomId`, the `u16` length and the bytes of `userId`, and the body bytes; the
three `u16` fields read back as `ver` and the two id lengths. -/
theorem C5_write_wire_format (F : Proto) (hv : 0 ≤ F.Ver ∧ F.Ver < 65536)
    (hr : F.Roomid.length < 65536) (hu : F.Userid.length < 65536) :
    (Write F).length = 16 + 2 + F.Roomid.length + 2 + F.Userid.length + F.bodyBytes.length ∧
    Write F = PutUint32 (16 + 2 + F.Roomid.length + 2 + F.Userid.length + F.bodyBytes.length)
      ++ PutUint16 16 ++ PutUint16 F.Ver.toNat
      ++ PutUint32 (toUint32 F.Op) ++ PutUint32 (toUint32 F.Seq)
      ++ PutUint16 F.Roomid.length ++ F.Roomid
      ++ PutUint16 F.Userid.length ++ F.Userid ++ F.bodyBytes ∧
    Uint16 (PutUint16 F.Ver.toNat) = F.Ver.toNat ∧
    Uint16 (PutUint16 F.Roomid.length) = F.Roomid.length ∧
    Uint16 (PutUint16 F.Userid.length) = F.Userid.length := by
  have hver : toUint16 F.Ver = F.Ver.toNat := by
    unfold toUint16
    omega
  refine ⟨?_, ?_, ?_, ?_, ?_⟩
  · rw [Write_eq_wireFormat, wireFormat_length]; rfl
  · rw [Write_eq_wireFormat, wireFormat, hver]; rfl
  · rw [Uint16_PutUint16]; omega
  · rw [Uint16_PutUint16]; omega
  · rw [Uint16_PutUint16]; omega

/-- C5 on the join frame of scenario 1. -/
theorem C5_write_wire_format_witness :
    Write sampleFrame
      = [0, 0, 0, 29, 0, 16, 0, 1, 0, 0, 0, 1, 0, 0, 0, 1, 0, 2, 114, 49, 0, 2, 117, 49,
         97, 108, 105, 99, 101] :=
  (C5_write_wire_format sampleFrame (by decide) (by decide) (by decide)).2.1.trans (by decide)

/-! ## The ring: lemmas -/

theorem subOne64_pos (x : Nat) (h1 : 1 ≤ x) (h2 : x < u64) : subOne64 x = x - 1 := by
  unfold subOne64 u64 at *
  omega

theorem and_pred_two_pow (k : Nat) : 2 ^ k &&& (2 ^ k - 1) = 0 := by
  rw [Nat.and_pow_two_sub_one_eq_mod, Nat.mod_self]

theorem testBit_top (k m : Nat) (h1 : 2 ^ k ≤ m) (h2 : m < 2 ^ (k + 1)) :
    m.testBit k = true := by
  rw [Nat.testBit_to_div_mod]
  have hd : m / 2 ^ k = 1 := by
    apply Nat.div_eq_of_lt_le
    · simpa using h1
    · rw [pow_succ] at h2; omega
  simp [hd]

theorem and_pred_ge (k m : Nat) (h1 : 2 ^ k < m) (h2 : m < 2 ^ (k + 1)) :
    2 ^ k ≤ m &&& (m - 1) := by
  apply Nat.testBit_implies_ge
  rw [Nat.testBit_and, testBit_top k m (by omega) h2, testBit_top k (m - 1) (by omega) (by omega)]
  rfl

/-- With fuel `num` the loop of `init` stops at the highest power of two that is
at most `num`. -/
theorem initLoop_eq (fuel : Nat) : ∀ (num k : Nat), 2 ^ k ≤ num → num < 2 ^ (k + 1) →
    num ≤ fuel → num < u64 → initLoop fuel num = 2 ^ k := by
  induction fuel with
  | zero =>
    intro num k h1 _ h3 _
    have := Nat.pos_pow_of_pos k (by decide : 0 < 2)
    omega
  | succ fuel ih =>
    intro num k h1 h2 h3 h4
    have hp : 0 < 2 ^ k := Nat.pos_pow_of_pos k (by decide)
    rw [initLoop, subOne64_pos num (by omega) h4]
    by_cases hc : num &&& (num - 1) ≠ 0
    · rw [if_pos hc]
      have hne : num ≠ 2 ^ k := by
        intro h
        rw [h] at hc
        exact hc (and_pred_two_pow k)
      have hge := and_pred_ge k num (by omega) h2
      have hle : num &&& (num - 1) ≤ num - 1 := Nat.and_le_right
      exact ih _ k hge (by omega) (by omega) (by omega)
    · rw [if_neg hc]
      by_contra hne
      have hge := and_pred_ge k num (by omega) h2
      omega

theorem exists_log (n : Nat) (h : 1 ≤ n) : ∃ k, 2 ^ k ≤ n ∧ n < 2 ^ (k + 1) :=
  ⟨Nat.log 2 n, Nat.pow_log_le_self 2 (by omega), Nat.lt_pow_succ_log_self (by decide) n⟩

/-- The rounding block of `init`: a power of two is kept, every other size
between `2 ^ k` and `2 ^ (k + 1)` becomes `2 ^ (k + 1)` modulo `2 ^ 64`. -/
theorem roundNum_eq (n k : Nat) (h1 : 2 ^ k ≤ n) (h2 : n < 2 ^ (k + 1)) (h3 : n < u64) :
    roundNum n = if n = 2 ^ k then n else (2 ^ (k + 1)) % u64 := by
  have hp : 0 < 2 ^ k := Nat.pos_pow_of_pos k (by decide)
  unfold roundNum
  rw [subOne64_pos n (by omega) h3]
  by_cases hn : n = 2 ^ k
  · rw [if_pos hn, hn, and_pred_two_pow, if_neg (by simp)]
  · rw [if_neg hn]
    have hge := and_pred_ge k n (by omega) h2
    rw [if_pos (by omega), initLoop_eq n n k h1 h2 (le_refl _) h3, pow_succ]

/-- The loop of `init` has stopped when its fuel ends: the loop test is false at
the value it returns. -/
theorem initLoop_exit (n : Nat) (h : n < u64) :
    initLoop n n &&& subOne64 (initLoop n n) = 0 := by
  rcases Nat.eq_zero_or_pos n with h0 | h0
  · subst h0; rfl
  · obtain ⟨k, h1, h2⟩ := exists_log n h0
    have hp : 0 < 2 ^ k := Nat.pos_pow_of_pos k (by decide)
    rw [initLoop_eq n n k h1 h2 (le_refl _) h, subOne64_pos _ hp (by omega), and_pred_two_pow]

theorem roundNum_shape (n : Nat) (h : n < u64) :
    roundNum n = 0 ∨ ∃ k, k ≤ 63 ∧ roundNum n = 2 ^ k := by
  rcases Nat.eq_zero_or_pos n with h0 | h0
  · subst h0; left; rfl
  · obtain ⟨k, h1, h2⟩ := exists_log n h0
    have hk : k ≤ 63 := by
      by_contra hk
      have : 2 ^ 64 ≤ 2 ^ k := Nat.pow_le_pow_right (by decide) (by omega)
      unfold u64 at h
      omega
    rw [roundNum_eq n k h1 h2 h]
    by_cases hn : n = 2 ^ k
    · rw [if_pos hn]; right; exact ⟨k, hk, hn⟩
    · rw [if_neg hn]
      by_cases hk2 : k = 63
      · subst hk2; left; decide
      · right
        refine ⟨k + 1, by omega, ?_⟩
        apply Nat.mod_eq_of_lt
        have : 2 ^ (k + 1) ≤ 2 ^ 63 := Nat.pow_le_pow_right (by decide) (by omega)
        unfold u64
        omega

theorem init_shape (r : Ring) (n : Nat) (h : n < u64) : RingShape (r.initDone n) := by
  unfold RingShape Ring.initDone
  simp only [List.length_replicate, true_and]
  exact roundNum_shape n h

theorem toNat_mod_u64_lt (n : Int) : (n % (u64 : Int)).toNat < u64 := by
  unfold u64
  omega

theorem NewRing_shape (n : Int) : RingShape (NewRingDone n) :=
  init_shape _ _ (toNat_mod_u64_lt n)

/-- `init` returns the ring `initDone` describes when `make` returns, and
panics otherwise. -/
theorem init_done (L : MakeLimits) (r : Ring) (n : Nat) :
    r.init L n = if roundNum n < 9223372036854775808 ∧ roundNum n ≤ L.protos
      then some (r.initDone n) else none := by
  unfold Ring.init Ring.initDone makeOk
  by_cases h : roundNum n < 9223372036854775808 ∧ roundNum n ≤ L.protos
  · have h2 : roundNum n < 9223372036854775808 ∧
        decide (0 ≤ (roundNum n : Int) ∧ (roundNum n : Int) ≤ (L.protos : Int)) = true := by
      refine ⟨h.1, ?_⟩
      rw [decide_eq_true_eq]
      omega
    simp only [if_pos h, if_pos h2]
  · have h2 : ¬ (roundNum n < 9223372036854775808 ∧
        decide (0 ≤ (roundNum n : Int) ∧ (roundNum n : Int) ≤ (L.protos : Int)) = true) := by
      rw [decide_eq_true_eq]
      omega
    simp only [if_neg h, if_neg h2]

/-- The ring `NewRing` returns is `NewRingDone`. -/
theorem NewRing_done (L : MakeLimits) (n : Int) (r : Ring) (h : NewRing L n = some r) :
    r = NewRingDone n := by
  unfold NewRing at h
  rw [init_done] at h
  split_ifs at h
  simp only [Option.some.injEq] at h
  exact h.symm

/-- The channel `NewChannel` returns is `NewChannelDone`, and its mailbox has
the capacity asked for. -/
theorem NewChannel_done (L : MakeLimits) (cli svr : Int) (c : Channel)
    (h : NewChannel L cli svr = some c) : c = NewChannelDone cli svr.toNat ∧ 0 ≤ svr := by
  unfold NewChannel at h
  cases hq : Ring.zero.Init L cli with
  | none => rw [hq] at h; exact absurd h (by simp)
  | some q =>
    rw [hq] at h
    have hq2 : q = NewRingDone cli := NewRing_done L cli q hq
    simp only [] at h
    split_ifs at h with hs
    simp only [Option.some.injEq] at h
    unfold makeOk at hs
    rw [decide_eq_true_eq] at hs
    refine ⟨?_, hs.1⟩
    rw [← h, hq2]
    rfl

/-- On the machine `smallMachine`, `NewChannel(5, 10)` and `NewChannel(5, 1)`
return. -/
theorem NewChannel_small :
    NewChannel smallMachine 5 10 = some (NewChannelDone 5 10) ∧
    NewChannel smallMachine 5 1 = some (NewChannelDone 5 1) := by
  constructor <;> decide

/-- The store through the pointer `Set` returned puts the frame into that
slot, and `SetAdv` moves the write pointer by one. -/
theorem store_SetAdv (r : Ring) (i : Nat) (p : Proto) (h : i < r.data.length) :
    ((r.store i p).SetAdv).data[i]? = some p ∧
    ((r.store i p).SetAdv).wp = (r.wp + 1) % u64 ∧ ((r.store i p).SetAdv).rp = r.rp := by
  refine ⟨?_, rfl, rfl⟩
  show (r.data.set i p)[i]? = some p
  rw [List.getElem?_set_self h]

theorem two_pow_le_u64 (k : Nat) (hk : k ≤ 63) : 2 ^ k < u64 := by
  have : 2 ^ k ≤ 2 ^ 63 := Nat.pow_le_pow_right (by decide) hk
  unfold u64
  omega

theorem two_pow_dvd_u64 (k : Nat) (hk : k ≤ 63) : 2 ^ k ∣ u64 := by
  have : u64 = 2 ^ 64 := by decide
  rw [this]
  exact Nat.pow_dvd_pow 2 (by omega)

/-- On a ring of the shape `init` gives, with at least one slot, the index
`p & mask` of a `uint64` position is the position modulo `num`. -/
theorem index_eq_mod (r : Ring) (hs : RingShape r) (hn : r.num ≠ 0) (x : Nat) :
    (x % u64) &&& r.mask = x % r.num := by
  obtain ⟨_, hm, hk⟩ := hs
  rcases hk with hk | ⟨k, hk, hnum⟩
  · exact absurd hk hn
  · have hp : 0 < 2 ^ k := Nat.pos_pow_of_pos k (by decide)
    rw [hm, hnum, subOne64_pos _ hp (two_pow_le_u64 k hk), Nat.and_pow_two_sub_one_eq_mod,
      Nat.mod_mod_of_dvd _ (two_pow_dvd_u64 k hk)]

theorem num_lt_u64 (r : Ring) (hs : RingShape r) : r.num < u64 := by
  obtain ⟨_, _, hk⟩ := hs
  rcases hk with hk | ⟨k, hk, hnum⟩
  · rw [hk]; decide
  · rw [hnum]; exact two_pow_le_u64 k hk

theorem mod_ne_of_lt (j W num : Nat) (h1 : j < W) (h2 : W - j < num) : j % num ≠ W % num := by
  intro h
  have hd : num ∣ W - j := (Nat.modEq_iff_dvd' (le_of_lt h1)).mp h
  have := Nat.le_of_dvd (by omega) hd
  omega

theorem wrap_diff (R W : Nat) (h1 : R ≤ W) (h2 : W - R < u64) :
    (W % u64 + u64 - R % u64) % u64 = W - R := by
  unfold u64 at *
  omega

theorem fresh_inv (n : Int) : RingInv (RingRun.fresh n) := by
  refine ⟨NewRing_shape n, 0, 0, le_refl _, Nat.zero_le _, rfl, rfl, rfl, rfl, ?_⟩
  intro j h1 h2
  omega

/-- A producer step keeps the invariant and does not panic. -/
theorem step_push_inv (s : RingRun) (p : Proto) (h : RingInv s) :
    ∃ t, s.step (.push p) = some t ∧ RingInv t := by
  obtain ⟨hs, R, W, hRW, hnum, hrp, hwp, hacc, hobs, hslot⟩ := h
  have hlt := num_lt_u64 s.ring hs
  have hd : (s.ring.wp + u64 - s.ring.rp) % u64 = W - R := by
    rw [hrp, hwp]; exact wrap_diff R W hRW (by omega)
  unfold RingRun.step Ring.Set
  rw [hd]
  by_cases hfull : W - R ≥ s.ring.num
  · rw [if_pos hfull]
    exact ⟨s, rfl, hs, R, W, hRW, hnum, hrp, hwp, hacc, hobs, hslot⟩
  · rw [if_neg hfull]
    have hn0 : s.ring.num ≠ 0 := by omega
    have hidx : s.ring.wp &&& s.ring.mask = W % s.ring.num := by
      rw [hwp]; exact index_eq_mod s.ring hs hn0 W
    have hil : W % s.ring.num < s.ring.data.length := by
      rw [hs.1]; exact Nat.mod_lt _ (by omega)
    rw [hidx, if_pos hil]
    refine ⟨_, rfl, ?_, R, W + 1, by omega, ?_, hrp, ?_, ?_, ?_, ?_⟩
    · obtain ⟨h1, h2, h3⟩ := hs
      refine ⟨?_, h2, h3⟩
      simp only [Ring.SetAdv, Ring.store, List.length_set]
      exact h1
    · simp only [Ring.SetAdv, Ring.store]; omega
    · simp only [Ring.SetAdv, Ring.store, hwp]
      unfold u64; omega
    · simp only [List.length_append, List.length_singleton, hacc]
    · simp only [hobs]
      rw [List.take_append_of_le_length (by omega)]
    · intro j hj1 hj2
      simp only [Ring.SetAdv, Ring.store]
      by_cases hjW : j = W
      · subst hjW
        rw [List.getElem?_set_self hil, List.getElem?_append_right (by omega)]
        simp [hacc]
      · have hne : W % s.ring.num ≠ j % s.ring.num :=
          fun e => mod_ne_of_lt j W s.ring.num (by omega) (by omega) e.symm
        rw [List.getElem?_set_ne hne, hslot j hj1 (by omega),
          List.getElem?_append_left (by omega)]

/-- A consumer step keeps the invariant and does not panic. -/
theorem step_pop_inv (s : RingRun) (h : RingInv s) :
    ∃ t, s.step .pop = some t ∧ RingInv t := by
  obtain ⟨hs, R, W, hRW, hnum, hrp, hwp, hacc, hobs, hslot⟩ := h
  have hlt := num_lt_u64 s.ring hs
  unfold RingRun.step Ring.Get
  by_cases he : s.ring.rp = s.ring.wp
  · rw [if_pos he]
    exact ⟨s, rfl, hs, R, W, hRW, hnum, hrp, hwp, hacc, hobs, hslot⟩
  · rw [if_neg he]
    have hRltW : R < W := by
      rcases Nat.lt_or_ge R W with h | h
      · exact h
      · exfalso; apply he; rw [hrp, hwp]; congr 1; omega
    have hn0 : s.ring.num ≠ 0 := by omega
    have hidx : s.ring.rp &&& s.ring.mask = R % s.ring.num := by
      rw [hrp]; exact index_eq_mod s.ring hs hn0 R
    have hil : R % s.ring.num < s.ring.data.length := by
      rw [hs.1]; exact Nat.mod_lt _ (by omega)
    rw [hidx, if_pos hil]
    have hget : s.ring.data.getD (R % s.ring.num) default = s.accepted[R] := by
      have := hslot R (le_refl _) hRltW
      rw [List.getD_eq_getElem?_getD, this, List.getElem?_eq_getElem (by omega)]
      rfl
    refine ⟨_, rfl, hs, R + 1, W, by omega, ?_, ?_, hwp, hacc, ?_, ?_⟩
    · simp only [Ring.GetAdv]; omega
    · simp only [Ring.GetAdv, hrp]
      unfold u64; omega
    · simp only [hobs, hget]
      rw [List.take_succ, List.getElem?_eq_getElem (by omega)]
      rfl
    · intro j hj1 hj2
      simp only [Ring.GetAdv]
      exact hslot j (by omega) hj2

/-- Every run from a state with the invariant completes in a state with the
invariant. -/
theorem run_inv (ops : List RingOp) : ∀ s : RingRun, RingInv s →
    ∃ t, s.run ops = some t ∧ RingInv t := by
  induction ops with
  | nil => intro s h; exact ⟨s, rfl, h⟩
  | cons op ops ih =>
    intro s h
    have hstep : ∃ t, s.step op = some t ∧ RingInv t := by
      cases op with
      | push p => exact step_push_inv s p h
      | pop => exact step_pop_inv s h
    obtain ⟨t, ht, hinv⟩ := hstep
    obtain ⟨u, hu, huinv⟩ := ih t hinv
    refine ⟨u, ?_, huinv⟩
    rw [RingRun.run, ht]
    exact hu

/-- What the invariant says in terms of the state alone: the wrapping
difference `wp - rp` is the number of accepted frames not yet read. -/
theorem inv_counts (s : RingRun) (h : RingInv s) :
    s.observed.length ≤ s.accepted.length ∧
    s.accepted.length - s.observed.length ≤ s.ring.num ∧
    s.ring.rp = s.observed.length % u64 ∧ s.ring.wp = s.accepted.length % u64 ∧
    (s.ring.wp + u64 - s.ring.rp) % u64 = s.accepted.length - s.observed.length := by
  obtain ⟨hs, R, W, hRW, hnum, hrp, hwp, hacc, hobs, _⟩ := h
  have hlt := num_lt_u64 s.ring hs
  have hol : s.observed.length = R := by
    rw [hobs, List.length_take, hacc]; omega
  rw [hol, hacc]
  refine ⟨hRW, hnum, hrp, hwp, ?_⟩
  rw [hrp, hwp]
  exact wrap_diff R W hRW (by omega)

theorem Set_full_iff (r : Ring) :
    r.Set = .err .ErrRingFull ↔ (r.wp + u64 - r.rp) % u64 ≥ r.num := by
  unfold Ring.Set
  constructor
  · intro h
    by_contra hc
    rw [if_neg hc] at h
    split_ifs at h
  · intro h
    rw [if_pos h]

theorem step_push_accepts (s : RingRun) (p : Proto) (h : RingInv s)
    (hroom : s.accepted.length - s.observed.length < s.ring.num) :
    ∃ t, s.step (.push p) = some t ∧ RingInv t ∧ t.accepted = s.accepted ++ [p] ∧
      t.observed = s.observed ∧ t.ring.num = s.ring.num := by
  obtain ⟨t, ht, hinv⟩ := step_push_inv s p h
  refine ⟨t, ht, hinv, ?_⟩
  obtain ⟨_, _, _, _, hd⟩ := inv_counts s h
  have hnf : ¬ ((s.ring.wp + u64 - s.ring.rp) % u64 ≥ s.ring.num) := by omega
  unfold RingRun.step Ring.Set at ht
  rw [if_neg hnf] at ht
  split_ifs at ht
  · simp only [Option.some.injEq] at ht
    subst ht
    exact ⟨rfl, rfl, rfl⟩

theorem run_append (a b : List RingOp) : ∀ s : RingRun,
    s.run (a ++ b) = (s.run a).bind (fun t => t.run b) := by
  induction a with
  | nil => intro s; rfl
  | cons op a ih =>
    intro s
    simp only [List.cons_append, RingRun.run]
    cases s.step op with
    | none => rfl
    | some t => exact ih t

/-- On a ring nobody reads from, pushes are all accepted as long as they fit. -/
theorem pushes_accepted (ps : List Proto) : ∀ s : RingRun, RingInv s → s.observed = [] →
    s.accepted.length + ps.length ≤ s.ring.num →
    ∃ t, s.run (ps.map RingOp.push) = some t ∧ RingInv t ∧ t.accepted = s.accepted ++ ps ∧
      t.observed = [] ∧ t.ring.num = s.ring.num := by
  induction ps with
  | nil => intro s h ho _; exact ⟨s, rfl, h, by simp, ho, rfl⟩
  | cons p ps ih =>
    intro s h ho hl
    simp only [List.length_cons] at hl
    obtain ⟨t, ht, hinv, hacc, hobs, hnum⟩ :=
      step_push_accepts s p h (by rw [ho]; simp; omega)
    obtain ⟨u, hu, huinv, huacc, huobs, hunum⟩ := ih t hinv (by rw [hobs, ho])
      (by rw [hacc, hnum]; simp; omega)
    refine ⟨u, ?_, huinv, ?_, huobs, by rw [hunum, hnum]⟩
    · simp only [List.map_cons, RingRun.run, ht]
      exact hu
    · rw [huacc, hacc]; simp

theorem NewRing_one :
    NewRingDone 1 = { rp := 0, num := 1, mask := 0, wp := 0, data := [default] } := by decide

theorem pair_step (k : Nat) (hk : k + 1 < u64) (acc obs : List Proto) :
    RingRun.run { ring := { rp := k, num := 1, mask := 0, wp := k, data := [default] },
                  accepted := acc, observed := obs } [RingOp.push default, RingOp.pop]
      = some { ring := { rp := k + 1, num := 1, mask := 0, wp := k + 1, data := [default] },
               accepted := acc ++ [default], observed := obs ++ [default] } := by
  have h1 : (k + u64 - k) % u64 = 0 := by unfold u64; omega
  have h2 : (k + 1) % u64 = k + 1 := Nat.mod_eq_of_lt hk
  simp [RingRun.run, RingRun.step, Ring.Set, Ring.Get, Ring.store, Ring.SetAdv, Ring.GetAdv,
    h1, h2]

theorem pairs_run (k : Nat) (hk : k < u64) :
    (RingRun.fresh 1).run (List.replicate k [RingOp.push default, RingOp.pop]).flatten
      = some { ring := { rp := k, num := 1, mask := 0, wp := k, data := [default] },
               accepted := List.replicate k default, observed := List.replicate k default } := by
  induction k with
  | zero => simp [RingRun.run, RingRun.fresh, NewRing_one]
  | succ k ih =>
    rw [List.replicate_succ', List.flatten_append, run_append, ih (by omega)]
    simp only [List.flatten_cons, List.flatten_nil, List.append_nil]
    show RingRun.run _ [RingOp.push default, RingOp.pop] = _
    rw [pair_step k hk, List.replicate_succ' k]

/-- The state after the run `wrapOps` on a one slot ring. -/
theorem wrapOps_run :
    (RingRun.fresh 1).run wrapOps
      = some { ring := { rp := u64 - 1, num := 1, mask := 0, wp := 0, data := [default] },
               accepted := List.replicate u64 default,
               observed := List.replicate (u64 - 1) default } := by
  unfold wrapOps
  rw [run_append, pairs_run (u64 - 1) (by decide)]
  have h1 : (u64 - 1 + u64 - (u64 - 1)) % u64 = 0 := by decide
  have h2 : (u64 - 1 + 1) % u64 = 0 := by decide
  have h3 : List.replicate (u64 - 1) (default : Proto) ++ [default] = List.replicate u64 default := by
    rw [← List.replicate_succ']
    rfl
  simp [RingRun.run, RingRun.step, Ring.Set, Ring.store, Ring.SetAdv, h1, h2, h3]

/-! ## The ring: the properties of the specification -/

/-- C6. The ring is first-in first-out: on a ring initialised with any size,
every sequence of producer steps (`Set`, store, `SetAdv`; a frame is dropped
when `Set` returns `ErrRingFull`) and consumer steps (`Get`, read, `GetAdv`;
nothing is read when `Get` returns `ErrRingEmpty`) runs without a panic, and
the frames the consumer has read are a leading part of the frames accepted
from the producer, in the order they were written. -/
theorem C6_ring_fifo (n : Int) (ops : List RingOp) :
    ∃ t, (RingRun.fresh n).run ops = some t ∧ ∃ rest, t.accepted = t.observed ++ rest := by
  obtain ⟨t, ht, hinv⟩ := run_inv ops (RingRun.fresh n) (fresh_inv n)
  refine ⟨t, ht, ?_⟩
  obtain ⟨_, R, W, _, _, _, _, _, hobs, _⟩ := hinv
  exact ⟨t.accepted.drop R, by rw [hobs, List.take_append_drop]⟩

/-- C7, as stated, fails: on a ring of one slot, after `2 ^ 64 - 1` frames
were pushed and read and one more frame was pushed, the write pointer has
wrapped to `0` while the read pointer is `2 ^ 64 - 1`, so `rp ≤ wp` does not
hold in this reachable state. -/
theorem C7_rp_le_wp_fails_after_wrap :
    ∃ t, (RingRun.fresh 1).run wrapOps = some t ∧ ¬ (t.ring.rp ≤ t.ring.wp) := by
  refine ⟨_, wrapOps_run, ?_⟩
  decide

/-- C7, amended. In every state reachable from a freshly initialised ring by
producer and consumer steps, the wrapping `uint64` difference `wp - rp` is at
most `num`, and `Set` returns `ErrRingFull` exactly when that difference is
`num`; as long as fewer than `2 ^ 64` frames were accepted in all, `rp ≤ wp`
and `wp - rp ≤ num` hold for the plain values too. From the empty ring `num`
consecutive pushes are all accepted and the next `Set` fails. -/
theorem C7_ring_fullness (n : Int) :
    (∀ ops t, (RingRun.fresh n).run ops = some t →
      (t.ring.wp + u64 - t.ring.rp) % u64 ≤ t.ring.num ∧
      (t.ring.Set = .err .ErrRingFull ↔ (t.ring.wp + u64 - t.ring.rp) % u64 = t.ring.num) ∧
      (t.accepted.length < u64 →
        t.ring.rp ≤ t.ring.wp ∧ t.ring.wp - t.ring.rp ≤ t.ring.num ∧
        (t.ring.Set = .err .ErrRingFull ↔ t.ring.wp - t.ring.rp = t.ring.num))) ∧
    (∀ ps : List Proto, ps.length = (NewRingDone n).num →
      ∃ t, (RingRun.fresh n).run (ps.map RingOp.push) = some t ∧ t.accepted = ps ∧
        t.ring.Set = .err .ErrRingFull) := by
  constructor
  · intro ops t ht
    obtain ⟨u, hu, hinv⟩ := run_inv ops (RingRun.fresh n) (fresh_inv n)
    rw [ht] at hu
    simp only [Option.some.injEq] at hu
    subst hu
    obtain ⟨h1, h2, h3, h4, h5⟩ := inv_counts t hinv
    refine ⟨by omega, ?_, ?_⟩
    · rw [Set_full_iff]; omega
    · intro hlt
      have e1 : t.ring.wp = t.accepted.length := by rw [h4]; exact Nat.mod_eq_of_lt hlt
      have e2 : t.ring.rp = t.observed.length := by
        rw [h3]; exact Nat.mod_eq_of_lt (by omega)
      refine ⟨by omega, by omega, ?_⟩
      rw [Set_full_iff]; omega
  · intro ps hps
    obtain ⟨t, ht, hinv, hacc, hobs, hnum⟩ :=
      pushes_accepted ps (RingRun.fresh n) (fresh_inv n) rfl
        (by show 0 + ps.length ≤ (NewRingDone n).num; omega)
    refine ⟨t, ht, by simpa [RingRun.fresh] using hacc, ?_⟩
    obtain ⟨h1, h2, h3, h4, h5⟩ := inv_counts t hinv
    rw [Set_full_iff, h5, hobs, hacc, hnum]
    show (NewRingDone n).num ≤ _
    simp [RingRun.fresh]
    omega

/-- C7, amended, on the ring of scenario 6: a ring of size 4 takes exactly
four pushes. -/
theorem C7_ring_fullness_witness :
    ([default, default, default, default] : List Proto).length = (NewRingDone 4).num ∧
    ∃ t, (RingRun.fresh 4).run
        (([default, default, default, default] : List Proto).map RingOp.push) = some t ∧
      t.accepted = [default, default, default, default] ∧ t.ring.Set = .err .ErrRingFull :=
  ⟨by decide, (C7_ring_fullness 4).2 [default, default, default, default] (by decide)⟩

/-- C8, as stated, fails: the size `2 ^ 62` is within the stated range and is
a power of two, so the rounding leaves it as it is, and
`make([]protocol.Proto, 2 ^ 62)` panics: `init` and `NewRing` leave no
ring. -/
theorem C8_init_panics_on_large_sizes :
    (1 ≤ 4611686018427387904 ∧ 4611686018427387904 ≤ 2 ^ 62) ∧
    roundNum 4611686018427387904 = 4611686018427387904 ∧
    Ring.zero.init smallMachine 4611686018427387904 = none ∧
    NewRing smallMachine 4611686018427387904 = none := by
  refine ⟨by decide, by decide, by decide, by decide⟩

/-- C8, amended. Ring size rounding: for a requested size `1 ≤ n ≤ 2 ^ 62` the
loop of `init` stops (its exit test holds at the value it returns) and the
rounding leaves `num` the smallest power of two that is at least `n`, `n`
itself when `n` is a power of two. When `make` can allocate that many slots,
`init` returns with that `num`, `mask = num - 1` and exactly `num` slots, all
zero frames, and the pointers as they were; when it cannot, `init` panics. -/
theorem C8_init_rounds_up (L : MakeLimits) (r : Ring) (n : Nat) (h1 : 1 ≤ n)
    (h2 : n ≤ 2 ^ 62) :
    initLoop n n &&& subOne64 (initLoop n n) = 0 ∧
    ∃ k, roundNum n = 2 ^ k ∧ n ≤ 2 ^ k ∧ (∀ j, n ≤ 2 ^ j → k ≤ j) ∧
      ((∃ j, n = 2 ^ j) → roundNum n = n) ∧
      (2 ^ k ≤ L.protos →
        ∃ r1, r.init L n = some r1 ∧ r1.num = 2 ^ k ∧ r1.mask = 2 ^ k - 1 ∧
          r1.data.length = 2 ^ k ∧ r1.data = List.replicate (2 ^ k) default ∧
          r1.rp = r.rp ∧ r1.wp = r.wp) ∧
      (L.protos < 2 ^ k → r.init L n = none) := by
  have hu : n < u64 := by unfold u64; omega
  refine ⟨initLoop_exit n hu, ?_⟩
  obtain ⟨k0, hk1, hk2⟩ := exists_log n h1
  have hk0 : k0 ≤ 62 := by
    by_contra hc
    have : 2 ^ 63 ≤ 2 ^ k0 := Nat.pow_le_pow_right (by decide) (by omega)
    omega
  have hr := roundNum_eq n k0 hk1 hk2 hu
  -- the rounded size and its exponent
  obtain ⟨k, hk, hround, hle, hleast, hpow⟩ : ∃ k, k ≤ 62 ∧ roundNum n = 2 ^ k ∧ n ≤ 2 ^ k ∧
      (∀ j, n ≤ 2 ^ j → k ≤ j) ∧ ((∃ j, n = 2 ^ j) → roundNum n = n) := by
    by_cases hn : n = 2 ^ k0
    · rw [if_pos hn] at hr
      refine ⟨k0, hk0, by rw [hr, ← hn], by omega, ?_, ?_⟩
      · intro j hj
        rw [hn] at hj
        exact (Nat.pow_le_pow_iff_right (by decide)).mp hj
      · intro _; rw [hr]
    · rw [if_neg hn] at hr
      have hk62 : k0 + 1 ≤ 62 := by
        by_contra hc
        have : k0 = 62 := by omega
        subst this
        omega
      have hlt : 2 ^ (k0 + 1) < u64 := two_pow_le_u64 _ (by omega)
      rw [Nat.mod_eq_of_lt hlt] at hr
      refine ⟨k0 + 1, hk62, hr, by omega, ?_, ?_⟩
      · intro j hj
        have : 2 ^ k0 < 2 ^ j := by omega
        have := (Nat.pow_lt_pow_iff_right (by decide : 1 < 2)).mp this
        omega
      · rintro ⟨j, hj⟩
        exfalso
        rw [hj] at hk1 hk2
        have a := (Nat.pow_le_pow_iff_right (by decide : 1 < 2)).mp hk1
        have b := (Nat.pow_lt_pow_iff_right (by decide : 1 < 2)).mp hk2
        have : j = k0 := by omega
        exact hn (by rw [hj, this])
  have hp : 0 < 2 ^ k := Nat.pos_pow_of_pos _ (by decide)
  have hlt : 2 ^ k < u64 := two_pow_le_u64 _ (by omega)
  have h63 : 2 ^ k < 9223372036854775808 := by
    have : 2 ^ k ≤ 2 ^ 62 := Nat.pow_le_pow_right (by decide) hk
    omega
  refine ⟨k, hround, hle, hleast, hpow, ?_, ?_⟩
  · intro hfit
    refine ⟨r.initDone n, ?_, ?_, ?_, ?_, ?_, rfl, rfl⟩
    · rw [init_done, if_pos (by rw [hround]; exact ⟨h63, hfit⟩)]
    · show roundNum n = 2 ^ k
      exact hround
    · show subOne64 (roundNum n) = 2 ^ k - 1
      rw [hround, subOne64_pos _ hp hlt]
    · show (List.replicate (roundNum n) (default : Proto)).length = 2 ^ k
      rw [List.length_replicate, hround]
    · show List.replicate (roundNum n) (default : Proto) = _
      rw [hround]
  · intro hbig
    rw [init_done, if_neg (by rw [hround]; omega)]

/-- C8, amended, on the size 5 and the machine `smallMachine`: the ring gets
8 slots and the mask 7; on a machine whose `make` allocates at most 4 slots,
`init` panics. -/
theorem C8_init_rounds_up_witness :
    (1 ≤ 5 ∧ 5 ≤ 2 ^ 62) ∧
    (∃ r1, Ring.zero.init smallMachine 5 = some r1 ∧ r1.num = 8 ∧ r1.mask = 7 ∧
      r1.data.length = 8) ∧
    Ring.zero.init { smallMachine with protos := 4 } 5 = none := by
  obtain ⟨_, k, hk, _, _, _, hok, _⟩ :=
    C8_init_rounds_up smallMachine Ring.zero 5 (by decide) (by decide)
  obtain ⟨_, k2, hk2, _, _, _, _, hbad⟩ :=
    C8_init_rounds_up { smallMachine with protos := 4 } Ring.zero 5 (by decide) (by decide)
  have e : roundNum 5 = 8 := by decide
  have ek : k = 3 := by
    rw [e] at hk
    exact Nat.pow_right_injective (le_refl 2) (by show 2 ^ k = 2 ^ 3; rw [← hk])
  have ek2 : k2 = 3 := by
    rw [e] at hk2
    exact Nat.pow_right_injective (le_refl 2) (by show 2 ^ k2 = 2 ^ 3; rw [← hk2])
  subst ek
  subst ek2
  refine ⟨by decide, ?_, hbad (by decide)⟩
  obtain ⟨r1, h1, h2, h3, h4, _⟩ := hok (by decide)
  exact ⟨r1, h1, h2, h3, h4⟩

/-! ## The bucket: lemmas -/

theorem GoMap.get_set_self {V : Type} (m : GoMap V) (k : GoString) (v : V) :
    (m.set k v).get k = some v := by
  simp [GoMap.get, GoMap.set, List.lookup]

theorem setChan_chans (h : Heap) (c : ChanPtr) (v : Channel) (x : ChanPtr) :
    ((h.setChan c v).chans x) = if x = c then v else h.chans x := by
  simp only [Heap.setChan, Function.update_apply]

theorem setRoom_chans (h : Heap) (r : RoomPtr) (v : Room) : (h.setRoom r v).chans = h.chans :=
  rfl

/-- The room part of `Put` changes no mailbox, key or capacity. -/
theorem enterRoom_chans (b : Bucket) (h : Heap) (roomId : GoString) (ch : ChanPtr) :
    (b.enterRoom h roomId ch).1.chs = b.chs ∧
    ∀ c, ((b.enterRoom h roomId ch).2.1.chans c).signal = (h.chans c).signal ∧
      ((b.enterRoom h roomId ch).2.1.chans c).Key = (h.chans c).Key ∧
      ((b.enterRoom h roomId ch).2.1.chans c).signalCap = (h.chans c).signalCap := by
  unfold Bucket.enterRoom
  by_cases hr : roomId ≠ []
  · rw [if_pos hr]
    cases hg : b.rooms.get roomId with
    | some room =>
      refine ⟨rfl, fun c => ?_⟩
      simp only [setChan_chans]
      by_cases hc : c = ch
      · subst hc; simp
      · simp [hc]
    | none =>
      refine ⟨rfl, fun c => ?_⟩
      simp only [setChan_chans, setRoom_chans]
      by_cases hc : c = ch
      · subst hc; simp
      · simp [hc]
  · rw [if_neg hr]
    exact ⟨rfl, fun c => ⟨rfl, rfl, rfl⟩⟩

/-- Once the eviction went through, `Put` completes: it registers the channel
under its key and leaves every mailbox as the eviction left it. -/
theorem Put_of_evict (b : Bucket) (h : Heap) (roomId : GoString) (ch : ChanPtr) (h1 : Heap)
    (he : b.evict h (h.chans ch).Key = some h1) :
    ∃ b2 h2, b.Put h roomId ch = some (b2, h2) ∧
      b2.chs = b.chs.set (h1.chans ch).Key ch ∧
      ∀ c, (h2.chans c).signal = (h1.chans c).signal ∧ (h2.chans c).Key = (h1.chans c).Key ∧
        (h2.chans c).signalCap = (h1.chans c).signalCap := by
  unfold Bucket.Put
  rw [he]
  simp only []
  obtain ⟨hchs, hch⟩ := enterRoom_chans
    { b with chs := b.chs.set (h1.chans ch).Key ch } h1 roomId ch
  rcases hres : Bucket.enterRoom { b with chs := b.chs.set (h1.chans ch).Key ch } h1 roomId ch
    with ⟨b2, h2, room⟩
  rw [hres] at hchs hch
  simp only [] at hchs hch
  cases room with
  | none => exact ⟨_, _, rfl, hchs, hch⟩
  | some r => exact ⟨_, _, rfl, hchs, fun c => hch c⟩

theorem evict_free (b : Bucket) (h : Heap) (key : GoString) (hk : b.chs.get key = none) :
    b.evict h key = some h := by
  unfold Bucket.evict
  rw [hk]

theorem evict_old (b : Bucket) (h : Heap) (key : GoString) (old : ChanPtr)
    (hk : b.chs.get key = some old)
    (hroom : (h.chans old).signal.length < (h.chans old).signalCap) :
    b.evict h key = some (h.setChan old
      { h.chans old with signal := (h.chans old).signal ++ [.ProtoFinish] }) := by
  unfold Bucket.evict Channel.Close
  rw [hk]
  simp only [if_pos hroom, Option.map_some']

/-- One round of the broadcast loop changes no room, no subscription and no
room pointer, and it leaves the mailbox of a channel alone when that channel
does not watch `op` or is in a room with another id than a non-empty
`p.Roomid`. -/
theorem broadcastOne_props (p : Proto) (op : Int) (h : Heap) (ch : ChanPtr) :
    (broadcastOne p op h ch).roomObjs = h.roomObjs ∧
    ∀ x, ((broadcastOne p op h ch).chans x).watchOps = (h.chans x).watchOps ∧
      ((broadcastOne p op h ch).chans x).Room = (h.chans x).Room ∧
      ((h.chans x).NeedPush op = false ∨ roomMismatch p h (h.chans x) = true →
        ((broadcastOne p op h ch).chans x).signal = (h.chans x).signal) := by
  unfold broadcastOne
  simp only []
  by_cases h1 : ¬ (h.chans ch).NeedPush op = true
  · rw [if_pos h1]
    exact ⟨rfl, fun x => ⟨rfl, rfl, fun _ => rfl⟩⟩
  · rw [if_neg h1]
    by_cases h2 : roomMismatch p h (h.chans ch) = true
    · rw [if_pos h2]
      exact ⟨rfl, fun x => ⟨rfl, rfl, fun _ => rfl⟩⟩
    · rw [if_neg h2]
      refine ⟨rfl, fun x => ?_⟩
      rw [setChan_chans]
      by_cases hx : x = ch
      · subst hx
        rw [if_pos rfl]
        refine ⟨?_, ?_, ?_⟩
        · unfold Channel.Push; split_ifs <;> rfl
        · unfold Channel.Push; split_ifs <;> rfl
        · intro hs
          rcases hs with hs | hs
          · exact absurd (by simpa using hs) h1
          · exact absurd hs h2
      · rw [if_neg hx]
        exact ⟨rfl, rfl, fun _ => rfl⟩

theorem roomMismatch_congr (p : Proto) (h h2 : Heap) (c c2 : Channel)
    (hr : h2.roomObjs = h.roomObjs) (hc : c2.Room = c.Room) :
    roomMismatch p h2 c2 = roomMismatch p h c := by
  unfold roomMismatch
  rw [hr, hc]

/-- `Broadcast` leaves the mailbox of every channel that does not watch `op`,
and of every channel whose room has another id than a non-empty `p.Roomid`,
unchanged. -/
theorem Broadcast_skips (p : Proto) (op : Int) (l : GoMap ChanPtr) : ∀ (h : Heap) (c : ChanPtr),
    ((h.chans c).NeedPush op = false ∨ roomMismatch p h (h.chans c) = true) →
    ((l.foldl (fun h kv => broadcastOne p op h kv.2) h).chans c).signal
      = (h.chans c).signal := by
  induction l with
  | nil => intro h c _; rfl
  | cons kv l ih =>
    intro h c hs
    obtain ⟨hr, hx⟩ := broadcastOne_props p op h kv.2
    obtain ⟨hw, hroom, hsig⟩ := hx c
    rw [List.foldl_cons, ih (broadcastOne p op h kv.2) c ?_, hsig hs]
    rcases hs with hs | hs
    · left
      unfold Channel.NeedPush at *
      rw [hw]; exact hs
    · right
      rw [roomMismatch_congr p h _ (h.chans c) _ hr hroom]
      exact hs

/-- What `Put` does to the registry and the mailboxes: when the channel
registered under the key, if any, has room in its mailbox, `Put` completes,
the key maps to the new channel, the evicted channel has `ProtoFinish`
appended to its mailbox and every other mailbox is as before. -/
theorem Put_complete (b : Bucket) (h : Heap) (roomId : GoString) (ch : ChanPtr)
    (hprior : ∀ o, b.chs.get (h.chans ch).Key = some o →
      (h.chans o).signal.length < (h.chans o).signalCap) :
    ∃ b2 h2, b.Put h roomId ch = some (b2, h2) ∧
      b2.chs.get (h.chans ch).Key = some ch ∧
      ∀ c, (h2.chans c).Key = (h.chans c).Key ∧
        (h2.chans c).signalCap = (h.chans c).signalCap ∧
        (h2.chans c).signal =
          if b.chs.get (h.chans ch).Key = some c then (h.chans c).signal ++ [.ProtoFinish]
          else (h.chans c).signal := by
  cases hk : b.chs.get (h.chans ch).Key with
  | none =>
    obtain ⟨b2, h2, hput, hchs, hsig⟩ :=
      Put_of_evict b h roomId ch h (evict_free b h _ hk)
    refine ⟨b2, h2, hput, by rw [hchs]; exact GoMap.get_set_self _ _ _, fun c => ?_⟩
    obtain ⟨s1, s2, s3⟩ := hsig c
    exact ⟨s2, s3, by simp [s1]⟩
  | some o =>
    have hroom := hprior o hk
    obtain ⟨b2, h2, hput, hchs, hsig⟩ :=
      Put_of_evict b h roomId ch _ (evict_old b h _ o hk hroom)
    have hkey : ∀ c, ((h.setChan o
        { h.chans o with signal := (h.chans o).signal ++ [.ProtoFinish] }).chans c).Key
        = (h.chans c).Key := by
      intro c
      rw [setChan_chans]
      by_cases hc : c = o
      · subst hc; simp
      · simp [hc]
    refine ⟨b2, h2, hput, ?_, fun c => ?_⟩
    · rw [hchs, hkey]; exact GoMap.get_set_self _ _ _
    · obtain ⟨s1, s2, s3⟩ := hsig c
      rw [s1, s2, s3, hkey, setChan_chans]
      by_cases hc : c = o
      · subst hc; simp
      · have : ¬ (some o = some c) := fun e => hc (Option.some.inj e).symm
        simp [hc, this]

/-! ## The bucket: the properties of the specification -/

/-- C9. Bucket single login: for distinct channels `chA` and `chB` with the
same key, `chA` having room in its mailbox, and a bucket in which that key is
free or held by a third channel with room in its mailbox, `Put(r, chA)`
followed by `Put(r, chB)` both complete and leave `chs[key] = chB`, the
mailbox of `chA` extended by the `ProtoFinish` sentinel, and the mailbox of
`chB` as it was. -/
theorem C9_single_login (b : Bucket) (h : Heap) (roomId : GoString) (chA chB : ChanPtr)
    (hne : chA ≠ chB) (hkey : (h.chans chA).Key = (h.chans chB).Key)
    (hroom : (h.chans chA).signal.length < (h.chans chA).signalCap)
    (hprior : ∀ o, b.chs.get (h.chans chA).Key = some o →
      o ≠ chA ∧ o ≠ chB ∧ (h.chans o).signal.length < (h.chans o).signalCap) :
    ∃ b1 h1 b2 h2, b.Put h roomId chA = some (b1, h1) ∧ b1.Put h1 roomId chB = some (b2, h2) ∧
      b2.chs.get (h.chans chB).Key = some chB ∧
      (h2.chans chA).signal = (h.chans chA).signal ++ [.ProtoFinish] ∧
      (h2.chans chB).signal = (h.chans chB).signal := by
  obtain ⟨b1, h1, hput1, hget1, heff1⟩ :=
    Put_complete b h roomId chA (fun o ho => (hprior o ho).2.2)
  have hA1 := heff1 chA
  have hB1 := heff1 chB
  have hnA : ¬ (b.chs.get (h.chans chA).Key = some chA) := fun e => (hprior chA e).1 rfl
  have hnB : ¬ (b.chs.get (h.chans chA).Key = some chB) := fun e => (hprior chB e).2.1 rfl
  rw [if_neg hnA] at hA1
  rw [if_neg hnB] at hB1
  have hk1 : (h1.chans chB).Key = (h.chans chA).Key := by rw [hB1.1, hkey]
  have hget1B : b1.chs.get (h1.chans chB).Key = some chA := by rw [hk1]; exact hget1
  obtain ⟨b2, h2, hput2, hget2, heff2⟩ := Put_complete b1 h1 roomId chB (by
    intro o ho
    rw [hget1B] at ho
    have : o = chA := (Option.some.inj ho).symm
    subst this
    rw [hA1.2.2, hA1.2.1]
    exact hroom)
  refine ⟨b1, h1, b2, h2, hput1, hput2, ?_, ?_, ?_⟩
  · rw [← hB1.1]; exact hget2
  · rw [(heff2 chA).2.2, if_pos hget1B, hA1.2.2]
  · have : ¬ (b1.chs.get (h1.chans chB).Key = some chB) := by
      rw [hget1B]
      exact fun e => hne (Option.some.inj e)
    rw [(heff2 chB).2.2, if_neg this, hB1.2.2]

/-- C9 on two new sessions with the key `"u1"` that join the room `"r1"` of an
empty bucket. -/
theorem C9_single_login_witness :
    ∃ b1 h1 b2 h2, NewBucket.Put sessionsU1 idR1 0 = some (b1, h1) ∧
      b1.Put h1 idR1 1 = some (b2, h2) ∧
      b2.chs.get (sessionsU1.chans 1).Key = some 1 ∧
      (h2.chans 0).signal = (sessionsU1.chans 0).signal ++ [.ProtoFinish] ∧
      (h2.chans 1).signal = (sessionsU1.chans 1).signal :=
  C9_single_login NewBucket sessionsU1 idR1 0 1 (by decide) (by decide) (by decide)
    (by intro o ho; simp [NewBucket, GoMap.get] at ho)

/-- C10, the code at the failing input: a channel that watches op 2 and has no
room, registered by `Put("", ch)`, has the room-targeted frame
`{op 2, roomId "r1"}` enqueued on its mailbox by `Broadcast`. -/
theorem C10_roomless_channel_receives :
    ∃ b h, NewBucket.Put watchersU1 [] 0 = some (b, h) ∧
      (h.chans 0).Room = none ∧ (h.chans 0).NeedPush 2 = true ∧ pushHi.Roomid ≠ [] ∧
      (h.chans 0).signal = [] ∧
      ((b.Broadcast h pushHi 2).chans 0).signal = [.frame pushHi] :=
  ⟨_, _, rfl, by decide, by decide, by decide, by decide, by decide⟩

/-! ## Leaving rooms, worker mailboxes and the node server: lemmas -/

/-- A lookup in a map with a binding at its head. -/
theorem GoMap.get_cons {V : Type} (m : GoMap V) (k k2 : GoString) (v : V) :
    GoMap.get ((k, v) :: m) k2 = if k2 = k then some v else GoMap.get m k2 := by
  unfold GoMap.get
  rw [List.lookup_cons]
  by_cases h : k2 = k
  · simp [h]
  · have hb : (k2 == k) = false := beq_false_of_ne h
    simp [h, hb]

/-- `delete(m, k)` leaves the entries under other keys. -/
theorem GoMap.get_del_ne {V : Type} (m : GoMap V) (k k2 : GoString) (h : k2 ≠ k) :
    (m.del k).get k2 = m.get k2 := by
  induction m with
  | nil => rfl
  | cons kv m ih =>
    obtain ⟨a, v⟩ := kv
    unfold GoMap.del at *
    by_cases ha : a = k
    · subst ha
      rw [List.filter_cons_of_neg (by simp), ih, GoMap.get_cons, if_neg h]
    · rw [List.filter_cons_of_pos (by simpa using ha), GoMap.get_cons, GoMap.get_cons, ih]

/-- After `delete(m, k)` the key `k` is absent. -/
theorem GoMap.get_del_self {V : Type} (m : GoMap V) (k : GoString) : (m.del k).get k = none := by
  induction m with
  | nil => rfl
  | cons kv m ih =>
    obtain ⟨a, v⟩ := kv
    unfold GoMap.del at *
    by_cases ha : a = k
    · subst ha
      rw [List.filter_cons_of_neg (by simp), ih]
    · rw [List.filter_cons_of_pos (by simpa using ha), GoMap.get_cons, if_neg (fun e => ha e.symm),
        ih]

/-- `m[k] = v` leaves the entries under other keys. -/
theorem GoMap.get_set_ne {V : Type} (m : GoMap V) (k k2 : GoString) (v : V) (h : k2 ≠ k) :
    (m.set k v).get k2 = m.get k2 := by
  unfold GoMap.set
  rw [GoMap.get_cons, if_neg h]
  exact GoMap.get_del_ne m k k2 h

/-- A map in which every key is absent is empty. -/
theorem GoMap.eq_nil_of_get_none {V : Type} (m : GoMap V) (h : ∀ k, m.get k = none) : m = [] := by
  cases m with
  | nil => rfl
  | cons kv m =>
    obtain ⟨a, v⟩ := kv
    have := h a
    rw [GoMap.get_cons, if_pos rfl] at this
    cases this

/-- Leaving a room changes neither `chs` nor `ipCnts`, and no channel. -/
theorem leaveRoom_maps (b : Bucket) (h : Heap) (room : Option RoomPtr) (ch : ChanPtr) :
    (b.leaveRoom h room ch).1.chs = b.chs ∧ (b.leaveRoom h room ch).1.ipCnts = b.ipCnts ∧
    (b.leaveRoom h room ch).2.chans = h.chans := by
  unfold Bucket.leaveRoom
  cases room with
  | none => exact ⟨rfl, rfl, rfl⟩
  | some r =>
    simp only []
    split_ifs
    · exact ⟨rfl, rfl, rfl⟩
    · exact ⟨rfl, rfl, rfl⟩

/-- The counter statement of `Del` read through the map: an `int32` counter
above 1 is lowered by one, any other entry is deleted, and no other ip is
touched. -/
theorem decIpCnt_get (m : GoMap Int) (ip : GoString) :
    (decIpCnt m ip).get ip
      = (if (m.get ip).getD 0 > 1 then some (toInt32 (toUint32 ((m.get ip).getD 0 - 1)))
         else none) ∧
    ∀ ip2, ip2 ≠ ip → (decIpCnt m ip).get ip2 = m.get ip2 := by
  unfold decIpCnt
  split_ifs
  · exact ⟨GoMap.get_set_self _ _ _, fun ip2 h2 => GoMap.get_set_ne _ _ _ _ h2⟩
  · exact ⟨GoMap.get_del_self _ _, fun ip2 h2 => GoMap.get_del_ne _ _ _ h2⟩

/-- `Put` of a channel whose key is free, into a room that exists. -/
theorem Put_join (b : Bucket) (h : Heap) (r : GoString) (c : ChanPtr) (R : RoomPtr)
    (hk : b.chs.get (h.chans c).Key = none) (hr : r ≠ []) (hroom : b.rooms.get r = some R) :
    b.Put h r c = some
      ({ b with chs := b.chs.set (h.chans c).Key c,
                ipCnts := incIpCnt b.ipCnts (h.chans c).IP },
       (h.setChan c { h.chans c with Room := some R }).setRoom R ((h.roomObjs R).Put c)) := by
  unfold Bucket.Put
  rw [evict_free b h _ hk]
  simp only [Bucket.enterRoom, if_pos hr, hroom]
  simp [Heap.setChan, Heap.setRoom]

/-- `Put` of a channel whose key is free, into a room that does not exist
yet. -/
theorem Put_create (b : Bucket) (h : Heap) (r : GoString) (c : ChanPtr)
    (hk : b.chs.get (h.chans c).Key = none) (hr : r ≠ []) (hroom : b.rooms.get r = none) :
    b.Put h r c = some
      ({ b with chs := b.chs.set (h.chans c).Key c,
                rooms := b.rooms.set r h.nextRoom,
                ipCnts := incIpCnt b.ipCnts (h.chans c).IP },
       { chans := Function.update h.chans c { h.chans c with Room := some h.nextRoom },
         roomObjs := Function.update h.roomObjs h.nextRoom ((NewRoom r).Put c),
         nextRoom := h.nextRoom + 1 }) := by
  unfold Bucket.Put
  rw [evict_free b h _ hk]
  simp only [Bucket.enterRoom, if_pos hr, hroom]
  simp [Heap.setChan, Heap.setRoom]

/-- `Del` of a channel that is registered and has a room: it is unregistered,
leaves the room, and the room is dropped from `rooms` when it is left
empty. -/
theorem Del_member (b : Bucket) (h : Heap) (c : ChanPtr) (R : RoomPtr)
    (hk : b.chs.get (h.chans c).Key = some c) (hroom : (h.chans c).Room = some R) :
    (b.Del h c).1.chs = b.chs.del (h.chans c).Key ∧
    (b.Del h c).1.rooms
      = (if (h.roomObjs R).members.filter (fun x => x ≠ c) = [] then
          b.rooms.del (h.roomObjs R).ID else b.rooms) ∧
    (b.Del h c).2.chans = h.chans ∧
    (b.Del h c).2.roomObjs = Function.update h.roomObjs R ((h.roomObjs R).Del c).1 := by
  unfold Bucket.Del Bucket.unregister Bucket.leaveRoom
  rw [hk, hroom]
  simp only [if_pos]
  by_cases he : (h.roomObjs R).members.filter (fun x => x ≠ c) = []
  · have hd : ((h.roomObjs R).Del c).2 = true := decide_eq_true he
    rw [if_pos hd, if_pos he]
    simp [Bucket.DelRoom, Heap.setRoom, Room.Del]
  · have hd : ¬ (((h.roomObjs R).Del c).2 = true) := fun hd => he (of_decide_eq_true hd)
    rw [if_neg hd, if_neg he]
    simp [Heap.setRoom]

/-- Two registered channels with the same key are the same channel. -/
theorem Registered.key_inj {K : ChanPtr → GoString} {r : GoString} {R : RoomPtr}
    {S : List ChanPtr} {b : Bucket} {h : Heap} (hinv : Registered K r R S b h)
    {c c2 : ChanPtr} (hc : c ∈ S) (hc2 : c2 ∈ S) (hK : K c = K c2) : c = c2 := by
  obtain ⟨_, h1, _⟩ := hinv
  have e1 := h1 c hc
  have e2 := h1 c2 hc2
  rw [hK, e2] at e1
  exact (Option.some.inj e1).symm

/-- The first `Put` into the room `r` of an empty bucket. -/
theorem put_first (h : Heap) (r : GoString) (c : ChanPtr) (hr : r ≠ []) :
    ∃ b1 h1, NewBucket.Put h r c = some (b1, h1) ∧
      Registered (fun x => (h.chans x).Key) r h.nextRoom [c] b1 h1 := by
  refine ⟨_, _, Put_create NewBucket h r c rfl hr rfl, ?_, ?_, ?_, ?_, ?_, ?_, ?_, ?_⟩
  · intro x
    simp only [Function.update_apply]
    split_ifs with hx
    · rw [hx]
    · rfl
  · intro x hx
    rw [List.mem_singleton.mp hx]
    exact GoMap.get_set_self _ _ _
  · intro k v hkv
    simp only [NewBucket, GoMap.set, GoMap.del, List.filter_nil, GoMap.get_cons] at hkv
    split_ifs at hkv with hk
    · rw [← Option.some.inj hkv]
      exact ⟨List.mem_singleton.mpr rfl, hk.symm⟩
    · cases hkv
  · intro x hx
    rw [List.mem_singleton.mp hx]
    simp
  · simp [Room.Put, NewRoom]
  · intro x
    simp [Room.Put, NewRoom]
  · intro _
    exact GoMap.get_set_self _ _ _
  · intro hS
    cases hS

/-- A further `Put` into the room `r`, of a channel whose key no registered
channel has. -/
theorem put_next (K : ChanPtr → GoString) (r : GoString) (R : RoomPtr) (S : List ChanPtr)
    (b : Bucket) (h : Heap) (c : ChanPtr) (hinv : Registered K r R S b h) (hS : S ≠ [])
    (hr : r ≠ []) (hc : ∀ c2 ∈ S, K c2 ≠ K c) :
    ∃ b1 h1, b.Put h r c = some (b1, h1) ∧ Registered K r R (c :: S) b1 h1 := by
  obtain ⟨i1, i2, i3, i4, i5, i6, i7, i8⟩ := hinv
  have hfree : b.chs.get (h.chans c).Key = none := by
    cases hg : b.chs.get (h.chans c).Key with
    | none => rfl
    | some v =>
      obtain ⟨hv, hKv⟩ := i3 _ v hg
      rw [i1 c] at hKv
      exact absurd hKv (hc v hv)
  have hcS : c ∉ S := fun hm => hc c hm rfl
  refine ⟨_, _, Put_join b h r c R hfree hr (i7 hS), ?_, ?_, ?_, ?_, ?_, ?_, ?_, ?_⟩
  · intro x
    simp only [Heap.setRoom, setChan_chans]
    split_ifs with hx
    · rw [hx]; exact i1 c
    · exact i1 x
  · intro x hx
    simp only []
    rw [i1 c]
    rcases List.mem_cons.mp hx with e | e
    · rw [e]; exact GoMap.get_set_self _ _ _
    · rw [GoMap.get_set_ne _ _ _ _ (hc x e)]
      exact i2 x e
  · intro k v hkv
    simp only [] at hkv
    rw [i1 c] at hkv
    by_cases hk : k = K c
    · rw [hk, GoMap.get_set_self] at hkv
      rw [← Option.some.inj hkv]
      exact ⟨List.mem_cons_self _ _, hk.symm⟩
    · rw [GoMap.get_set_ne _ _ _ _ hk] at hkv
      obtain ⟨hv, hKv⟩ := i3 k v hkv
      exact ⟨List.mem_cons_of_mem _ hv, hKv⟩
  · intro x hx
    simp only [Heap.setRoom, setChan_chans]
    split_ifs with hxc
    · rfl
    · rcases List.mem_cons.mp hx with e | e
      · exact absurd e hxc
      · exact i4 x e
  · simp [Heap.setRoom, Heap.setChan, Room.Put, i5]
  · intro x
    simp only [Heap.setRoom, Heap.setChan, Function.update_same, Room.Put, List.mem_cons,
      List.mem_filter, decide_eq_true_eq, ne_eq]
    rw [i6 x]
    constructor
    · rintro (e | ⟨e, _⟩)
      · exact Or.inl e
      · exact Or.inr e
    · rintro (e | e)
      · exact Or.inl e
      · exact Or.inr ⟨e, fun hx => hcS (hx ▸ e)⟩
  · intro _
    exact i7 hS
  · intro hcons
    cases hcons

/-- `Del` of a registered channel keeps the invariant, with the channel taken
out of the registered ones. -/
theorem del_registered (K : ChanPtr → GoString) (r : GoString) (R : RoomPtr)
    (S : List ChanPtr) (b : Bucket) (h : Heap) (c : ChanPtr)
    (hinv : Registered K r R S b h) (hc : c ∈ S) :
    Registered K r R (S.filter (fun x => x ≠ c)) (b.Del h c).1 (b.Del h c).2 := by
  have hinj : ∀ c2, c2 ∈ S → K c = K c2 → c = c2 :=
    fun c2 hc2 hK => hinv.key_inj hc hc2 hK
  obtain ⟨i1, i2, i3, i4, i5, i6, i7, i8⟩ := hinv
  obtain ⟨d1, d2, d3, d4⟩ := Del_member b h c R (by rw [i1 c]; exact i2 c hc) (i4 c hc)
  have hmem : ∀ x, x ∈ S.filter (fun x => x ≠ c) ↔ x ∈ S ∧ x ≠ c := by
    intro x
    simp [List.mem_filter]
  have hfilt : (h.roomObjs R).members.filter (fun x => x ≠ c) = [] ↔
      S.filter (fun x => x ≠ c) = [] := by
    simp only [List.filter_eq_nil_iff]
    constructor
    · intro hh x hx
      exact hh x ((i6 x).mpr hx)
    · intro hh x hx
      exact hh x ((i6 x).mp hx)
  refine ⟨?_, ?_, ?_, ?_, ?_, ?_, ?_, ?_⟩
  · intro x
    rw [d3]
    exact i1 x
  · intro x hx
    obtain ⟨hxS, hxc⟩ := (hmem x).mp hx
    rw [d1, i1 c, GoMap.get_del_ne _ _ _ (fun e => hxc (hinj x hxS e.symm).symm)]
    exact i2 x hxS
  · intro k v hkv
    rw [d1, i1 c] at hkv
    by_cases hk : k = K c
    · rw [hk, GoMap.get_del_self] at hkv
      cases hkv
    · rw [GoMap.get_del_ne _ _ _ hk] at hkv
      obtain ⟨hv, hKv⟩ := i3 k v hkv
      refine ⟨(hmem v).mpr ⟨hv, ?_⟩, hKv⟩
      intro e
      rw [e] at hKv
      exact hk hKv.symm
  · intro x hx
    rw [d3]
    exact i4 x ((hmem x).mp hx).1
  · rw [d4]
    simp [Room.Del, i5]
  · intro x
    rw [d4]
    simp only [Function.update_same, Room.Del, List.mem_filter, decide_eq_true_eq, ne_eq]
    rw [i6 x]
  · intro hne
    rw [d2, if_neg (fun e => hne (hfilt.mp e))]
    exact i7 (fun e => hne (by rw [e]; rfl))
  · intro he
    rw [d2, if_pos (hfilt.mpr he), i5]
    exact GoMap.get_del_self _ _

/-- A sequence of calls runs as its first part followed by its second. -/
theorem Bucket.run_ops_append (ops1 ops2 : List BucketOp) : ∀ (b : Bucket) (h : Heap),
    b.run h (ops1 ++ ops2) = (b.run h ops1).bind (fun s => s.1.run s.2 ops2) := by
  induction ops1 with
  | nil => intro b h; rfl
  | cons op ops1 ih =>
    intro b h
    simp only [List.cons_append, Bucket.run]
    cases b.apply h op with
    | none => rfl
    | some s => exact ih s.1 s.2

/-- The further `Put`s into the room `r`, of channels with pairwise distinct
keys that no registered channel has. -/
theorem put_all (K : ChanPtr → GoString) (r : GoString) (R : RoomPtr) (hr : r ≠ [])
    (cs : List ChanPtr) : ∀ (S : List ChanPtr) (b : Bucket) (h : Heap),
    Registered K r R S b h → S ≠ [] → (cs.map K).Nodup → (∀ c ∈ cs, ∀ c2 ∈ S, K c2 ≠ K c) →
    ∃ b1 h1, b.run h (cs.map (BucketOp.Put r)) = some (b1, h1) ∧
      ∃ S1, Registered K r R S1 b1 h1 ∧ ∀ x, x ∈ S1 ↔ x ∈ cs ∨ x ∈ S := by
  induction cs with
  | nil =>
    intro S b h hinv _ _ _
    exact ⟨b, h, rfl, S, hinv, fun x => by simp⟩
  | cons c cs ih =>
    intro S b h hinv hS hnd hfresh
    obtain ⟨b1, h1, hput, hinv1⟩ :=
      put_next K r R S b h c hinv hS hr (hfresh c (List.mem_cons_self _ _))
    rw [List.map_cons, List.nodup_cons] at hnd
    obtain ⟨b2, h2, hrun, S2, hinv2, hS2⟩ := ih (c :: S) b1 h1 hinv1 (List.cons_ne_nil _ _) hnd.2
      (by
        intro x hx y hy
        rcases List.mem_cons.mp hy with e | e
        · rw [e]
          intro hK
          exact hnd.1 (hK ▸ List.mem_map_of_mem K hx)
        · exact hfresh x (List.mem_cons_of_mem _ hx) y e)
    refine ⟨b2, h2, ?_, S2, hinv2, ?_⟩
    · simp only [List.map_cons, Bucket.run, Bucket.apply, hput, Option.bind]
      exact hrun
    · intro x
      rw [hS2 x]
      simp only [List.mem_cons]
      tauto

/-- The `Del`s of registered channels, each once. -/
theorem del_all (K : ChanPtr → GoString) (r : GoString) (R : RoomPtr) (ds : List ChanPtr) :
    ∀ (S : List ChanPtr) (b : Bucket) (h : Heap),
    Registered K r R S b h → ds.Nodup → (∀ c ∈ ds, c ∈ S) →
    ∃ b1 h1, b.run h (ds.map BucketOp.Del) = some (b1, h1) ∧
      ∃ S1, Registered K r R S1 b1 h1 ∧ ∀ x, x ∈ S1 ↔ x ∈ S ∧ x ∉ ds := by
  induction ds with
  | nil =>
    intro S b h hinv _ _
    exact ⟨b, h, rfl, S, hinv, fun x => by simp⟩
  | cons c ds ih =>
    intro S b h hinv hnd hsub
    rw [List.nodup_cons] at hnd
    have hinv1 := del_registered K r R S b h c hinv (hsub c (List.mem_cons_self _ _))
    obtain ⟨b2, h2, hrun, S2, hinv2, hS2⟩ := ih _ _ _ hinv1 hnd.2
      (by
        intro x hx
        simp only [List.mem_filter, decide_eq_true_eq, ne_eq]
        exact ⟨hsub x (List.mem_cons_of_mem _ hx), fun e => hnd.1 (e ▸ hx)⟩)
    refine ⟨b2, h2, ?_, S2, hinv2, ?_⟩
    · simp only [List.map_cons, Bucket.run, Bucket.apply, Option.bind]
      exact hrun
    · intro x
      rw [hS2 x]
      simp only [List.mem_filter, List.mem_cons, decide_eq_true_eq, ne_eq, not_or]
      tauto

/-- `Put` with the empty room id of a channel whose key is free: the channel
is registered and no room is touched. -/
theorem Put_noroom (b : Bucket) (h : Heap) (c : ChanPtr)
    (hk : b.chs.get (h.chans c).Key = none) :
    b.Put h [] c = some
      ({ b with chs := b.chs.set (h.chans c).Key c,
                ipCnts := incIpCnt b.ipCnts (h.chans c).IP }, h) := by
  unfold Bucket.Put
  rw [evict_free b h _ hk]
  simp [Bucket.enterRoom]

/-- `Del` on a bucket without rooms leaves it without rooms. -/
theorem Del_rooms_nil (b : Bucket) (h : Heap) (c : ChanPtr) (hr : b.rooms = []) :
    (b.Del h c).1.rooms = [] := by
  have hu : (b.unregister h c).rooms = [] := by
    unfold Bucket.unregister
    split <;> exact hr
  unfold Bucket.Del Bucket.leaveRoom
  simp only []
  split
  · exact hu
  · split_ifs
    · simp [Bucket.DelRoom, hu, GoMap.del]
    · exact hu

/-- `Del` of a registered channel on a bucket without rooms. -/
theorem del_noroom (K : ChanPtr → GoString) (S : List ChanPtr) (b : Bucket) (h : Heap)
    (c : ChanPtr) (hinv : RegisteredNoRoom K S b h) (hc : c ∈ S) :
    RegisteredNoRoom K (S.filter (fun x => x ≠ c)) (b.Del h c).1 (b.Del h c).2 := by
  obtain ⟨i1, i2, i3, i4⟩ := hinv
  obtain ⟨l1, _, l3⟩ := leaveRoom_maps (b.unregister h c) h (h.chans c).Room c
  have d1 : (b.Del h c).1.chs = b.chs.del (K c) := by
    have : (b.Del h c).1.chs = (b.unregister h c).chs := l1
    rw [this]
    unfold Bucket.unregister
    rw [i1 c, i2 c hc]
    simp [i1 c]
  have d3 : (b.Del h c).2.chans = h.chans := l3
  have hinj : ∀ x, x ∈ S → K x = K c → x = c := by
    intro x hx hK
    have e1 := i2 x hx
    rw [hK, i2 c hc] at e1
    exact (Option.some.inj e1).symm
  refine ⟨?_, ?_, ?_, Del_rooms_nil b h c i4⟩
  · intro x
    rw [d3]
    exact i1 x
  · intro x hx
    simp only [List.mem_filter, decide_eq_true_eq, ne_eq] at hx
    rw [d1, GoMap.get_del_ne _ _ _ (fun e => hx.2 (hinj x hx.1 e))]
    exact i2 x hx.1
  · intro k v hkv
    rw [d1] at hkv
    by_cases hk : k = K c
    · rw [hk, GoMap.get_del_self] at hkv
      cases hkv
    · rw [GoMap.get_del_ne _ _ _ hk] at hkv
      obtain ⟨hv, hKv⟩ := i3 k v hkv
      simp only [List.mem_filter, decide_eq_true_eq, ne_eq]
      refine ⟨⟨hv, ?_⟩, hKv⟩
      intro e
      rw [e] at hKv
      exact hk hKv.symm

/-- The `Put`s with the empty room id, of channels with pairwise distinct keys
that no registered channel has. -/
theorem put_all_noroom (K : ChanPtr → GoString) (cs : List ChanPtr) :
    ∀ (S : List ChanPtr) (b : Bucket) (h : Heap),
    RegisteredNoRoom K S b h → (cs.map K).Nodup → (∀ c ∈ cs, ∀ c2 ∈ S, K c2 ≠ K c) →
    ∃ b1 h1, b.run h (cs.map (BucketOp.Put [])) = some (b1, h1) ∧
      ∃ S1, RegisteredNoRoom K S1 b1 h1 ∧ ∀ x, x ∈ S1 ↔ x ∈ cs ∨ x ∈ S := by
  induction cs with
  | nil =>
    intro S b h hinv _ _
    exact ⟨b, h, rfl, S, hinv, fun x => by simp⟩
  | cons c cs ih =>
    intro S b h hinv hnd hfresh
    obtain ⟨i1, i2, i3, i4⟩ := hinv
    have hfree : b.chs.get (h.chans c).Key = none := by
      cases hg : b.chs.get (h.chans c).Key with
      | none => rfl
      | some v =>
        obtain ⟨hv, hKv⟩ := i3 _ v hg
        rw [i1 c] at hKv
        exact absurd hKv (hfresh c (List.mem_cons_self _ _) v hv)
    have hinv1 : RegisteredNoRoom K (c :: S)
        { b with chs := b.chs.set (h.chans c).Key c,
                 ipCnts := incIpCnt b.ipCnts (h.chans c).IP } h := by
      refine ⟨i1, ?_, ?_, i4⟩
      · intro x hx
        simp only []
        rw [i1 c]
        rcases List.mem_cons.mp hx with e | e
        · rw [e]; exact GoMap.get_set_self _ _ _
        · rw [GoMap.get_set_ne _ _ _ _ (hfresh c (List.mem_cons_self _ _) x e)]
          exact i2 x e
      · intro k v hkv
        simp only [] at hkv
        rw [i1 c] at hkv
        by_cases hk : k = K c
        · rw [hk, GoMap.get_set_self] at hkv
          rw [← Option.some.inj hkv]
          exact ⟨List.mem_cons_self _ _, hk.symm⟩
        · rw [GoMap.get_set_ne _ _ _ _ hk] at hkv
          obtain ⟨hv, hKv⟩ := i3 k v hkv
          exact ⟨List.mem_cons_of_mem _ hv, hKv⟩
    rw [List.map_cons, List.nodup_cons] at hnd
    obtain ⟨b2, h2, hrun, S2, hinv2, hS2⟩ := ih (c :: S) _ _ hinv1 hnd.2
      (by
        intro x hx y hy
        rcases List.mem_cons.mp hy with e | e
        · rw [e]
          intro hK
          exact hnd.1 (hK ▸ List.mem_map_of_mem K hx)
        · exact hfresh x (List.mem_cons_of_mem _ hx) y e)
    refine ⟨b2, h2, ?_, S2, hinv2, ?_⟩
    · simp only [List.map_cons, Bucket.run, Bucket.apply, Put_noroom b h c hfree, Option.bind]
      exact hrun
    · intro x
      rw [hS2 x]
      simp only [List.mem_cons]
      tauto

/-- The `Del`s of registered channels, each once, on a bucket without
rooms. -/
theorem del_all_noroom (K : ChanPtr → GoString) (ds : List ChanPtr) :
    ∀ (S : List ChanPtr) (b : Bucket) (h : Heap),
    RegisteredNoRoom K S b h → ds.Nodup → (∀ c ∈ ds, c ∈ S) →
    ∃ b1 h1, b.run h (ds.map BucketOp.Del) = some (b1, h1) ∧
      ∃ S1, RegisteredNoRoom K S1 b1 h1 ∧ ∀ x, x ∈ S1 ↔ x ∈ S ∧ x ∉ ds := by
  induction ds with
  | nil =>
    intro S b h hinv _ _
    exact ⟨b, h, rfl, S, hinv, fun x => by simp⟩
  | cons c ds ih =>
    intro S b h hinv hnd hsub
    rw [List.nodup_cons] at hnd
    have hinv1 := del_noroom K S b h c hinv (hsub c (List.mem_cons_self _ _))
    obtain ⟨b2, h2, hrun, S2, hinv2, hS2⟩ := ih _ _ _ hinv1 hnd.2
      (by
        intro x hx
        simp only [List.mem_filter, decide_eq_true_eq, ne_eq]
        exact ⟨hsub x (List.mem_cons_of_mem _ hx), fun e => hnd.1 (e ▸ hx)⟩)
    refine ⟨b2, h2, ?_, S2, hinv2, ?_⟩
    · simp only [List.map_cons, Bucket.run, Bucket.apply, Option.bind]
      exact hrun
    · intro x
      rw [hS2 x]
      simp only [List.mem_filter, List.mem_cons, decide_eq_true_eq, ne_eq, not_or]
      tauto

/-- Room cleanup for the empty room id: the `Put`s join no room, and after
the `Del`s the bucket has no channel and no room. -/
theorem cleanup_noroom (h : Heap) (cs ds : List ChanPtr)
    (hkeys : (cs.map (fun c => (h.chans c).Key)).Nodup) (hperm : ds.Perm cs) :
    ∃ b2 h2, NewBucket.run h (cs.map (BucketOp.Put []) ++ ds.map BucketOp.Del) = some (b2, h2) ∧
      b2.rooms.get [] = none ∧ b2.chs = [] := by
  have hinv0 : RegisteredNoRoom (fun x => (h.chans x).Key) [] NewBucket h :=
    ⟨fun _ => rfl, fun c hc => absurd hc (List.not_mem_nil _),
      fun k v hkv => Option.noConfusion hkv, rfl⟩
  obtain ⟨b1, h1, hrun1, S1, hinv1, hS1⟩ := put_all_noroom (fun x => (h.chans x).Key) cs
    [] NewBucket h hinv0 hkeys (fun _ _ c2 hc2 => absurd hc2 (List.not_mem_nil _))
  obtain ⟨b2, h2, hrun2, S2, hinv2, hS2⟩ := del_all_noroom (fun x => (h.chans x).Key) ds
    S1 b1 h1 hinv1 (hperm.nodup_iff.mpr (List.Nodup.of_map _ hkeys))
    (fun x hx => (hS1 x).mpr (Or.inl (hperm.mem_iff.mp hx)))
  have hS2nil : S2 = [] := by
    apply List.eq_nil_iff_forall_not_mem.mpr
    intro x hx
    obtain ⟨hx1, hx2⟩ := (hS2 x).mp hx
    apply hx2
    apply hperm.mem_iff.mpr
    rcases (hS1 x).mp hx1 with e | e
    · exact e
    · exact absurd e (List.not_mem_nil _)
  subst hS2nil
  refine ⟨b2, h2, ?_, ?_, ?_⟩
  · rw [Bucket.run_ops_append, hrun1]
    exact hrun2
  · rw [hinv2.2.2.2]; rfl
  · apply GoMap.eq_nil_of_get_none
    intro k
    cases hg : b2.chs.get k with
    | none => rfl
    | some v => exact absurd (hinv2.2.2.1 k v hg).1 (List.not_mem_nil _)

/-- `Close` completes exactly when the mailbox has room, and then delivers
`ProtoFinish` behind the entries already queued. -/
theorem Close_iff (c : Channel) :
    (c.signal.length < c.signalCap →
      c.Close = some { c with signal := c.signal ++ [.ProtoFinish] }) ∧
    (c.signalCap ≤ c.signal.length → c.Close = none) := by
  unfold Channel.Close
  constructor
  · intro h; rw [if_pos h]
  · intro h; rw [if_neg (by omega)]

/-- On a bucket made by `NewBucket(c)` or changed by `BroadcastRoom` only, the
worker index `BroadcastRoom` picks is in range: with as many mailboxes as
`RoutineAmount`, at least one, the call does not panic. -/
theorem BroadcastRoom_index_valid (b : Bucket) (arg : BroadcastRoomReq)
    (h1 : 1 ≤ b.c.RoutineAmount) (h2 : b.routines.length = b.c.RoutineAmount) :
    ((b.routinesNum + 1) % u64) % b.c.RoutineAmount < b.routines.length ∧
    b.BroadcastRoom arg ≠ .panic := by
  have hlt : ((b.routinesNum + 1) % u64) % b.c.RoutineAmount < b.routines.length := by
    rw [h2]; exact Nat.mod_lt _ (by omega)
  refine ⟨hlt, ?_⟩
  unfold Bucket.BroadcastRoom
  simp only []
  rw [if_neg (by omega), List.getElem?_eq_getElem hlt]
  simp only []
  split_ifs <;> simp

/-- The ops in the set after the loop of `Watch`. -/
theorem mem_watch_fold (ops : List Int) : ∀ (w : List Int) (x : Int),
    x ∈ ops.foldl (fun w op => if op ∈ w then w else op :: w) w ↔ x ∈ w ∨ x ∈ ops := by
  induction ops with
  | nil => intro w x; simp
  | cons op ops ih =>
    intro w x
    rw [List.foldl_cons, ih]
    by_cases hop : op ∈ w
    · rw [if_pos hop]
      constructor
      · rintro (h | h)
        · exact Or.inl h
        · exact Or.inr (List.mem_cons_of_mem _ h)
      · rintro (h | h)
        · exact Or.inl h
        · rcases List.mem_cons.mp h with h | h
          · exact Or.inl (h ▸ hop)
          · exact Or.inr h
    · rw [if_neg hop]
      simp only [List.mem_cons]
      tauto

/-- The loop of `Watch` over ops that are all in the set changes nothing. -/
theorem watch_fold_of_mem (ops : List Int) : ∀ (w : List Int), (∀ op ∈ ops, op ∈ w) →
    ops.foldl (fun w op => if op ∈ w then w else op :: w) w = w := by
  induction ops with
  | nil => intro w _; rfl
  | cons op ops ih =>
    intro w h
    rw [List.foldl_cons, if_pos (h op (List.mem_cons_self _ _))]
    exact ih w (fun o ho => h o (List.mem_cons_of_mem _ ho))

/-- The ops in the set after the loop of `UnWatch`. -/
theorem mem_unwatch_fold (ops : List Int) : ∀ (w : List Int) (x : Int),
    x ∈ ops.foldl (fun w op => w.filter (fun y => y ≠ op)) w ↔ x ∈ w ∧ x ∉ ops := by
  induction ops with
  | nil => intro w x; simp
  | cons op ops ih =>
    intro w x
    rw [List.foldl_cons, ih]
    simp only [List.mem_filter, List.mem_cons, decide_eq_true_eq, not_or, ne_eq]
    tauto

/-- `PushMsg` with a nil frame or an empty key list returns `ErrPushMsgArg`
and no reply, and changes nothing. -/
theorem PushMsg_arg_check (s : ConnectNodeServer) (cityHash32 : GoString → Nat) (h : Heap)
    (req : PushMsgReq) (hreq : req.Proto = none ∨ req.Keys = []) :
    s.PushMsg cityHash32 h req = .done ({ reply := false, err := some .ErrPushMsgArg }, h) := by
  unfold ConnectNodeServer.PushMsg
  cases hp : req.Proto with
  | none => rfl
  | some p =>
    rcases hreq with hreq | hreq
    · rw [hp] at hreq; cases hreq
    · simp [hreq]

/-- `BroadcastRoom` with a nil frame or an empty room id returns
`ErrBroadCastRoomArg` and no reply, and changes no bucket. -/
theorem BroadcastRoom_arg_check (s : ConnectNodeServer) (req : BroadcastRoomReq)
    (hreq : req.Proto = none ∨ req.RoomID = []) :
    s.BroadcastRoom req = .done ({ reply := false, err := some .ErrBroadCastRoomArg }, s) := by
  unfold ConnectNodeServer.BroadcastRoom
  rw [if_pos hreq]

/-- On a node with one bucket every key is routed to that bucket. -/
theorem Bucket_of_single (b : Bucket) (cityHash32 : GoString → Nat) (key : GoString) :
    ConnectNodeServer.Bucket { buckets := [b], bucketIdx := 1 } cityHash32 key = .done b := by
  simp [ConnectNodeServer.Bucket, Nat.mod_one]

/-- The early return of `PushMsg`: when the channel of the first key watches
the op and its mailbox is full, the call returns `ErrSignalFullMsgDropped`
with no reply and the heap as it was, whatever keys follow. -/
theorem PushMsg_stops_at_drop (s : ConnectNodeServer) (cityHash32 : GoString → Nat) (h : Heap)
    (key : GoString) (keys : List GoString) (p : Proto) (protoOp : Int) (b : Bucket)
    (ch : ChanPtr) (hb : s.Bucket cityHash32 key = .done b) (hc : b.Channel key = some ch)
    (hw : (h.chans ch).NeedPush protoOp = true)
    (hfull : (h.chans ch).signalCap ≤ (h.chans ch).signal.length) :
    s.PushMsg cityHash32 h { Keys := key :: keys, Proto := some p, ProtoOp := protoOp }
      = .done ({ reply := false, err := some (.chan .ErrSignalFullMsgDropped) }, h) := by
  have hpush : (h.chans ch).Push p = (h.chans ch, some .ErrSignalFullMsgDropped) := by
    unfold Channel.Push
    rw [if_neg (by omega)]
  have hheap : h.setChan ch (h.chans ch) = h := by
    simp [Heap.setChan]
  simp [ConnectNodeServer.PushMsg, pushMsgLoop, hb, hc, hw, hpush, hheap]

/-- `UpRoomsCount` with the empty map: every room of the bucket ends with
`AllOnline = 0`, and a room that had 0 keeps it. -/
theorem UpRoomsCount_nil_zero (rooms : GoMap RoomPtr) : ∀ (h : Heap) (r : RoomPtr),
    ((∃ kv ∈ rooms, kv.2 = r) ∨ (h.roomObjs r).AllOnline = 0) →
    ((rooms.foldl (fun h kv => h.setRoom kv.2
        { h.roomObjs kv.2 with AllOnline := (GoMap.get ([] : GoMap Int) kv.1).getD 0 }) h).roomObjs
      r).AllOnline = 0 := by
  induction rooms with
  | nil =>
    intro h r hr
    rcases hr with ⟨kv, hkv, _⟩ | hr
    · cases hkv
    · exact hr
  | cons kv rooms ih =>
    intro h r hr
    rw [List.foldl_cons]
    apply ih
    by_cases he : kv.2 = r
    · right
      subst he
      simp [Heap.setRoom, GoMap.get]
    · rcases hr with ⟨kv2, hkv2, h2⟩ | hr
      · rcases List.mem_cons.mp hkv2 with e | e
        · exact absurd (e ▸ h2) he
        · exact Or.inl ⟨kv2, e, h2⟩
      · right
        simp only [Heap.setRoom, Function.update_apply]
        rw [if_neg (fun e => he e.symm)]
        exact hr

/-- What a round of `onlineproc` does: since `UpRoomsCount` is given the map
that was never assigned, every room of every bucket ends with
`AllOnline = 0`. -/
theorem onlineproc_allOnline_zero (s : ConnectNodeServer) (h : Heap) (b : Bucket)
    (kv : GoString × RoomPtr) (hb : b ∈ s.buckets) (hkv : kv ∈ b.rooms) :
    ((s.onlineproc h).2.roomObjs kv.2).AllOnline = 0 := by
  have key : ∀ (l : List Bucket) (h : Heap) (r : RoomPtr),
      ((∃ b ∈ l, ∃ kv ∈ b.rooms, kv.2 = r) ∨ (h.roomObjs r).AllOnline = 0) →
      ((l.foldl (fun h bucket => bucket.UpRoomsCount h []) h).roomObjs r).AllOnline = 0 := by
    intro l
    induction l with
    | nil =>
      intro h r hr
      rcases hr with ⟨b, hb, _⟩ | hr
      · cases hb
      · exact hr
    | cons b0 l ih =>
      intro h r hr
      rw [List.foldl_cons]
      apply ih
      by_cases he : ∃ kv ∈ b0.rooms, kv.2 = r
      · exact Or.inr (UpRoomsCount_nil_zero b0.rooms h r (Or.inl he))
      · rcases hr with ⟨b1, hb1, h1⟩ | hr
        · rcases List.mem_cons.mp hb1 with e | e
          · exact absurd (e ▸ h1) he
          · exact Or.inl ⟨b1, e, h1⟩
        · exact Or.inr (UpRoomsCount_nil_zero b0.rooms h r (Or.inr hr))
  exact key s.buckets h kv.2 (Or.inl ⟨b, hb, kv, hkv, rfl⟩)

/-! ## Leaving rooms, worker mailboxes and the node server: the properties of the
specification -/

/-- C11, as stated, fails: after two sessions with the same key were put, the
first is evicted and `chs[key]` holds the second; `Del` of the evicted channel
leaves `chs` as it was but lowers the counter of `ipCnts` from 2 to 1. -/
theorem C11_del_of_evicted_lowers_ipCnts :
    ∃ b h, NewBucket.run sessionsU1 [.Put idR1 0, .Put idR1 1] = some (b, h) ∧
      b.chs.get (h.chans 0).Key = some 1 ∧ (b.Del h 0).1.chs = b.chs ∧
      b.ipCnts.get (h.chans 0).IP = some 2 ∧ (b.Del h 0).1.ipCnts.get (h.chans 0).IP = some 1 :=
  ⟨_, _, rfl, by decide, by decide, by decide, by decide⟩

/-- C11, amended. `Del(ch)` and the registry: when `chs[ch.Key]` is `ch`
itself, the entry is removed and the counter `ipCnts[ch.IP]` is lowered
(deleted when it was at most 1); when `chs[ch.Key]` is absent, `chs` and
`ipCnts` are left exactly as they were; when `chs[ch.Key]` holds another
channel, `chs` is left exactly as it was, and if that channel has the ip of
`ch`, the counter `ipCnts[ch.IP]` is lowered (deleted when it was at most
1). -/
theorem C11_del_registry (b : Bucket) (h : Heap) (dch : ChanPtr) :
    (b.chs.get (h.chans dch).Key = some dch →
      (b.Del h dch).1.chs = b.chs.del (h.chans dch).Key ∧
      (b.Del h dch).1.ipCnts = decIpCnt b.ipCnts (h.chans dch).IP) ∧
    (b.chs.get (h.chans dch).Key = none →
      (b.Del h dch).1.chs = b.chs ∧ (b.Del h dch).1.ipCnts = b.ipCnts) ∧
    (∀ ch, b.chs.get (h.chans dch).Key = some ch → ch ≠ dch →
      (b.Del h dch).1.chs = b.chs ∧
      ((h.chans ch).IP = (h.chans dch).IP →
        (b.Del h dch).1.ipCnts = decIpCnt b.ipCnts (h.chans dch).IP)) := by
  obtain ⟨h1, h2, _⟩ := leaveRoom_maps (b.unregister h dch) h (h.chans dch).Room dch
  have hc : (b.Del h dch).1.chs = (b.unregister h dch).chs := h1
  have hi : (b.Del h dch).1.ipCnts = (b.unregister h dch).ipCnts := h2
  rw [hc, hi]
  unfold Bucket.unregister
  refine ⟨?_, ?_, ?_⟩
  · intro hk
    rw [hk]
    simp
  · intro hk
    rw [hk]
    exact ⟨rfl, rfl⟩
  · intro ch hk hne
    rw [hk]
    refine ⟨by simp [hne], ?_⟩
    intro hip
    rw [← hip]

/-- C11, amended, at concrete inputs, one for each case. In the bucket that
holds the one session `"u1"`, `Del` of that session removes its entry of `chs`
and lowers the counter of its ip; on the empty bucket `Del` changes neither
map; in the bucket in which a second session with the same key and ip has
evicted the first, `Del` of the first leaves `chs` as it was and lowers the
counter of the ip. -/
theorem C11_del_registry_witness :
    (oneSessionU1.1.chs.get (oneSessionU1.2.chans 0).Key = some 0 ∧
      (oneSessionU1.1.Del oneSessionU1.2 0).1.chs
        = oneSessionU1.1.chs.del (oneSessionU1.2.chans 0).Key ∧
      (oneSessionU1.1.Del oneSessionU1.2 0).1.ipCnts
        = decIpCnt oneSessionU1.1.ipCnts (oneSessionU1.2.chans 0).IP) ∧
    (NewBucket.chs.get (sessionsU1.chans 0).Key = none ∧
      (NewBucket.Del sessionsU1 0).1.chs = NewBucket.chs ∧
      (NewBucket.Del sessionsU1 0).1.ipCnts = NewBucket.ipCnts) ∧
    (evictedSessionU1.1.chs.get (evictedSessionU1.2.chans 0).Key = some 1 ∧
      (evictedSessionU1.2.chans 1).IP = (evictedSessionU1.2.chans 0).IP ∧
      (evictedSessionU1.1.Del evictedSessionU1.2 0).1.chs = evictedSessionU1.1.chs ∧
      (evictedSessionU1.1.Del evictedSessionU1.2 0).1.ipCnts
        = decIpCnt evictedSessionU1.1.ipCnts (evictedSessionU1.2.chans 0).IP) :=
  ⟨⟨by decide, (C11_del_registry oneSessionU1.1 oneSessionU1.2 0).1 (by decide)⟩,
   ⟨by decide, (C11_del_registry NewBucket sessionsU1 0).2.1 (by decide)⟩,
   ⟨by decide, by decide,
    ((C11_del_registry evictedSessionU1.1 evictedSessionU1.2 0).2.2 1 (by decide)
      (by decide)).1,
    ((C11_del_registry evictedSessionU1.1 evictedSessionU1.2 0).2.2 1 (by decide)
      (by decide)).2 (by decide)⟩⟩

/-- C12. Room empty cleanup: for `N ≥ 1` channels with pairwise distinct keys
and a room id `r`, the `N` calls `Put(r, ch_i)` on an empty bucket followed by
the `N` calls `Del(ch_i)`, in any order, all complete and leave `rooms[r]`
absent and `chs` empty; `Room` is the member set of the spec, whose `Del`
reports true exactly when it leaves the room empty. -/
theorem C12_room_empty_cleanup (h : Heap) (r : GoString) (cs ds : List ChanPtr)
    (hN : 1 ≤ cs.length)
    (hkeys : (cs.map (fun c => (h.chans c).Key)).Nodup) (hperm : ds.Perm cs) :
    ∃ b2 h2, NewBucket.run h (cs.map (BucketOp.Put r) ++ ds.map BucketOp.Del) = some (b2, h2) ∧
      b2.rooms.get r = none ∧ b2.chs = [] := by
  by_cases hr : r = []
  · subst hr
    exact cleanup_noroom h cs ds hkeys hperm
  cases cs with
  | nil => simp at hN
  | cons c0 cs =>
    rw [List.map_cons, List.nodup_cons] at hkeys
    have hcsnd : (c0 :: cs).Nodup := by
      have := List.Nodup.of_map (fun c => (h.chans c).Key)
        (show ((c0 :: cs).map (fun c => (h.chans c).Key)).Nodup from by
          rw [List.map_cons, List.nodup_cons]; exact hkeys)
      exact this
    obtain ⟨b0, h0, hput0, hinv0⟩ := put_first h r c0 hr
    obtain ⟨b1, h1, hrun1, S1, hinv1, hS1⟩ := put_all (fun x => (h.chans x).Key) r h.nextRoom hr cs
      [c0] b0 h0 hinv0 (List.cons_ne_nil _ _) hkeys.2
      (by
        intro x hx y hy
        rw [List.mem_singleton.mp hy]
        intro hK
        have hm := List.mem_map_of_mem (fun c => (h.chans c).Key) hx
        simp only [] at hK hm
        rw [← hK] at hm
        exact hkeys.1 hm)
    obtain ⟨b2, h2, hrun2, S2, hinv2, hS2⟩ := del_all (fun x => (h.chans x).Key) r h.nextRoom ds
      S1 b1 h1 hinv1 (hperm.nodup_iff.mpr hcsnd)
      (by
        intro x hx
        rw [hS1 x]
        have := hperm.mem_iff.mp hx
        rcases List.mem_cons.mp this with e | e
        · exact Or.inr (List.mem_singleton.mpr e)
        · exact Or.inl e)
    have hS2nil : S2 = [] := by
      apply List.eq_nil_iff_forall_not_mem.mpr
      intro x hx
      obtain ⟨hx1, hx2⟩ := (hS2 x).mp hx
      apply hx2
      apply hperm.mem_iff.mpr
      rcases (hS1 x).mp hx1 with e | e
      · exact List.mem_cons_of_mem _ e
      · rw [List.mem_singleton.mp e]; exact List.mem_cons_self _ _
    subst hS2nil
    refine ⟨b2, h2, ?_, ?_, ?_⟩
    · rw [Bucket.run_ops_append]
      simp only [List.map_cons, Bucket.run, Bucket.apply, hput0, Option.bind]
      rw [hrun1]
      exact hrun2
    · exact hinv2.2.2.2.2.2.2.2 rfl
    · apply GoMap.eq_nil_of_get_none
      intro k
      cases hg : b2.chs.get k with
      | none => rfl
      | some v => exact absurd (hinv2.2.2.1 k v hg).1 (List.not_mem_nil _)

/-- C12 at a concrete input: the sessions `"u1"` and `"u2"` at the addresses
0 and 1 join the room `"r1"` and leave it in the other order. -/
theorem C12_room_empty_cleanup_witness :
    ∃ b2 h2, NewBucket.run fullAndFreeSessions
        ([0, 1].map (BucketOp.Put idR1) ++ [1, 0].map BucketOp.Del) = some (b2, h2) ∧
      b2.rooms.get idR1 = none ∧ b2.chs = [] :=
  C12_room_empty_cleanup fullAndFreeSessions idR1 [0, 1] [1, 0] (by decide) (by decide)
    (List.Perm.swap 0 1 [])

/-- C13, the code at the failing input: after `Put("r1", ch)` on an empty
bucket and `ChangeRoom("r1", ch)`, a move to the room the channel is already
in, as its only member, the channel is still registered and points to its
room, a room with the id `"r1"`, but `rooms` has no entry under `"r1"`:
`ChangeRoom` found the room in `rooms`, then emptied it and deleted its entry
before putting the channel back. -/
theorem C13_changeRoom_same_room_breaks_backref :
    ∃ b h, NewBucket.run sessionsU1 [.Put idR1 0, .ChangeRoom idR1 0] = some (b, h) ∧
      b.chs.get (h.chans 0).Key = some 0 ∧ (h.chans 0).Room = some 0 ∧
      (h.roomObjs 0).ID = idR1 ∧ b.rooms.get idR1 = none :=
  ⟨_, _, rfl, by decide, by decide, by decide, by decide⟩

/-- C14. Push drop behaviour: on a mailbox that already holds as many entries
as its capacity, `Push(p)` returns `ErrSignalFullMsgDropped` and leaves the
channel, its mailbox included, unchanged; on a mailbox that holds fewer it
returns nil and appends `p` at the tail, behind every entry already queued. -/
theorem C14_push_drop (c : Channel) (p : Proto) :
    (c.signal.length = c.signalCap → c.Push p = (c, some .ErrSignalFullMsgDropped)) ∧
    (c.signal.length < c.signalCap →
      c.Push p = ({ c with signal := c.signal ++ [.frame p] }, none)) := by
  unfold Channel.Push
  constructor
  · intro h
    rw [if_neg (by omega)]
  · intro h
    rw [if_pos h]

/-- C14 on a full mailbox of capacity 1 and on an empty mailbox of
capacity 10. -/
theorem C14_push_drop_witness :
    (fullSessionsU1.chans 0).Push pushHi
      = (fullSessionsU1.chans 0, some .ErrSignalFullMsgDropped) ∧
    (sessionsU1.chans 0).Push pushHi
      = ({ sessionsU1.chans 0 with signal := (sessionsU1.chans 0).signal ++ [.frame pushHi] },
          none) :=
  ⟨(C14_push_drop (fullSessionsU1.chans 0) pushHi).1 (by decide),
   (C14_push_drop (sessionsU1.chans 0) pushHi).2 (by decide)⟩

/-- C15, the code at the failing input: `Close` is the plain send
`c.signal <- ProtoFinish`, so on a channel whose mailbox of capacity 1 holds
one frame it cannot complete, and neither can the `Put` of a second session
with the same key, which closes that channel under the bucket lock. -/
theorem C15_close_blocks_on_full_mailbox :
    (fullSessionsU1.chans 0).signal.length = (fullSessionsU1.chans 0).signalCap ∧
    (fullSessionsU1.chans 0).Close = none ∧
    ∃ b h, NewBucket.Put fullSessionsU1 idR1 0 = some (b, h) ∧
      b.chs.get (h.chans 1).Key = some 0 ∧ b.Put h idR1 1 = none :=
  ⟨by decide, by decide, _, _, rfl, by decide, rfl⟩

/-- C16, the code at the failing input: `BroadcastRoom` sends with the plain
`b.routines[num] <- arg`. On a bucket with one worker whose mailbox of
capacity 1 already holds a request, the index 0 is picked and the call cannot
complete; the request is not dropped. -/
theorem C16_broadcastRoom_blocks_on_full_queue :
    ∃ b, (NewBucketOf oneWorkerConfig).BroadcastRoom roomReqHi = .done b ∧
      b.routines = [[roomReqHi]] ∧ b.BroadcastRoom roomReqHi = .blocks :=
  ⟨_, rfl, by decide, by decide⟩

/-- C17. Subscription set semantics: a new channel watches no op; after
`Watch(ops)` a channel needs a push for `x` exactly when it did before or `x`
is among `ops`; after `UnWatch(ops)` exactly when it did before and `x` is not
among `ops`; and `Watch` is idempotent. The new channel is stated both as
`NewChannelDone` and as whatever `NewChannel` returns. -/
theorem C17_subscription_set :
    (∀ (cli : Int) (svr : Nat) (op : Int), (NewChannelDone cli svr).NeedPush op = false) ∧
    (∀ (c : Channel) (ops : List Int) (x : Int),
      (c.Watch ops).NeedPush x = true ↔ (c.NeedPush x = true ∨ x ∈ ops)) ∧
    (∀ (c : Channel) (ops : List Int) (x : Int),
      (c.UnWatch ops).NeedPush x = true ↔ (c.NeedPush x = true ∧ x ∉ ops)) ∧
    (∀ (c : Channel) (ops : List Int), (c.Watch ops).Watch ops = c.Watch ops) ∧
    (∀ (L : MakeLimits) (cli svr : Int) (c : Channel) (op : Int),
      NewChannel L cli svr = some c → c.NeedPush op = false) := by
  refine ⟨?_, ?_, ?_, ?_, ?_⟩
  rotate_right
  · intro L cli svr c op hc
    rw [(NewChannel_done L cli svr c hc).1]
    simp [NewChannelDone, Channel.NeedPush]
  · intro cli svr op
    simp [NewChannelDone, Channel.NeedPush]
  · intro c ops x
    simp only [Channel.NeedPush, Channel.Watch, decide_eq_true_eq]
    exact mem_watch_fold ops c.watchOps x
  · intro c ops x
    simp only [Channel.NeedPush, Channel.UnWatch, decide_eq_true_eq]
    exact mem_unwatch_fold ops c.watchOps x
  · intro c ops
    simp only [Channel.Watch]
    rw [watch_fold_of_mem ops _ (fun op hop => (mem_watch_fold ops c.watchOps op).mpr (Or.inr hop))]

/-- C17 on a new channel that watches op 2: it needs a push for op 2 and,
after `UnWatch(2)`, no longer; the channel `NewChannel(5, 10)` returns on the
machine `smallMachine` needs no push for op 2. -/
theorem C17_subscription_set_witness :
    ((NewChannelDone 5 10).Watch [2]).NeedPush 2 = true ∧
    ¬ ((((NewChannelDone 5 10).Watch [2]).UnWatch [2]).NeedPush 2 = true) ∧
    (NewChannel smallMachine 5 10 = some (NewChannelDone 5 10) ∧
      (NewChannelDone 5 10).NeedPush 2 = false) :=
  ⟨(C17_subscription_set.2.1 (NewChannelDone 5 10) [2] 2).mpr (Or.inr (by decide)),
   fun h => ((C17_subscription_set.2.2.1 ((NewChannelDone 5 10).Watch [2]) [2] 2).mp h).2
     (by decide),
   by decide,
   C17_subscription_set.2.2.2.2 smallMachine 5 10 (NewChannelDone 5 10) 2 (by decide)⟩

/-- C18, the code at the failing input: with the keys `"u1"` and `"u2"`
registered, both channels watching op 2, the mailbox of `"u1"` full and that
of `"u2"` empty, `PushMsg(["u1", "u2"], p, 2)` returns
`ErrSignalFullMsgDropped` at the first key and never serves `"u2"`: the heap
is as it was and the mailbox of `"u2"` is still empty. -/
theorem C18_pushMsg_stops_at_full_mailbox (cityHash32 : GoString → Nat) :
    ∃ b h, NewBucket.run fullAndFreeSessions [.Put idR1 0, .Put idR1 1] = some (b, h) ∧
      b.Channel idU2 = some 1 ∧ (h.chans 1).NeedPush 2 = true ∧ (h.chans 1).signal = [] ∧
      (h.chans 1).signalCap = 1 ∧
      ConnectNodeServer.PushMsg { buckets := [b], bucketIdx := 1 } cityHash32 h
          { Keys := [idU1, idU2], Proto := some pushHi, ProtoOp := 2 }
        = .done ({ reply := false, err := some (.chan .ErrSignalFullMsgDropped) }, h) :=
  ⟨_, _, rfl, by decide, by decide, by decide, by decide,
    PushMsg_stops_at_drop _ cityHash32 _ idU1 [idU2] pushHi 2 _ 0
      (Bucket_of_single _ cityHash32 idU1) (by decide) (by decide) (by decide)⟩

/-- C19, the code at the failing input: `Broadcast` with a nil frame does not
return `ErrBroadCastArg`. Its first statement, ahead of the nil test, logs
`req.GetProto().Roomid`, a field read through a nil pointer: the call panics,
on every server and for every `protoOp` and `speed`. -/
theorem C19_broadcast_nil_frame_panics (s : ConnectNodeServer) (h : Heap) (protoOp speed : Int) :
    s.Broadcast h { Proto := none, ProtoOp := protoOp, Speed := speed } = .panic := rfl

/-- C20, the code at the failing input: on a node with one bucket and one
room `"r1"` with one member, a round of `onlineproc` sums `roomCount["r1"]`
to 1, the `Online` count of the room, but leaves the room with
`AllOnline = 0`. -/
theorem C20_onlineproc_leaves_allOnline_zero :
    ∃ b h, NewBucket.run sessionsU1 [.Put idR1 0] = some (b, h) ∧
      b.rooms.get idR1 = some 0 ∧ (h.roomObjs 0).Online = 1 ∧
      (ConnectNodeServer.onlineproc { buckets := [b], bucketIdx := 1 } h).1.get idR1 = some 1 ∧
      ((ConnectNodeServer.onlineproc { buckets := [b], bucketIdx := 1 } h).2.roomObjs 0).Online
        = 1 ∧
      ((ConnectNodeServer.onlineproc { buckets := [b], bucketIdx := 1 } h).2.roomObjs 0).AllOnline
        = 0 :=
  ⟨_, _, rfl, by decide, by decide, by decide, by decide, by decide⟩

/-! ## The codec: further properties of the specification -/

/-- C28, the code at the failing input: on a complete window of 18 bytes whose
`roomIdLen` field is `0xFFFE`, which `int16` reads as `-2`, `Read` succeeds.
The user id offset `16 + 2 - 2` falls back on the same field, so the
`userIdLen` it uses is `-2` as well, the body offset is 16 again and the two
bytes of the length field are returned as the body: both length fields used
are negative, and `16 + 2 + 0 + 2 + 0 + 2 = 22` is not the consumed count
18. -/
theorem C28_negative_id_lengths_accepted (buf : ByteSlice) (hb : 18 ≤ buf.len) :
    toInt16 (Uint16 (backwardLenWindow.drop 16)) = -2 ∧
    Read buf backwardLenWindow
      = .ret (some { Ver := 1, Op := 1, Seq := 1, Roomid := [], Userid := [],
                     Body := some [255, 254] }) 18 none ∧
    16 + 2 + ([] : List Byte).length + 2 + ([] : List Byte).length
      + ([255, 254] : List Byte).length ≠ 18 := by
  refine ⟨by decide, ?_, by decide⟩
  have s5 : (copyBytes buf backwardLenWindow).slice 16 18 = some [255, 254] := by
    simpa [backwardLenWindow] using slice_copy buf backwardLenWindow 16 18 (by omega) (by decide)
      (by omega)
  have hlen : (copyBytes buf backwardLenWindow).len = buf.len := copyBytes_len _ _
  rw [Read_eq_readRoomId buf backwardLenWindow (by decide) (by omega) (by decide) (by decide)
    (by decide)]
  have e0 : Uint32 backwardLenWindow = 18 := by decide
  have e1 : toInt32 (Uint16 (backwardLenWindow.drop 6)) = 1 := by decide
  have e2 : toInt32 (Uint32 (backwardLenWindow.drop 8)) = 1 := by decide
  have e3 : toInt32 (Uint32 (backwardLenWindow.drop 12)) = 1 := by decide
  have e5 : toInt16 (Uint16 [255, 254]) = -2 := by decide
  rw [e0, e1, e2, e3]
  unfold readRoomId
  simp only [_stringLenSize, Int.reduceAdd]
  rw [if_neg (by rw [hlen]; omega), s5]
  simp only [e5]
  rw [if_neg (by decide)]
  unfold readUserId
  simp only [_stringLenSize, Int.reduceAdd]
  rw [if_neg (by rw [hlen]; omega), s5]
  simp only [e5]
  rw [if_neg (by decide)]
  unfold readBody
  simp only [_stringLenSize, Int.reduceAdd, Nat.cast_ofNat, Int.reduceSub]
  rw [if_pos (by decide)]
  simp only [Int.reduceAdd, s5]

/-- C28 at the failing input, with a zeroed read buffer of 4112 bytes. -/
theorem C28_negative_id_lengths_accepted_witness :
    Read (zeroBuffer 4112) backwardLenWindow
      = .ret (some { Ver := 1, Op := 1, Seq := 1, Roomid := [], Userid := [],
                     Body := some [255, 254] }) 18 none :=
  (C28_negative_id_lengths_accepted (zeroBuffer 4112) (by rw [zeroBuffer_len]; decide)).2.1

/-- C29. Round trip within the encodable range: for a frame `F` with a `ver`
that fits 16 bits, `op` and `seq` any `int32` values, and an encoded length of
at most 4112, and a read buffer of at least 4112 bytes, `Read` on the bytes of
`Write(F)` followed by any further bytes succeeds, consumes exactly
`len(Write(F))` bytes and returns the `ver`, `op`, `seq`, `roomId` and
`userId` of `F` and a body with the bytes of `F`'s body, nil when that is
empty. -/
theorem C29_roundtrip_with_trailing_bytes (buf : ByteSlice) (F : Proto) (rest : List Byte)
    (hv : 0 ≤ F.Ver ∧ F.Ver < 65536)
    (hop : -2147483648 ≤ F.Op ∧ F.Op < 2147483648)
    (hseq : -2147483648 ≤ F.Seq ∧ F.Seq < 2147483648)
    (hL : 16 + 2 + F.Roomid.length + 2 + F.Userid.length + F.bodyBytes.length ≤ 4112)
    (hbuf : 4112 ≤ buf.len) :
    ∃ p, Read buf (Write F ++ rest) = .ret (some p) (Write F).length none ∧
      (Write F).length
        = 16 + 2 + F.Roomid.length + 2 + F.Userid.length + F.bodyBytes.length ∧
      p.Ver = F.Ver ∧ p.Op = F.Op ∧ p.Seq = F.Seq ∧ p.Roomid = F.Roomid ∧
      p.Userid = F.Userid ∧ p.bodyBytes = F.bodyBytes ∧
      (F.bodyBytes = [] → p.Body = none) := by
  rw [Write_eq_wireFormat, wireFormat_length]
  have h := Read_wireFormat buf F rest hv hop hseq hL (by unfold encLen; omega)
  refine ⟨_, h, rfl, rfl, rfl, rfl, rfl, rfl, ?_, ?_⟩
  · simp only [Proto.bodyBytes]
    split_ifs with hb
    · simp only [Proto.bodyBytes] at hb
      simp [hb]
    · rfl
  · intro hb
    simp only [if_pos hb]

/-- C29 on the join frame of scenario 1 followed by three more bytes, with a
zeroed read buffer of 4112 bytes. -/
theorem C29_roundtrip_with_trailing_bytes_witness :
    ∃ p, Read (zeroBuffer 4112) (Write sampleFrame ++ [1, 2, 3])
        = .ret (some p) (Write sampleFrame).length none ∧
      (Write sampleFrame).length
        = 16 + 2 + sampleFrame.Roomid.length + 2 + sampleFrame.Userid.length
          + sampleFrame.bodyBytes.length ∧
      p.Ver = sampleFrame.Ver ∧ p.Op = sampleFrame.Op ∧ p.Seq = sampleFrame.Seq ∧
      p.Roomid = sampleFrame.Roomid ∧ p.Userid = sampleFrame.Userid ∧
      p.bodyBytes = sampleFrame.bodyBytes ∧ (sampleFrame.bodyBytes = [] → p.Body = none) :=
  C29_roundtrip_with_trailing_bytes (zeroBuffer 4112) sampleFrame [1, 2, 3] (by decide)
    (by decide) (by decide) (by decide) (by rw [zeroBuffer_len])

/-! ## The per-ip counters: lemmas -/

/-- A lookup finds the binding of a map with distinct keys. -/
theorem GoMap.get_of_mem {V : Type} (m : GoMap V) (kv : GoString × V)
    (hnd : (m.map Prod.fst).Nodup) (hmem : kv ∈ m) : m.get kv.1 = some kv.2 := by
  obtain ⟨k1, v1⟩ := kv
  induction m with
  | nil => cases hmem
  | cons a m ih =>
    obtain ⟨k, v⟩ := a
    rw [List.map_cons, List.nodup_cons] at hnd
    rw [GoMap.get_cons]
    rcases List.mem_cons.mp hmem with e | e
    · rw [e]; simp
    · have hne : k1 ≠ k := by
        intro hk
        apply hnd.1
        rw [← hk]
        have hm := List.mem_map_of_mem Prod.fst e
        exact hm
      simp only [] at hne ⊢
      rw [if_neg hne]
      exact ih hnd.2 e

/-- A key that a lookup finds is the key of a binding of the map. -/
theorem GoMap.mem_of_get {V : Type} (m : GoMap V) (k : GoString) (v : V)
    (hg : m.get k = some v) : (k, v) ∈ m := by
  induction m with
  | nil => cases hg
  | cons a m ih =>
    obtain ⟨k2, v2⟩ := a
    rw [GoMap.get_cons] at hg
    by_cases hk : k = k2
    · rw [if_pos hk] at hg
      rw [hk, Option.some.inj hg]
      exact List.mem_cons_self _ _
    · rw [if_neg hk] at hg
      exact List.mem_cons_of_mem _ (ih hg)

/-- Deleting an absent key changes nothing. -/
theorem GoMap.del_absent {V : Type} (m : GoMap V) (k : GoString) (hg : m.get k = none) :
    m.del k = m := by
  unfold GoMap.del
  apply List.filter_eq_self.mpr
  intro kv hkv
  simp only [ne_eq, decide_eq_true_eq]
  intro hk
  cases hv : m.get k with
  | none =>
    induction m with
    | nil => cases hkv
    | cons a m ih =>
      obtain ⟨k2, v2⟩ := a
      rw [GoMap.get_cons] at hg hv
      by_cases h2 : k = k2
      · rw [if_pos h2] at hg; cases hg
      · rw [if_neg h2] at hg hv
        rcases List.mem_cons.mp hkv with e | e
        · rw [e] at hk; exact h2 hk.symm
        · exact ih hg e hv
  | some v => rw [hg] at hv; cases hv

/-- The keys of a map after `delete` are still pairwise distinct. -/
theorem GoMap.nodup_del {V : Type} (m : GoMap V) (k : GoString)
    (hnd : (m.map Prod.fst).Nodup) : ((m.del k).map Prod.fst).Nodup := by
  unfold GoMap.del
  exact (List.Nodup.sublist (List.Sublist.map _ (List.filter_sublist _)) hnd)

/-- The counter statement of `Put` read through the map. -/
theorem incIpCnt_get (m : GoMap Int) (ip ip2 : GoString) :
    (incIpCnt m ip).get ip2
      = if ip2 = ip then some (toInt32 (toUint32 ((m.get ip).getD 0 + 1))) else m.get ip2 := by
  unfold incIpCnt
  by_cases h : ip2 = ip
  · rw [if_pos h, h]; exact GoMap.get_set_self _ _ _
  · rw [if_neg h]; exact GoMap.get_set_ne _ _ _ _ h

/-- An `int32` value survives the round trip through `uint32`. -/
theorem toInt32_toUint32_id (x : Int) (h1 : -2147483648 ≤ x) (h2 : x < 2147483648) :
    toInt32 (toUint32 x) = x := by
  unfold toInt32 toUint32
  split_ifs <;> omega

/-- `Put` of a channel whose key is free, whatever the room id: the channel
is added to `chs`, the counter of its ip is raised, and no channel changes its
key or ip. -/
theorem Put_free (b : Bucket) (h : Heap) (r : GoString) (c : ChanPtr)
    (hk : b.chs.get (h.chans c).Key = none) :
    ∃ b2 h2, b.Put h r c = some (b2, h2) ∧
      b2.chs = ((h.chans c).Key, c) :: b.chs ∧
      b2.ipCnts = incIpCnt b.ipCnts (h.chans c).IP ∧
      ∀ x, (h2.chans x).Key = (h.chans x).Key ∧ (h2.chans x).IP = (h.chans x).IP := by
  have hset : b.chs.set (h.chans c).Key c = ((h.chans c).Key, c) :: b.chs := by
    have := GoMap.del_absent b.chs _ hk
    unfold GoMap.del at this
    unfold GoMap.set
    rw [this]
  have hupd : ∀ (R : RoomPtr) (x : ChanPtr),
      (Function.update h.chans c { h.chans c with Room := some R } x).Key = (h.chans x).Key ∧
      (Function.update h.chans c { h.chans c with Room := some R } x).IP = (h.chans x).IP := by
    intro R x
    rw [Function.update_apply]
    split_ifs with hx
    · rw [hx]; exact ⟨rfl, rfl⟩
    · exact ⟨rfl, rfl⟩
  by_cases hr : r = []
  · subst hr
    exact ⟨_, _, Put_noroom b h c hk, hset, rfl, fun _ => ⟨rfl, rfl⟩⟩
  · cases hroom : b.rooms.get r with
    | some R =>
      refine ⟨_, _, Put_join b h r c R hk hr hroom, hset, rfl, fun x => ?_⟩
      exact hupd R x
    | none =>
      refine ⟨_, _, Put_create b h r c hk hr hroom, hset, rfl, fun x => ?_⟩
      exact hupd h.nextRoom x

/-- The count of the bindings that satisfy `p`, before and after the one
binding of the key `k` is deleted. -/
theorem GoMap.count_del {V : Type} (m : GoMap V) (k : GoString) (v : V)
    (p : GoString × V → Bool) (hnd : (m.map Prod.fst).Nodup) (hmem : (k, v) ∈ m) :
    ((m.del k).filter p).length + (if p (k, v) = true then 1 else 0) = (m.filter p).length := by
  induction m with
  | nil => cases hmem
  | cons a m ih =>
    obtain ⟨k2, v2⟩ := a
    rw [List.map_cons, List.nodup_cons] at hnd
    by_cases hk : k2 = k
    · subst hk
      have hv : v2 = v := by
        rcases List.mem_cons.mp hmem with e | e
        · exact (Prod.mk.inj e).2.symm
        · exact absurd (List.mem_map_of_mem Prod.fst e) hnd.1
      subst hv
      have hdel : GoMap.del ((k2, v2) :: m) k2 = m := by
        have hfil : GoMap.del ((k2, v2) :: m) k2 = GoMap.del m k2 := by
          unfold GoMap.del
          rw [List.filter_cons_of_neg (by simp)]
        rw [hfil]
        apply GoMap.del_absent
        cases hg : GoMap.get m k2 with
        | none => rfl
        | some w => exact absurd (List.mem_map_of_mem Prod.fst (GoMap.mem_of_get m k2 w hg)) hnd.1
      rw [hdel, List.filter_cons]
      by_cases hp : p (k2, v2) = true
      · rw [if_pos hp, if_pos hp, List.length_cons]
      · rw [if_neg hp, if_neg hp]; rfl
    · have hmem2 : (k, v) ∈ m := by
        rcases List.mem_cons.mp hmem with e | e
        · exact absurd (Prod.mk.inj e).1.symm hk
        · exact e
      have hdel : GoMap.del ((k2, v2) :: m) k = (k2, v2) :: GoMap.del m k := by
        unfold GoMap.del
        rw [List.filter_cons_of_pos (by simpa using hk)]
      rw [hdel, List.filter_cons, List.filter_cons]
      have := ih hnd.2 hmem2
      by_cases hp : p (k2, v2) = true
      · rw [if_pos hp, if_pos hp, List.length_cons, List.length_cons]
        omega
      · rw [if_neg hp, if_neg hp]
        exact this

/-- The count of an ip depends on the ips of the channels only. -/
theorem ipCount_congr (b : Bucket) (h h2 : Heap) (ip : GoString)
    (hip : ∀ x, (h2.chans x).IP = (h.chans x).IP) : b.ipCount h2 ip = b.ipCount h ip := by
  unfold Bucket.ipCount
  congr 1
  apply List.filter_congr
  intro kv _
  rw [hip]

/-- A `Put` whose key is free keeps the invariant of the counters, as long as
the counters stay below `2 ^ 31`. -/
theorem put_ipInv (n : Nat) (b : Bucket) (h : Heap) (r : GoString) (c : ChanPtr)
    (hn : n < 2147483648) (hlen : b.chs.length < n) (hinv : IpInv n b h)
    (hk : b.chs.get (h.chans c).Key = none) :
    ∃ b2 h2, b.Put h r c = some (b2, h2) ∧ IpInv n b2 h2 ∧ b2.chs.length = b.chs.length + 1 := by
  obtain ⟨i1, i2, i3, i4⟩ := hinv
  obtain ⟨b2, h2, hput, hchs, hcnt, hheap⟩ := Put_free b h r c hk
  refine ⟨b2, h2, hput, ⟨?_, ?_, ?_, ?_⟩, by rw [hchs]; rfl⟩
  · rw [hchs, List.map_cons, List.nodup_cons]
    refine ⟨?_, i1⟩
    intro hmem
    obtain ⟨kv, hkv, hfst⟩ := List.mem_map.mp hmem
    have := GoMap.get_of_mem b.chs kv i1 hkv
    rw [hfst, hk] at this
    cases this
  · intro kv hkv
    rw [hchs] at hkv
    rw [(hheap kv.2).1]
    rcases List.mem_cons.mp hkv with e | e
    · rw [e]
    · exact i2 kv e
  · rw [hchs, List.length_cons]; omega
  · intro ip
    have hcount : b2.ipCount h2 ip
        = (if (h.chans c).IP = ip then 1 else 0) + b.ipCount h ip := by
      rw [ipCount_congr b2 h h2 ip (fun x => (hheap x).2)]
      unfold Bucket.ipCount
      rw [hchs, List.filter_cons]
      split_ifs with h1 h2 h2
      · rw [List.length_cons]; omega
      · simp only [decide_eq_true_eq] at h1; exact absurd h1 h2
      · simp only [decide_eq_true_eq] at h1; exact absurd h2 h1
      · omega
    have hle : b.ipCount h ip ≤ b.chs.length := by
      unfold Bucket.ipCount
      exact List.length_filter_le _ _
    rw [hcnt, incIpCnt_get]
    by_cases hip : ip = (h.chans c).IP
    · rw [if_pos hip.symm] at hcount
      rw [if_pos hip, hcount, i4 (h.chans c).IP, ← hip]
      have hne : ¬ (1 + b.ipCount h ip = 0) := by omega
      rw [if_neg hne]
      congr 1
      split_ifs with h0
      · rw [h0]
        simp only [Option.getD_none, zero_add, add_zero, Nat.cast_one]
        exact toInt32_toUint32_id 1 (by decide) (by decide)
      · simp only [Option.getD_some]
        rw [toInt32_toUint32_id _ (by omega) (by omega)]
        push_cast
        omega
    · rw [if_neg (fun e => hip e.symm), zero_add] at hcount
      rw [if_neg hip, hcount, i4 ip]

/-- A `Del` whose key is absent or held by the deleted channel keeps the
invariant of the counters. -/
theorem del_ipInv (n : Nat) (b : Bucket) (h : Heap) (c : ChanPtr)
    (hn : n < 2147483648) (hinv : IpInv n b h)
    (hk : b.chs.get (h.chans c).Key = none ∨ b.chs.get (h.chans c).Key = some c) :
    IpInv n (b.Del h c).1 (b.Del h c).2 ∧ (b.Del h c).1.chs.length ≤ b.chs.length := by
  obtain ⟨i1, i2, i3, i4⟩ := hinv
  obtain ⟨l1, l2, l3⟩ := leaveRoom_maps (b.unregister h c) h (h.chans c).Room c
  have d1 : (b.Del h c).1.chs = (b.unregister h c).chs := l1
  have d2 : (b.Del h c).1.ipCnts = (b.unregister h c).ipCnts := l2
  have d3 : (b.Del h c).2.chans = h.chans := l3
  have hcong : ∀ ip, (b.Del h c).1.ipCount (b.Del h c).2 ip
      = ((b.unregister h c).chs.filter (fun kv => decide ((h.chans kv.2).IP = ip))).length := by
    intro ip
    unfold Bucket.ipCount
    rw [d1, d3]
  rcases hk with hk | hk
  · have hu : b.unregister h c = b := by
      unfold Bucket.unregister
      rw [hk]
    rw [hu] at d1 d2 hcong
    refine ⟨⟨by rw [d1]; exact i1, ?_, by rw [d1]; exact i3, ?_⟩, by rw [d1]⟩
    · intro kv hkv
      rw [d1] at hkv
      rw [d3]
      exact i2 kv hkv
    · intro ip
      rw [d2, hcong ip]
      exact i4 ip
  · have hu1 : (b.unregister h c).chs = b.chs.del (h.chans c).Key := by
      unfold Bucket.unregister
      rw [hk]
      simp
    have hu2 : (b.unregister h c).ipCnts = decIpCnt b.ipCnts (h.chans c).IP := by
      unfold Bucket.unregister
      rw [hk]
    rw [hu1] at d1 hcong
    rw [hu2] at d2
    have hmem := GoMap.mem_of_get b.chs _ c hk
    have hlen : (b.chs.del (h.chans c).Key).length ≤ b.chs.length := by
      unfold GoMap.del
      exact List.length_filter_le _ _
    refine ⟨⟨by rw [d1]; exact GoMap.nodup_del _ _ i1, ?_, by rw [d1]; omega, ?_⟩,
      by rw [d1]; exact hlen⟩
    · intro kv hkv
      rw [d1] at hkv
      rw [d3]
      unfold GoMap.del at hkv
      exact i2 kv (List.mem_filter.mp hkv).1
    · intro ip
      have hcount := GoMap.count_del b.chs (h.chans c).Key c
        (fun kv => decide ((h.chans kv.2).IP = ip)) i1 hmem
      simp only [decide_eq_true_eq] at hcount
      have hle : b.ipCount h ip ≤ b.chs.length := by
        unfold Bucket.ipCount
        exact List.length_filter_le _ _
      have hold : (b.chs.filter (fun kv => decide ((h.chans kv.2).IP = ip))).length
          = b.ipCount h ip := rfl
      rw [hold] at hcount
      rw [d2, hcong ip]
      by_cases hip : ip = (h.chans c).IP
      · rw [if_pos hip.symm] at hcount
        rw [hip, (decIpCnt_get b.ipCnts (h.chans c).IP).1, i4 (h.chans c).IP, ← hip]
        have hne : ¬ (b.ipCount h ip = 0) := by omega
        rw [if_neg hne]
        simp only [Option.getD_some]
        by_cases h1 : b.ipCount h ip = 1
        · have h0 : ((b.chs.del (h.chans c).Key).filter
              (fun kv => decide ((h.chans kv.2).IP = ip))).length = 0 := by omega
          rw [if_neg (by rw [h1]; decide), if_pos h0]
        · have hgt : ((b.ipCount h ip : Nat) : Int) > 1 := by omega
          rw [if_pos hgt, if_neg (by omega), toInt32_toUint32_id _ (by omega) (by omega)]
          congr 1
          omega
      · rw [if_neg (fun e => hip e.symm)] at hcount
        rw [(decIpCnt_get b.ipCnts (h.chans c).IP).2 ip hip, i4 ip]
        have : ((b.chs.del (h.chans c).Key).filter
            (fun kv => decide ((h.chans kv.2).IP = ip))).length = b.ipCount h ip := by omega
        rw [this]

/-- A run of plain calls completes and keeps the invariant of the counters,
as long as there is room below the bound `n` for every call. -/
theorem plainRun_ipInv (n : Nat) (hn : n < 2147483648) (ops : List BucketOp) :
    ∀ (b : Bucket) (h : Heap), IpInv n b h → b.chs.length + ops.length ≤ n →
      b.plainRun h ops = true →
      ∃ b2 h2, b.run h ops = some (b2, h2) ∧ IpInv n b2 h2 := by
  induction ops with
  | nil =>
    intro b h hinv _ _
    exact ⟨b, h, rfl, hinv⟩
  | cons op ops ih =>
    intro b h hinv hlen hplain
    rw [List.length_cons] at hlen
    simp only [Bucket.plainRun, Bool.and_eq_true] at hplain
    obtain ⟨hop, hrest⟩ := hplain
    cases op with
    | Put r c =>
      simp only [BucketOp.plain, decide_eq_true_eq] at hop
      obtain ⟨b2, h2, hput, hinv2, hl2⟩ := put_ipInv n b h r c hn (by omega) hinv hop
      simp only [Bucket.apply, hput] at hrest
      obtain ⟨b3, h3, hrun, hinv3⟩ := ih b2 h2 hinv2 (by omega) hrest
      exact ⟨b3, h3, by simp only [Bucket.run, Bucket.apply, hput, Option.bind]; exact hrun,
        hinv3⟩
    | Del c =>
      simp only [BucketOp.plain, decide_eq_true_eq] at hop
      obtain ⟨hinv2, hl2⟩ := del_ipInv n b h c hn hinv hop
      simp only [Bucket.apply] at hrest
      obtain ⟨b3, h3, hrun, hinv3⟩ := ih _ _ hinv2 (by omega) hrest
      exact ⟨b3, h3, by simp only [Bucket.run, Bucket.apply, Option.bind]; exact hrun, hinv3⟩
    | ChangeRoom r c =>
      simp [BucketOp.plain] at hop

/-! ## The per-ip counters: the properties of the specification -/

/-- C30, as stated, fails: after two sessions with the same key and ip were
put, the second has replaced the first, so `chs` stores one channel with that
ip, while the counter of the ip is 2. -/
theorem C30_evicting_put_counts_twice :
    ∃ b h, NewBucket.run sessionsU1 [.Put idR1 0, .Put idR1 1] = some (b, h) ∧
      b.chs = [(idU1, 1)] ∧ (h.chans 1).IP = [] ∧ b.ipCount h [] = 1 ∧
      b.ipCnts.get [] = some 2 :=
  ⟨_, _, rfl, by decide, by decide, by decide, by decide⟩

/-- C30, amended. Per-ip counter invariant: in every state reached from an
empty bucket by fewer than `2 ^ 31` calls, each a `Put` of a channel whose key
is not taken or a `Del` of a channel whose key is absent or held by that
channel itself, every call completes and, for every ip, `ipCnts[ip]` is the
number of channels stored in `chs` whose ip it is, with no entry for an ip
with no such channel. -/
theorem C30_ipCnts_count_channels (h : Heap) (ops : List BucketOp)
    (hlen : ops.length < 2147483648) (hplain : NewBucket.plainRun h ops = true) :
    ∃ b2 h2, NewBucket.run h ops = some (b2, h2) ∧
      ∀ ip, b2.ipCnts.get ip
        = if b2.ipCount h2 ip = 0 then none else some ((b2.ipCount h2 ip : Nat) : Int) := by
  have hinv0 : IpInv ops.length NewBucket h :=
    ⟨List.nodup_nil, fun kv hkv => absurd hkv (List.not_mem_nil _), Nat.zero_le _,
      fun ip => rfl⟩
  obtain ⟨b2, h2, hrun, hinv⟩ := plainRun_ipInv ops.length hlen ops NewBucket h hinv0
    (by simp [NewBucket]) hplain
  exact ⟨b2, h2, hrun, hinv.2.2.2⟩

/-- C30, amended, at a concrete input: the sessions `"u1"` and `"u2"` are put
and the first is deleted. -/
theorem C30_ipCnts_count_channels_witness :
    ∃ b2 h2, NewBucket.run fullAndFreeSessions [.Put idR1 0, .Put idR1 1, .Del 0]
        = some (b2, h2) ∧
      ∀ ip, b2.ipCnts.get ip
        = if b2.ipCount h2 ip = 0 then none else some ((b2.ipCount h2 ip : Nat) : Int) :=
  C30_ipCnts_count_channels fullAndFreeSessions [.Put idR1 0, .Put idR1 1, .Del 0]
    (by decide) (by decide)
/-! ## The buffer pool: lemmas -/

/-- An `int` value is its own 64 bit wrap. -/
theorem wrapInt64_id (x : Int) (h1 : 0 ≤ x) (h2 : x < 9223372036854775808) :
    wrapInt64 x = x := by
  unfold wrapInt64
  omega

/-- The slice `buf[j*S : (j+1)*S]` of an array of `N * S` bytes, for
`j < N`. -/
theorem sliceOf_slab (region N S j : Nat) (hj : j < N) (hmax : N * S < 9223372036854775808) :
    sliceOf region ((N : Int) * S) (wrapInt64 ((((j + 1 : Nat) : Int) - 1) * S))
        (wrapInt64 (((j + 1 : Nat) : Int) * S))
      = some { region := region, off := j * S, len := S, cap := N * S - j * S } := by
  have h1 : j * S + S ≤ N * S := by
    calc j * S + S = (j + 1) * S := by ring
      _ ≤ N * S := Nat.mul_le_mul_right S hj
  have e1 : (((j + 1 : Nat) : Int) - 1) * (S : Int) = ((j * S : Nat) : Int) := by
    push_cast; ring
  have e2 : ((j + 1 : Nat) : Int) * (S : Int) = ((j * S + S : Nat) : Int) := by
    push_cast; ring
  have e3 : (N : Int) * (S : Int) = ((N * S : Nat) : Int) := by push_cast; rfl
  rw [e1, e2, e3]
  generalize j * S = a at *
  generalize N * S = M at *
  rw [wrapInt64_id _ (by omega) (by omega), wrapInt64_id _ (by omega) (by omega)]
  unfold sliceOf
  rw [if_pos (by omega)]
  congr 2 <;> omega

/-- The loop of `grow` on a pool of `N` buffers of `S` bytes, entered with
the loop variable `i + 1 ≤ N` and `b = &bs[i]`: it ends with the loop variable
`N` and `b = &bs[N-1]`, and has given every buffer `bs[j]` with
`i ≤ j < N - 1` its slice and its successor `&bs[j+1]`. -/
theorem growLoop_spec (p : Pool) (region base N S : Nat) (hN : p.num = N) (hS : p.size = S)
    (hM : p.max = (N : Int) * S) (hmax : N * S < 9223372036854775808) :
    ∀ (d i fuel : Nat) (bufs : BufPtr → Buffer), i + 1 + d = N → d < fuel →
      growLoop p region base fuel (i + 1) (base + i) bufs
        = some (N, base + (N - 1), fun a =>
            if base + i ≤ a ∧ a < base + (N - 1) then
              { buf := some { region := region, off := (a - base) * S, len := S,
                              cap := N * S - (a - base) * S },
                next := some (a + 1) }
            else bufs a) := by
  intro d
  induction d with
  | zero =>
    intro i fuel bufs hi hf
    obtain ⟨f, rfl⟩ : ∃ f, fuel = f + 1 := ⟨fuel - 1, by omega⟩
    unfold growLoop
    rw [if_neg (by rw [hN]; omega)]
    have e1 : i + 1 = N := by omega
    have e2 : base + i = base + (N - 1) := by omega
    rw [e1, e2]
    congr 3
    funext a
    rw [if_neg (by omega)]
  | succ d ih =>
    intro i fuel bufs hi hf
    obtain ⟨f, rfl⟩ : ∃ f, fuel = f + 1 := ⟨fuel - 1, by omega⟩
    unfold growLoop
    rw [if_pos (by rw [hN]; omega), hM, hS, sliceOf_slab region N S i (by omega) hmax]
    simp only [Function.update_same]
    rw [ih (i + 1) f _ (by omega) (by omega)]
    congr 3
    funext a
    by_cases ha : a = base + i
    · subst ha
      rw [if_neg (by omega), if_pos (by omega), Function.update_same]
      simp
      rfl
    · by_cases hr : base + (i + 1) ≤ a ∧ a < base + (N - 1)
      · rw [if_pos hr, if_pos (by omega)]
      · rw [if_neg hr, if_neg (by omega), Function.update_noteq ha, Function.update_noteq ha]

/-- What `grow` does on a pool of `N ≥ 1` buffers of `S` bytes when `make` can
allocate `N * S` bytes and `N` buffers: it does not panic, the free list
starts at the first new buffer, the `N` new buffers `bs[j]` have the slices
`[j*S, (j+1)*S)` of the one new array and are linked in order, the last with a
nil `next`, and no older buffer changes. -/
theorem grow_spec (L : MakeLimits) (p : Pool) (H : PoolHeap) (N S : Nat) (hN : p.num = N)
    (hS : p.size = S) (hM : p.max = (N : Int) * S) (hmax : N * S < 9223372036854775808)
    (h1 : 1 ≤ N) (hbytes : N * S ≤ L.bytes) (hbufs : N ≤ L.buffers) :
    ∃ H1, p.grow L H = some ({ p with free := some H.nextBuf }, H1) ∧
      (∀ j : Nat, j < N → H1.bufs (H.nextBuf + j)
        = { buf := some { region := H.nextRegion, off := j * S, len := S,
                          cap := N * S - j * S },
            next := if j + 1 < N then some (H.nextBuf + j + 1) else none }) ∧
      (∀ a : Nat, a < H.nextBuf → H1.bufs a = H.bufs a) := by
  have hloop := growLoop_spec p H.nextRegion H.nextBuf N S hN hS hM hmax (N - 1) 0 N
    (fun a => if H.nextBuf ≤ a ∧ a < H.nextBuf + N then Buffer.zero else H.bufs a)
    (by omega) (by omega)
  have hslice := sliceOf_slab H.nextRegion N S (N - 1) (by omega) hmax
  have eN : N - 1 + 1 = N := by omega
  rw [eN] at hslice
  unfold Pool.grow
  have e3 : (N : Int) * (S : Int) = ((N * S : Nat) : Int) := by push_cast; rfl
  have hok1 : makeOk L.bytes p.max = true := by
    unfold makeOk
    rw [decide_eq_true_eq, hM, e3]
    omega
  have hok2 : makeOk L.buffers p.num = true := by
    unfold makeOk
    rw [decide_eq_true_eq, hN]
    omega
  rw [if_neg (by rw [hok1]; decide), if_neg (by rw [hok2]; decide), if_neg (by rw [hN]; omega)]
  simp only [hN, Int.toNat_ofNat]
  simp only [zero_add, add_zero] at hloop
  rw [hloop]
  simp only [hM, hS, hslice, Function.update_same]
  refine ⟨_, rfl, ?_, ?_⟩
  · intro j hj
    simp only []
    by_cases hlast : j = N - 1
    · subst hlast
      rw [Function.update_same, if_neg (by omega)]
    · have hne : (H.nextBuf : Nat) + j ≠ H.nextBuf + (N - 1) := by omega
      have hin : (H.nextBuf : Nat) ≤ H.nextBuf + j ∧ H.nextBuf + j < H.nextBuf + (N - 1) := by
        omega
      have hsub : (H.nextBuf : Nat) + j - H.nextBuf = j := by omega
      rw [Function.update_noteq hne, Function.update_noteq hne, if_pos hin, if_pos (by omega),
        hsub]
  · intro a ha
    simp only []
    have ha2 : (a : Nat) < H.nextBuf := ha
    have hne : (a : Nat) ≠ H.nextBuf + (N - 1) := by omega
    have hout : ¬ ((H.nextBuf : Nat) ≤ a ∧ a < H.nextBuf + (N - 1)) := by omega
    have hout2 : ¬ ((H.nextBuf : Nat) ≤ a ∧ a < H.nextBuf + N) := by omega
    rw [Function.update_noteq hne, Function.update_noteq hne, if_neg hout, if_neg hout2]

/-- The method `grow` panics when `make` cannot allocate the bytes or the
buffers of the slab. -/
theorem grow_panics (L : MakeLimits) (p : Pool) (H : PoolHeap)
    (h : (L.bytes : Int) < p.max ∨ (L.buffers : Int) < p.num) : p.grow L H = none := by
  unfold Pool.grow
  by_cases h1 : makeOk L.bytes p.max = true
  · have hok2 : makeOk L.buffers p.num = false := by
      unfold makeOk at h1 ⊢
      rw [decide_eq_true_eq] at h1
      rw [decide_eq_false_iff_not]
      omega
    rw [if_neg (by rw [h1]; decide), if_pos (by rw [hok2]; decide)]
  · rw [if_pos h1]

/-- The list that starts at nil is empty. -/
theorem freeList_none (bufs : BufPtr → Buffer) (n : Nat) : freeList bufs n none = [] := by
  cases n <;> rfl

/-- The free list of buffers with consecutive addresses `base + j`, `j < N`,
each linked to the next and the last to nil. -/
theorem freeList_chain (bufs : BufPtr → Buffer) (base N : Nat)
    (hnext : ∀ j : Nat, j < N →
      (bufs (base + j)).next = if j + 1 < N then some (base + j + 1) else none) :
    ∀ (n j : Nat), j < N →
      freeList bufs n (some (base + j)) = (List.range' (base + j) (N - j)).take n := by
  intro n
  induction n with
  | zero => intro j _; rfl
  | succ n ih =>
    intro j hj
    obtain ⟨k, hk⟩ : ∃ k, N - j = k + 1 := ⟨N - j - 1, by omega⟩
    rw [hk, List.range'_succ, List.take_succ_cons]
    unfold freeList
    rw [hnext j hj]
    congr 1
    by_cases hlast : j + 1 < N
    · rw [if_pos hlast]
      have hi := ih (j + 1) hlast
      have : N - (j + 1) = k := by omega
      rw [this] at hi
      exact hi
    · rw [if_neg hlast, freeList_none]
      have : k = 0 := by omega
      rw [this]
      simp

/-- A store into a buffer that is not on the list leaves the list as it
was. -/
theorem freeList_update (bufs : BufPtr → Buffer) (b : BufPtr) (x : Buffer) :
    ∀ (n : Nat) (q : Option BufPtr), b ∉ freeList bufs n q →
      freeList (Function.update bufs b x) n q = freeList bufs n q := by
  intro n
  induction n with
  | zero => intro q _; rfl
  | succ n ih =>
    intro q hq
    cases q with
    | none => rfl
    | some c =>
      unfold freeList at hq ⊢
      have hne : c ≠ b := fun e => hq (e ▸ List.mem_cons_self _ _)
      rw [Function.update_noteq hne]
      congr 1
      exact ih _ (fun hmem => hq (List.mem_cons_of_mem _ hmem))

/-! ## The buffer pool: the properties of the specification -/

/-- C26, as stated, fails. A `Put` of a buffer that is already free: after
`Get` on `NewPool(2, 4)` returned the buffer 0 and left the free list `[1]`,
`Put(1)` followed by `Get` returns 1, and the free list has become the cycle
`1, 1, 1, ...`. A slab `make` cannot allocate: `Get` on `NewPool(1, 2 ^ 62)`
panics in `make([]byte, 2 ^ 62)`. A slab whose size does not fit an `int`:
for `NewPool(2, 2 ^ 62)` the product `p.max` has wrapped to a negative number
and `Get` panics in `make([]byte, p.max)`. -/
theorem C26_double_put_and_oversized_slab :
    (∃ P1 H1 H2, (NewPool 2 4).Get smallMachine emptyPoolHeap = some (0, P1, H1) ∧
      freeList H1.bufs 5 P1.free = [1] ∧
      (P1.Put H1 1).1.Get smallMachine (P1.Put H1 1).2 = some (1, P1, H2) ∧
      freeList H2.bufs 5 P1.free = [1, 1, 1, 1, 1]) ∧
    (NewPool 1 4611686018427387904).Get smallMachine emptyPoolHeap = none ∧
    ((NewPool 2 4611686018427387904).max < 0 ∧
      (NewPool 2 4611686018427387904).Get smallMachine emptyPoolHeap = none) :=
  ⟨⟨_, _, _, rfl, by decide, rfl, by decide⟩, rfl, by decide, rfl⟩

/-- C26, amended. The pool is a LIFO stack of fixed-size buffers. For every
pool and buffer `b`, `Put(b)` followed by `Get` returns `b`, leaves the pool
with the head it had and changes no other buffer and no slice; when `b` was
not on the free list, the free list is what it was before the `Put`. For a
pool initialised with `num = N ≥ 1` and `size = S ≥ 0`, `N * S` fitting an
`int`, whose free list is empty: when `make` can allocate `N * S` bytes and
`N` buffers, `Get` does not panic, returns the first of `N` new buffers, which
have the slices `[j*S, (j+1)*S)`, `j < N`, each `S` bytes long, of one new
array of `N * S` bytes, and leaves the other `N - 1` of them, in order, as the
free list; when `make` cannot, `Get` panics. -/
theorem C26_pool_lifo (L : MakeLimits) (p : Pool) (H : PoolHeap) :
    (∀ b : BufPtr, ∃ H2, (p.Put H b).1.Get L (p.Put H b).2 = some (b, p, H2) ∧
      (∀ a, a ≠ b → H2.bufs a = H.bufs a) ∧ (H2.bufs b).buf = (H.bufs b).buf ∧
      ((∀ n, b ∉ freeList H.bufs n p.free) →
        ∀ n, freeList H2.bufs n p.free = freeList H.bufs n p.free)) ∧
    (∀ N S : Nat, 1 ≤ N → p.num = N → p.size = S → p.max = wrapInt64 (p.num * p.size) →
      N * S < 9223372036854775808 → p.free = none →
      (N * S ≤ L.bytes → N ≤ L.buffers →
        ∃ P1 H1, p.Get L H = some (H.nextBuf, P1, H1) ∧
          P1.num = p.num ∧ P1.size = p.size ∧ P1.max = p.max ∧
          (∀ j : Nat, j < N → (H1.bufs (H.nextBuf + j)).buf
            = some { region := H.nextRegion, off := j * S, len := S, cap := N * S - j * S }) ∧
          (∀ a : Nat, a < H.nextBuf → H1.bufs a = H.bufs a) ∧
          ∀ n, freeList H1.bufs n P1.free = (List.range' (H.nextBuf + 1) (N - 1)).take n) ∧
      (L.bytes < N * S ∨ L.buffers < N → p.Get L H = none)) := by
  constructor
  · intro b
    refine ⟨(p.Put H b).2, ?_, ?_, ?_, ?_⟩
    · simp only [Pool.Get, Pool.Put, Function.update_same]
    · intro a ha
      simp only [Pool.Put, Function.update_noteq ha]
    · simp only [Pool.Put, Function.update_same]
    · intro hb n
      exact freeList_update H.bufs b _ n p.free (hb n)
  · intro N S h1 hN hS hM hmax hfree
    have e3 : (N : Int) * (S : Int) = ((N * S : Nat) : Int) := by push_cast; rfl
    have hM2 : p.max = (N : Int) * S := by
      rw [hM, hN, hS]
      have : (0 : Int) ≤ (N : Int) * S := by positivity
      rw [e3] at this ⊢
      exact wrapInt64_id _ this (by omega)
    constructor
    · intro hbytes hbufs
      obtain ⟨H1, hgrow, hbufs, hold⟩ := grow_spec L p H N S hN hS hM2 hmax h1 hbytes hbufs
      have hnext : ∀ j : Nat, j < N → (H1.bufs (H.nextBuf + j)).next
          = if j + 1 < N then some (H.nextBuf + j + 1) else none := by
        intro j hj
        rw [hbufs j hj]
      refine ⟨{ p with free := (H1.bufs H.nextBuf).next }, H1, ?_, rfl, rfl, rfl, ?_, hold, ?_⟩
      · simp only [Pool.Get, hfree, hgrow]
      · intro j hj
        rw [hbufs j hj]
      · intro n
        have h0 := hnext 0 h1
        simp only [add_zero, zero_add] at h0
        simp only []
        rw [h0]
        by_cases h2 : 1 < N
        · rw [if_pos h2]
          have := freeList_chain H1.bufs H.nextBuf N hnext n 1 h2
          exact this
        · rw [if_neg h2, freeList_none]
          have : N - 1 = 0 := by omega
          rw [this]
          simp
    · intro hbig
      have hg : p.grow L H = none := by
        apply grow_panics
        rw [hM2, hN, e3]
        omega
      simp only [Pool.Get, hfree, hg]

/-- C26, amended, at concrete inputs. On `NewPool(3, 4)` and a heap without
buffers, `Get` returns the buffer at address 0 and leaves the buffers 1 and 2
free; `Put(7)` of a buffer in use followed by `Get` returns it and leaves the
free list empty as it was; on `NewPool(1, 2 ^ 62)`, whose slab `make` cannot
allocate, `Get` panics. -/
theorem C26_pool_lifo_witness :
    (∃ P1 H1, (NewPool 3 4).Get smallMachine emptyPoolHeap = some (0, P1, H1) ∧
      (H1.bufs 1).buf = some { region := 0, off := 4, len := 4, cap := 8 } ∧
      freeList H1.bufs 5 P1.free = [1, 2]) ∧
    (∃ H2, ((NewPool 3 4).Put emptyPoolHeap 7).1.Get smallMachine
          ((NewPool 3 4).Put emptyPoolHeap 7).2 = some (7, NewPool 3 4, H2) ∧
      freeList H2.bufs 5 (NewPool 3 4).free = []) ∧
    (NewPool 1 4611686018427387904).Get smallMachine emptyPoolHeap = none := by
  refine ⟨?_, ?_, ?_⟩
  · obtain ⟨P1, H1, hget, _, _, _, hbuf, _, hfree⟩ :=
      ((C26_pool_lifo smallMachine (NewPool 3 4) emptyPoolHeap).2 3 4 (by decide) rfl rfl rfl
        (by decide) rfl).1 (by decide) (by decide)
    exact ⟨P1, H1, hget, hbuf 1 (by decide), hfree 5⟩
  · obtain ⟨H2, hget, _, _, hfree⟩ :=
      (C26_pool_lifo smallMachine (NewPool 3 4) emptyPoolHeap).1 7
    have hnot : ∀ n, (7 : BufPtr) ∉ freeList emptyPoolHeap.bufs n (NewPool 3 4).free := by
      intro n
      rw [show (NewPool 3 4).free = none from rfl, freeList_none]
      exact List.not_mem_nil _
    have h5 := hfree hnot 5
    rw [show freeList emptyPoolHeap.bufs 5 (NewPool 3 4).free = [] from rfl] at h5
    exact ⟨H2, hget, h5⟩
  · exact ((C26_pool_lifo smallMachine (NewPool 1 4611686018427387904) emptyPoolHeap).2 1
      4611686018427387904 (by decide) rfl rfl rfl (by decide) rfl).2 (Or.inl (by decide))

/-! ## The session handler: lemmas -/

/-- On a node with one bucket the hash function plays no part in the choice
of the bucket. -/
theorem Bucket_hash_single (s : ConnectNodeServer) (cityHash32 : GoString → Nat)
    (k : GoString) (h1 : s.bucketIdx = 1) :
    s.Bucket cityHash32 k = s.Bucket (fun _ => 0) k ∧
    s.bucketIndex cityHash32 k = s.bucketIndex (fun _ => 0) k := by
  simp [ConnectNodeServer.Bucket, ConnectNodeServer.bucketIndex, h1, Nat.mod_one]

/-- On a node with one bucket `OnMessage` does not depend on the hash
function. -/
theorem OnMessage_hash_single (h : ProtoMessageHandler) (cityHash32 : GoString → Nat)
    (w : World) (pkg : Option Proto) (h1 : w.server.bucketIdx = 1) :
    h.OnMessage cityHash32 w pkg = h.OnMessage (fun _ => 0) w pkg := by
  obtain ⟨e1, e2⟩ : (∀ k, w.server.Bucket cityHash32 k = w.server.Bucket (fun _ => 0) k) ∧
      (∀ k, w.server.bucketIndex cityHash32 k = w.server.bucketIndex (fun _ => 0) k) :=
    ⟨fun k => (Bucket_hash_single _ _ k h1).1, fun k => (Bucket_hash_single _ _ k h1).2⟩
  cases pkg with
  | none => rfl
  | some p =>
    simp only [ProtoMessageHandler.OnMessage, ProtoMessageHandler.authWebsocket, e1, e2]

/-- The auth gate closed: on a session that has not authenticated, a frame
with an empty room id, an empty user id or an op other than 1 and `OpAuth`
is dropped, and nothing changes. -/
theorem OnMessage_auth_fail (h : ProtoMessageHandler) (cityHash32 : GoString → Nat) (w : World)
    (p : Proto) (hauth : h.auth = false)
    (hbad : p.Roomid = [] ∨ p.Userid = [] ∨ (p.Op ≠ 1 ∧ p.Op ≠ 7)) :
    h.OnMessage cityHash32 w (some p) = .done (h, w) := by
  have hc : ¬ (p.Roomid ≠ [] ∧ p.Userid ≠ [] ∧ (p.Op = OpAuth ∨ p.Op = 1)) := by
    unfold OpAuth
    rintro ⟨h1, h2, h3⟩
    rcases hbad with e | e | e
    · exact h1 e
    · exact h2 e
    · rcases h3 with e3 | e3
      · exact e.2 e3
      · exact e.1 e3
  simp only [ProtoMessageHandler.OnMessage, ProtoMessageHandler.authWebsocket, hauth, if_neg hc]
  simp

/-- The auth gate open: on a session that has not authenticated, a frame
with both ids and op 1 or `OpAuth` sets the handler's ids, bucket and auth
flag, calls `Put(roomId, channel)` on the bucket selected by the user id, and
is copied into the ring slot `Set` returned, followed by `SetAdv` and
`Signal`. Stated for a `Put` that completes, a ring and a mailbox with
room. -/
theorem OnMessage_auth_ok (h : ProtoMessageHandler) (cityHash32 : GoString → Nat) (w : World)
    (p : Proto) (b b1 : Bucket) (heap1 : Heap) (i : Nat) (hauth : h.auth = false)
    (hr : p.Roomid ≠ []) (hu : p.Userid ≠ []) (hop : p.Op = 1 ∨ p.Op = 7)
    (hb : w.server.Bucket cityHash32 p.Userid = .done b)
    (hput : b.Put w.heap p.Roomid h.channel = some (b1, heap1))
    (hset : (heap1.chans h.channel).ClientReqQueue.Set = .slot i)
    (hsig : (heap1.chans h.channel).signal.length < (heap1.chans h.channel).signalCap) :
    h.OnMessage cityHash32 w (some p) = .done
      ({ h with roomId := p.Roomid, clientId := p.Userid,
                bucket := some (w.server.bucketIndex cityHash32 p.Userid), auth := true },
       { w with
          server := { w.server with
            buckets := w.server.buckets.set (w.server.bucketIndex cityHash32 p.Userid) b1 },
          heap := heap1.setChan h.channel
            { heap1.chans h.channel with
              ClientReqQueue := ((heap1.chans h.channel).ClientReqQueue.store i p).SetAdv,
              signal := (heap1.chans h.channel).signal ++ [.ProtoReady] } }) := by
  have hc : p.Roomid ≠ [] ∧ p.Userid ≠ [] ∧ (p.Op = OpAuth ∨ p.Op = 1) :=
    ⟨hr, hu, hop.symm⟩
  simp only [ProtoMessageHandler.OnMessage, ProtoMessageHandler.authWebsocket, hauth, if_pos hc,
    hb, hput]
  simp only [Bool.false_eq_true, not_false_eq_true, if_true, hset, Channel.Signal, if_pos hsig]

/-- The auth gate behind a full mailbox: on a session that has not
authenticated, a frame with both ids and op 1 or `OpAuth` reaches `Put`, and
when the key of the session's channel is registered for a channel whose
mailbox is full, the `Close` of that channel cannot complete: `OnMessage` does
not return. -/
theorem OnMessage_auth_blocks (h : ProtoMessageHandler) (cityHash32 : GoString → Nat)
    (w : World) (p : Proto) (b : Bucket) (old : ChanPtr) (hauth : h.auth = false)
    (hr : p.Roomid ≠ []) (hu : p.Userid ≠ []) (hop : p.Op = 1 ∨ p.Op = 7)
    (hb : w.server.Bucket cityHash32 p.Userid = .done b)
    (hold : b.chs.get (w.heap.chans h.channel).Key = some old)
    (hfull : (w.heap.chans old).signalCap ≤ (w.heap.chans old).signal.length) :
    h.OnMessage cityHash32 w (some p) = .blocks := by
  have hc : p.Roomid ≠ [] ∧ p.Userid ≠ [] ∧ (p.Op = OpAuth ∨ p.Op = 1) :=
    ⟨hr, hu, hop.symm⟩
  have hput : b.Put w.heap p.Roomid h.channel = none := by
    simp only [Bucket.Put, Bucket.evict, hold, (Close_iff (w.heap.chans old)).2 hfull,
      Option.map_none']
  simp only [ProtoMessageHandler.OnMessage, ProtoMessageHandler.authWebsocket, hauth, if_pos hc,
    hb, hput]
  simp

/-! ## The session handler: the properties of the specification -/

/-- C23, as stated, fails: a new session whose first frame is the join frame
`{op 1, "r1", "u1"}` passes the auth gate with it, so `Put("r1", channel)` has
been called when the frame reaches `processClientRequest`; with a Controller
call that fails the error is returned and nothing changes, and the channel is
in `chs` of the bucket and a member of the room `"r1"`. -/
theorem C23_join_frame_registers_before_controller_call :
    ∃ h1 w1 b, (newProtoMessageHandler 0).OnMessage (fun _ => 0) freshWorld (some sampleFrame)
        = .done (h1, w1) ∧
      h1.processClientRequest (fun _ _ => false) (fun _ => false) w1 sampleFrame
        = (some .joinRoom, w1) ∧
      w1.server.buckets[0]? = some b ∧ b.chs.get (w1.heap.chans 0).Key = some 0 ∧
      b.rooms.get idR1 = some 0 ∧ (w1.heap.chans 0).Room = some 0 ∧
      0 ∈ (w1.heap.roomObjs 0).members :=
  ⟨_, _, _, rfl, rfl, rfl, by decide, by decide, by decide, by decide⟩

/-- C23, amended. A failed join changes nothing: for every session and every
join frame (op 1), when the Controller call `JoinRoom` fails,
`processClientRequest` returns that error, hands no reply to `WritePkg` and
leaves the server with its buckets, every channel (its `watchOps` included)
and every room as they were; a registration made by the auth gate stays. -/
theorem C23_failed_join_changes_nothing (h : ProtoMessageHandler)
    (JoinRoom : GoString → GoString → Bool) (writeErr : Proto → Bool) (w : World) (p : Proto)
    (hop : p.Op = 1) (hfail : JoinRoom p.Roomid p.Userid = false) :
    h.processClientRequest JoinRoom writeErr w p = (some .joinRoom, w) := by
  unfold ProtoMessageHandler.processClientRequest
  rw [if_pos hop, if_pos (by rw [hfail]; decide)]

/-- C23, amended, on the join frame of scenario 1 and a Controller that
rejects every call. -/
theorem C23_failed_join_changes_nothing_witness :
    (newProtoMessageHandler 0).processClientRequest (fun _ _ => false) (fun _ => false)
        freshWorld sampleFrame = (some .joinRoom, freshWorld) :=
  C23_failed_join_changes_nothing (newProtoMessageHandler 0) (fun _ _ => false)
    (fun _ => false) freshWorld sampleFrame (by decide) rfl

/-- C25. Reply table of `processClientRequest`: a join frame (op 1) with a
successful Controller call hands `WritePkg` exactly one reply, `op 2` with the
`ver`, `seq` and ids of the request and the body `"join room success"`, and
leaves 2 in `watchOps`, the error returned being that of `WritePkg`; a
heartbeat (op 5) hands `WritePkg` exactly one reply, `op 6` with the `ver`,
`seq` and ids of the request and a nil body, changes nothing else and returns
nil; every other op writes nothing, changes nothing and returns nil. -/
theorem C25_reply_table (h : ProtoMessageHandler) (JoinRoom : GoString → GoString → Bool)
    (writeErr : Proto → Bool) (w : World) (p : Proto) :
    (p.Op = 1 → JoinRoom p.Roomid p.Userid = true →
      ∃ e w1, h.processClientRequest JoinRoom writeErr w p = (e, w1) ∧
        w1.session.pkgs = w.session.pkgs ++
          [{ Ver := p.Ver, Op := 2, Seq := p.Seq, Roomid := p.Roomid, Userid := p.Userid,
             Body := some joinRoomSuccess }] ∧
        (w1.heap.chans h.channel).NeedPush 2 = true ∧
        (e = if writeErr { Ver := p.Ver, Op := 2, Seq := p.Seq, Roomid := p.Roomid,
                           Userid := p.Userid, Body := some joinRoomSuccess }
             then some .writePkg else none) ∧
        w1.server = w.server ∧ w1.heap.roomObjs = w.heap.roomObjs ∧
        (∀ c, c ≠ h.channel → w1.heap.chans c = w.heap.chans c) ∧
        w1.heap.chans h.channel = (w.heap.chans h.channel).Watch [2]) ∧
    (p.Op = 5 →
      h.processClientRequest JoinRoom writeErr w p
        = (none, { w with session := { w.session with pkgs := w.session.pkgs ++
            [{ Ver := p.Ver, Op := 6, Seq := p.Seq, Roomid := p.Roomid, Userid := p.Userid,
               Body := none }] } })) ∧
    (p.Op ≠ 1 → p.Op ≠ 5 → h.processClientRequest JoinRoom writeErr w p = (none, w)) := by
  refine ⟨?_, ?_, ?_⟩
  · intro hop hok
    have e2 : toInt32 (toUint32 (p.Op + 1)) = 2 := by rw [hop]; decide
    unfold ProtoMessageHandler.processClientRequest
    rw [if_pos hop, if_neg (by rw [hok]; decide)]
    simp only [e2]
    have hw : ((w.heap.setChan h.channel ((w.heap.chans h.channel).Watch [2])).chans
        h.channel).NeedPush 2 = true := by
      simp only [Heap.setChan, Function.update_same, Channel.NeedPush, Channel.Watch,
        List.foldl_cons, List.foldl_nil, decide_eq_true_eq]
      split_ifs with hm
      · exact hm
      · exact List.mem_cons_self _ _
    have hother : ∀ c, c ≠ h.channel →
        (w.heap.setChan h.channel ((w.heap.chans h.channel).Watch [2])).chans c
          = w.heap.chans c := by
      intro c hc
      simp only [Heap.setChan, Function.update_noteq hc]
    have hself : (w.heap.setChan h.channel ((w.heap.chans h.channel).Watch [2])).chans h.channel
        = (w.heap.chans h.channel).Watch [2] := by
      simp only [Heap.setChan, Function.update_same]
    split_ifs with hwe
    · exact ⟨_, _, rfl, rfl, hw, rfl, rfl, rfl, hother, hself⟩
    · exact ⟨_, _, rfl, rfl, hw, rfl, rfl, rfl, hother, hself⟩
  · intro hop
    unfold ProtoMessageHandler.processClientRequest
    rw [if_neg (by rw [hop]; decide), if_pos hop]
  · intro h1 h5
    unfold ProtoMessageHandler.processClientRequest
    rw [if_neg h1, if_neg h5]

/-- C25 on the join frame of scenario 1 with a Controller that accepts, and on
the heartbeat `{op 5, seq 42}` of scenario 3. -/
theorem C25_reply_table_witness :
    (∃ e w1, (newProtoMessageHandler 0).processClientRequest (fun _ _ => true) (fun _ => false)
        freshWorld sampleFrame = (e, w1) ∧
      w1.session.pkgs = [{ Ver := 1, Op := 2, Seq := 1, Roomid := idR1, Userid := idU1,
                           Body := some joinRoomSuccess }] ∧
      (w1.heap.chans 0).NeedPush 2 = true) ∧
    ((newProtoMessageHandler 0).processClientRequest (fun _ _ => true) (fun _ => false)
        freshWorld { Ver := 1, Op := 5, Seq := 42, Roomid := [], Userid := [], Body := none }).1
      = none := by
  obtain ⟨e, w1, hp, hpk, hw, _⟩ :=
    (C25_reply_table (newProtoMessageHandler 0) (fun _ _ => true) (fun _ => false) freshWorld
      sampleFrame).1 (by decide) rfl
  exact ⟨⟨e, w1, hp, hpk, hw⟩, rfl⟩

/-- C27, the code at the failing input: nothing assigns `channel.Key`, so
`Put` registers every session under the empty key. On a node with one bucket,
after a new session authenticates with `userId "u1"` the bucket has no channel
under `"u1"` and holds the session's channel under `""`; when a second session
authenticates with `userId "u2"`, its `Put` finds the first channel under that
same key and closes it: `chs` holds the second channel only, and the first has
been sent `ProtoFinish`. -/
theorem C27_sessions_share_the_empty_key (cityHash32 : GoString → Nat) :
    ∃ h1 w1 b1 h2 w2 b2,
      (newProtoMessageHandler 0).OnMessage cityHash32 freshWorld (some sampleFrame)
        = .done (h1, w1) ∧ h1.auth = true ∧
      w1.server.Bucket cityHash32 idU1 = .done b1 ∧
      b1.Channel idU1 = none ∧ b1.Channel [] = some 0 ∧
      (newProtoMessageHandler 1).OnMessage cityHash32 w1 (some joinFrameU2)
        = .done (h2, w2) ∧ h2.auth = true ∧
      w2.server.Bucket cityHash32 idU2 = .done b2 ∧
      b2.chs = [([], 1)] ∧ (w2.heap.chans 0).signal = [.ProtoReady, .ProtoFinish] := by
  obtain ⟨h1, w1, b1, h2, w2, b2, e1, a1, i1, c1, d1, d2, e2, a2, i2, c2, d3, d4⟩ :
      ∃ h1 w1 b1 h2 w2 b2,
        (newProtoMessageHandler 0).OnMessage (fun _ => 0) freshWorld (some sampleFrame)
          = .done (h1, w1) ∧ h1.auth = true ∧ w1.server.bucketIdx = 1 ∧
        w1.server.Bucket (fun _ => 0) idU1 = .done b1 ∧
        b1.Channel idU1 = none ∧ b1.Channel [] = some 0 ∧
        (newProtoMessageHandler 1).OnMessage (fun _ => 0) w1 (some joinFrameU2)
          = .done (h2, w2) ∧ h2.auth = true ∧ w2.server.bucketIdx = 1 ∧
        w2.server.Bucket (fun _ => 0) idU2 = .done b2 ∧
        b2.chs = [([], 1)] ∧ (w2.heap.chans 0).signal = [.ProtoReady, .ProtoFinish] :=
    ⟨_, _, _, _, _, _, rfl, by decide, rfl, rfl, by decide, by decide, rfl, by decide, rfl, rfl,
      by decide, by decide⟩
  refine ⟨h1, w1, b1, h2, w2, b2, ?_, a1, ?_, d1, d2, ?_, a2, ?_, d3, d4⟩
  · rw [OnMessage_hash_single _ _ _ _ rfl]
    exact e1
  · rw [(Bucket_hash_single _ cityHash32 idU1 i1).1]
    exact c1
  · rw [OnMessage_hash_single _ _ _ _ i1]
    exact e2
  · rw [(Bucket_hash_single _ cityHash32 idU2 i2).1]
    exact c2
/-! ## The push manager: lemmas -/

/-- The keys of a map after `m[k] = v` are still pairwise distinct. -/
theorem GoMap.nodup_set {V : Type} (m : GoMap V) (k : GoString) (v : V)
    (hnd : (m.map Prod.fst).Nodup) : ((m.set k v).map Prod.fst).Nodup := by
  unfold GoMap.set
  rw [List.map_cons, List.nodup_cons]
  refine ⟨?_, GoMap.nodup_del m k hnd⟩
  intro hmem
  obtain ⟨kv, hkv, hfst⟩ := List.mem_map.mp hmem
  have := (List.mem_filter.mp hkv).2
  simp only [ne_eq, decide_eq_true_eq] at this
  exact this hfst

/-- The copy loop `for k, v := range m { comets[k] = v }` from the map `acc`
on: the bindings of `m` come on top of those of `acc`. -/
theorem copy_get {V : Type} (m : GoMap V) :
    ∀ (acc : GoMap V) (k : GoString), (m.map Prod.fst).Nodup →
      (m.foldl (fun c kv => GoMap.set c kv.1 kv.2) acc).get k
        = (match m.get k with
           | some v => some v
           | none => acc.get k) := by
  induction m with
  | nil => intro acc k _; rfl
  | cons a m ih =>
    intro acc k hnd
    obtain ⟨k2, v2⟩ := a
    rw [List.map_cons, List.nodup_cons] at hnd
    rw [List.foldl_cons, ih _ k hnd.2, GoMap.get_cons]
    by_cases hk : k = k2
    · subst hk
      have hnone : GoMap.get m k = none := by
        cases hg : GoMap.get m k with
        | none => rfl
        | some w => exact absurd (List.mem_map_of_mem Prod.fst (GoMap.mem_of_get m k w hg)) hnd.1
      rw [hnone, if_pos rfl]
      exact GoMap.get_set_self _ _ _
    · rw [if_neg hk]
      cases hg : GoMap.get m k with
      | none => exact GoMap.get_set_ne _ _ _ _ hk
      | some w => rfl

/-- The copy loop leaves a map with pairwise distinct keys. -/
theorem copy_nodup {V : Type} (m : GoMap V) :
    ∀ (acc : GoMap V), (acc.map Prod.fst).Nodup →
      ((m.foldl (fun c kv => GoMap.set c kv.1 kv.2) acc).map Prod.fst).Nodup := by
  induction m with
  | nil => intro acc h; exact h
  | cons a m ih =>
    intro acc h
    rw [List.foldl_cons]
    exact ih _ (GoMap.nodup_set acc _ _ h)

/-- The copy of a map with pairwise distinct keys has the bindings of the
map, and pairwise distinct keys. -/
theorem copyMap_spec (m : GoMap ClientPtr) (hnd : (m.map Prod.fst).Nodup) :
    (∀ k, (copyMap m).get k = m.get k) ∧ ((copyMap m).map Prod.fst).Nodup := by
  refine ⟨fun k => ?_, copy_nodup m [] List.nodup_nil⟩
  unfold copyMap
  rw [copy_get m [] k hnd]
  cases m.get k <;> rfl

/-- The loop of `createBroadcastClient` makes nothing when every address of
the snapshot has its client. -/
theorem createLoop_noop (dial : GoString → Bool) (S : List GoString) :
    ∀ (comets : GoMap ClientPtr) (H : ClientHeap),
      (∀ a ∈ S, ∃ v, comets.get (nodeIDOf a) = some v) →
      createLoop dial S comets H = (comets, H) := by
  induction S with
  | nil => intro comets H _; rfl
  | cons a S ih =>
    intro comets H hall
    obtain ⟨v, hv⟩ := hall a (List.mem_cons_self _ _)
    unfold createLoop
    rw [hv]
    exact ih comets H (fun x hx => hall x (List.mem_cons_of_mem _ hx))

/-- The loop of `createBroadcastClient` when every dial succeeds: the bindings
it finds stay, every address of the snapshot gets a binding, no other key
does, no older client changes, and the clients it makes are new, hold the
state `newBroadcastClient` gives them and are bound under their own node
id. -/
theorem createLoop_spec (S : List GoString) :
    ∀ (comets : GoMap ClientPtr) (H : ClientHeap), (comets.map Prod.fst).Nodup →
      (∀ (k : GoString) (v : Nat), comets.get k = some v → v < H.nextClient) →
      (((createLoop (fun _ => true) S comets H).1).map Prod.fst).Nodup ∧
      H.nextClient ≤ (createLoop (fun _ => true) S comets H).2.nextClient ∧
      (∀ (k : GoString) (v : Nat), comets.get k = some v →
        (createLoop (fun _ => true) S comets H).1.get k = some v) ∧
      (∀ k, comets.get k = none → (∀ a ∈ S, k ≠ nodeIDOf a) →
        (createLoop (fun _ => true) S comets H).1.get k = none) ∧
      (∀ a ∈ S, ∃ v, (createLoop (fun _ => true) S comets H).1.get (nodeIDOf a) = some v) ∧
      (∀ x : Nat, x < H.nextClient →
        (createLoop (fun _ => true) S comets H).2.clients x = H.clients x) ∧
      (∀ (k : GoString) (v : Nat),
        (createLoop (fun _ => true) S comets H).1.get k = some v → comets.get k = none →
        H.nextClient ≤ v ∧ v < (createLoop (fun _ => true) S comets H).2.nextClient ∧
        (createLoop (fun _ => true) S comets H).2.clients v = newBroadcastClient k) ∧
      (∀ x : Nat, H.nextClient ≤ x → x < (createLoop (fun _ => true) S comets H).2.nextClient →
        (createLoop (fun _ => true) S comets H).1.get
            ((createLoop (fun _ => true) S comets H).2.clients x).serverID = some x ∧
        comets.get ((createLoop (fun _ => true) S comets H).2.clients x).serverID = none) := by
  induction S with
  | nil =>
    intro comets H hnd hfresh
    refine ⟨hnd, Nat.le_refl _, fun k v h => h, fun k h _ => h,
      fun a ha => absurd ha (List.not_mem_nil _), fun x _ => rfl, ?_, ?_⟩
    · intro k v h1 h2
      have : GoMap.get comets k = some v := h1
      rw [h2] at this
      cases this
    · intro x h1 h2
      have h3 : x < H.nextClient := h2
      omega
  | cons a S ih =>
    intro comets H hnd hfresh
    cases hg : comets.get (nodeIDOf a) with
    | some v0 =>
      have hstep : createLoop (fun _ => true) (a :: S) comets H
          = createLoop (fun _ => true) S comets H := by
        rw [createLoop, hg]
      rw [hstep]
      obtain ⟨i1, i2, i3, i4, i5, i6, i7, i8⟩ := ih comets H hnd hfresh
      refine ⟨i1, i2, i3, ?_, ?_, i6, i7, i8⟩
      · intro k hk hall
        exact i4 k hk (fun x hx => hall x (List.mem_cons_of_mem _ hx))
      · intro x hx
        rcases List.mem_cons.mp hx with e | e
        · rw [e]; exact ⟨v0, i3 _ v0 hg⟩
        · exact i5 x e
    | none =>
      have hstep : createLoop (fun _ => true) (a :: S) comets H
          = createLoop (fun _ => true) S (comets.set (nodeIDOf a) H.nextClient)
              { clients := Function.update H.clients H.nextClient
                  (newBroadcastClient (nodeIDOf a)),
                nextClient := H.nextClient + 1 } := by
        rw [createLoop, hg]
        simp
      rw [hstep]
      have hfresh1 : ∀ (k : GoString) (v : Nat),
          (comets.set (nodeIDOf a) H.nextClient).get k = some v →
          v < H.nextClient + 1 := by
        intro k v hk
        by_cases e : k = nodeIDOf a
        · rw [e, GoMap.get_set_self] at hk
          have e2 : (H.nextClient : Nat) = v := Option.some.inj hk
          omega
        · rw [GoMap.get_set_ne _ _ _ _ e] at hk
          have := hfresh k v hk
          omega
      obtain ⟨i1, i2, i3, i4, i5, i6, i7, i8⟩ := ih (comets.set (nodeIDOf a) H.nextClient)
        { clients := Function.update H.clients H.nextClient (newBroadcastClient (nodeIDOf a)),
          nextClient := H.nextClient + 1 }
        (GoMap.nodup_set comets _ _ hnd) hfresh1
      simp only [] at i2 i6 i7 i8
      have hnew := i3 (nodeIDOf a) H.nextClient (GoMap.get_set_self _ _ _)
      have hcl := i6 H.nextClient (Nat.lt_succ_self _)
      rw [Function.update_same] at hcl
      refine ⟨i1, by omega, ?_, ?_, ?_, ?_, ?_, ?_⟩
      · intro k v hk
        have e : k ≠ nodeIDOf a := fun e => by rw [e, hg] at hk; cases hk
        exact i3 k v (by rw [GoMap.get_set_ne _ _ _ _ e]; exact hk)
      · intro k hk hall
        have e : k ≠ nodeIDOf a := hall a (List.mem_cons_self _ _)
        exact i4 k (by rw [GoMap.get_set_ne _ _ _ _ e]; exact hk)
          (fun x hx => hall x (List.mem_cons_of_mem _ hx))
      · intro x hx
        rcases List.mem_cons.mp hx with e | e
        · rw [e]; exact ⟨_, hnew⟩
        · exact i5 x e
      · intro x hx
        have hx1 : x < H.nextClient + 1 := by omega
        have hx2 : x ≠ H.nextClient := by omega
        rw [i6 x hx1, Function.update_noteq hx2]
      · intro k v hk hnone
        by_cases e : k = nodeIDOf a
        · rw [e] at hk ⊢
          rw [hnew] at hk
          have e2 : (H.nextClient : Nat) = v := Option.some.inj hk
          subst e2
          exact ⟨Nat.le_refl _, by omega, hcl⟩
        · obtain ⟨j1, j2, j3⟩ := i7 k v hk (by rw [GoMap.get_set_ne _ _ _ _ e]; exact hnone)
          exact ⟨by omega, j2, j3⟩
      · intro x hx1 hx2
        by_cases e : x = H.nextClient
        · rw [e, hcl]
          exact ⟨hnew, hg⟩
        · obtain ⟨j1, j2⟩ := i8 x (by omega) hx2
          refine ⟨j1, ?_⟩
          have e2 : ((createLoop (fun _ => true) S (comets.set (nodeIDOf a) H.nextClient)
              { clients := Function.update H.clients H.nextClient
                  (newBroadcastClient (nodeIDOf a)),
                nextClient := H.nextClient + 1 }).2.clients x).serverID ≠ nodeIDOf a := by
            intro e3
            rw [e3, GoMap.get_set_self] at j2
            cases j2
          rw [GoMap.get_set_ne _ _ _ _ e2] at j2
          exact j2

/-- The loop of `EnqueueBroadcastMsg` over open clients, each bound once: it
does not panic, every client of the map whose queue has room gets the request
at the tail of its queue, and nothing else changes. -/
theorem enqueueLoop_spec (args : BroadcastReq) (m : GoMap ClientPtr) :
    ∀ (H : ClientHeap), (m.map Prod.snd).Nodup →
      (∀ kv ∈ m, (H.clients kv.2).closed = false) →
      ∃ H1, enqueueLoop args m H = some H1 ∧ H1.nextClient = H.nextClient ∧
        ∀ c, H1.clients c
          = if c ∈ m.map Prod.snd ∧
                (H.clients c).broadcastChan.length < (H.clients c).chanCap then
              { H.clients c with broadcastChan := (H.clients c).broadcastChan ++ [args] }
            else H.clients c := by
  induction m with
  | nil =>
    intro H _ _
    exact ⟨H, rfl, rfl, fun c => by simp⟩
  | cons kv m ih =>
    intro H hnd hopen
    rw [List.map_cons, List.nodup_cons] at hnd
    have hk := hopen kv (List.mem_cons_self _ _)
    by_cases hroom : (H.clients kv.2).broadcastChan.length < (H.clients kv.2).chanCap
    · have hone : enqueueOne args H kv.2 = some { H with
          clients := Function.update H.clients kv.2
            { H.clients kv.2 with
              broadcastChan := (H.clients kv.2).broadcastChan ++ [args] } } := by
        unfold enqueueOne
        rw [hk]
        simp [hroom]
      obtain ⟨H1, h1, h2, h3⟩ := ih { H with
          clients := Function.update H.clients kv.2
            { H.clients kv.2 with
              broadcastChan := (H.clients kv.2).broadcastChan ++ [args] } } hnd.2
        (by
          intro x hx
          simp only []
          by_cases e : x.2 = kv.2
          · rw [e, Function.update_same]; exact hk
          · rw [Function.update_noteq e]; exact hopen x (List.mem_cons_of_mem _ hx))
      refine ⟨H1, by rw [enqueueLoop, hone]; exact h1, h2, fun c => ?_⟩
      rw [h3 c]
      simp only []
      by_cases e : c = kv.2
      · subst e
        rw [if_neg (fun hh => hnd.1 hh.1), Function.update_same,
          if_pos ⟨List.mem_cons_self _ _, hroom⟩]
      · rw [Function.update_noteq e]
        by_cases hc : c ∈ m.map Prod.snd ∧
            (H.clients c).broadcastChan.length < (H.clients c).chanCap
        · rw [if_pos hc, if_pos ⟨List.mem_cons_of_mem _ hc.1, hc.2⟩]
        · rw [if_neg hc, if_neg]
          rintro ⟨h4, h5⟩
          rcases List.mem_cons.mp h4 with e2 | e2
          · exact e e2
          · exact hc ⟨e2, h5⟩
    · have hone : enqueueOne args H kv.2 = some H := by
        unfold enqueueOne
        rw [hk]
        simp [hroom]
      obtain ⟨H1, h1, h2, h3⟩ := ih H hnd.2
        (fun x hx => hopen x (List.mem_cons_of_mem _ hx))
      refine ⟨H1, by rw [enqueueLoop, hone]; exact h1, h2, fun c => ?_⟩
      rw [h3 c]
      by_cases hc : c ∈ m.map Prod.snd ∧
          (H.clients c).broadcastChan.length < (H.clients c).chanCap
      · rw [if_pos hc, if_pos ⟨List.mem_cons_of_mem _ hc.1, hc.2⟩]
      · rw [if_neg hc, if_neg]
        rintro ⟨h4, h5⟩
        rcases List.mem_cons.mp h4 with e2 | e2
        · rw [e2] at h5; exact hroom h5
        · exact hc ⟨e2, h5⟩

/-- `Broadcast` with a frame, on a map of open clients each bound once:
the call returns the reply with code `"0"`, and the request, with the frame
and its op as `ProtoOp`, is at the tail of the queue of every client that
had room; full queues and all other clients are unchanged. -/
theorem Broadcast_enqueues (s : PushManagerServer) (H : ClientHeap) (p : Proto)
    (hnd : (s.broadCastClientMap.map Prod.snd).Nodup)
    (hopen : ∀ kv ∈ s.broadCastClientMap, (H.clients kv.2).closed = false) :
    ∃ H1, s.Broadcast H { Proto := some p } = .done (broadcastReplyOK, H1) ∧
      broadcastReplyOK.Code = [48] ∧
      ∀ c, H1.clients c
        = if c ∈ s.broadCastClientMap.map Prod.snd ∧
              (H.clients c).broadcastChan.length < (H.clients c).chanCap then
            { H.clients c with
              broadcastChan := (H.clients c).broadcastChan
                ++ [{ Proto := some p, ProtoOp := p.Op, Speed := 0 }] }
          else H.clients c := by
  obtain ⟨H1, h1, _, h3⟩ := enqueueLoop_spec { Proto := some p, ProtoOp := p.Op, Speed := 0 }
    s.broadCastClientMap H hnd hopen
  refine ⟨H1, ?_, rfl, h3⟩
  simp only [PushManagerServer.Broadcast, PushManagerServer.EnqueueBroadcastMsg, h1]

/-! ## The push manager: the properties of the specification -/

/-- C21, as stated, fails: after the snapshot `["a"]` was reconciled, the
empty snapshot leaves the client of `"a"` in the map, the same client, open
and otherwise unchanged, although its address is no longer in the
snapshot. -/
theorem C21_client_of_missing_node_stays :
    managerOfA.1.broadCastClientMap.get (nodeIDOf addrA) = some 0 ∧
    (managerOfA.1.createBroadcastClient managerOfA.2 (fun _ => true) []).1.broadCastClientMap.get
      (nodeIDOf addrA) = some 0 ∧
    ((managerOfA.1.createBroadcastClient managerOfA.2 (fun _ => true) []).2.clients 0).closed
      = false :=
  ⟨by decide, by decide, by decide⟩

/-- C21, amended. Discovery reconciliation: for every prior client map `M`
and every endpoint snapshot `S`, every dial succeeding,
`createBroadcastClient(S)` leaves a map whose keys are exactly the keys of `M`
and the ids `"connect-node-" + a` for `a` in `S`; every key of `M` keeps the
very same client, which is not touched (not closed, its queue as it was);
every address of `S` not yet present gets a new client with an empty queue of
capacity 1000, and every client made is bound in the map under its own id, an
id of `S` that `M` did not have (so exactly one client is made per new
address); and reconciling the same snapshot once more makes no client and
leaves every key with the client it had. -/
theorem C21_reconcile_adds_missing_clients (s : PushManagerServer) (H : ClientHeap)
    (S : List GoString) (hnd : (s.broadCastClientMap.map Prod.fst).Nodup)
    (hfresh : ∀ (k : GoString) (v : Nat), s.broadCastClientMap.get k = some v →
      v < H.nextClient) :
    (∀ k, (s.createBroadcastClient H (fun _ => true) S).1.broadCastClientMap.get k ≠ none ↔
      (s.broadCastClientMap.get k ≠ none ∨ ∃ a ∈ S, k = nodeIDOf a)) ∧
    (∀ (k : GoString) (v : Nat), s.broadCastClientMap.get k = some v →
      (s.createBroadcastClient H (fun _ => true) S).1.broadCastClientMap.get k = some v ∧
      (s.createBroadcastClient H (fun _ => true) S).2.clients v = H.clients v) ∧
    (∀ a ∈ S, s.broadCastClientMap.get (nodeIDOf a) = none →
      ∃ v : Nat, (s.createBroadcastClient H (fun _ => true) S).1.broadCastClientMap.get
          (nodeIDOf a) = some v ∧ H.nextClient ≤ v ∧
        (s.createBroadcastClient H (fun _ => true) S).2.clients v
          = newBroadcastClient (nodeIDOf a)) ∧
    (∀ x : Nat, H.nextClient ≤ x →
      x < (s.createBroadcastClient H (fun _ => true) S).2.nextClient →
      (s.createBroadcastClient H (fun _ => true) S).1.broadCastClientMap.get
          ((s.createBroadcastClient H (fun _ => true) S).2.clients x).serverID = some x ∧
      s.broadCastClientMap.get
          ((s.createBroadcastClient H (fun _ => true) S).2.clients x).serverID = none ∧
      ∃ a ∈ S, ((s.createBroadcastClient H (fun _ => true) S).2.clients x).serverID
        = nodeIDOf a) ∧
    (((s.createBroadcastClient H (fun _ => true) S).1.createBroadcastClient
          (s.createBroadcastClient H (fun _ => true) S).2 (fun _ => true) S).2.nextClient
        = (s.createBroadcastClient H (fun _ => true) S).2.nextClient ∧
      ((s.createBroadcastClient H (fun _ => true) S).1.createBroadcastClient
          (s.createBroadcastClient H (fun _ => true) S).2 (fun _ => true) S).2.clients
        = (s.createBroadcastClient H (fun _ => true) S).2.clients ∧
      ∀ k, ((s.createBroadcastClient H (fun _ => true) S).1.createBroadcastClient
            (s.createBroadcastClient H (fun _ => true) S).2 (fun _ => true)
            S).1.broadCastClientMap.get k
        = (s.createBroadcastClient H (fun _ => true) S).1.broadCastClientMap.get k) := by
  obtain ⟨hcopy, hcnd⟩ := copyMap_spec s.broadCastClientMap hnd
  obtain ⟨i1, i2, i3, i4, i5, i6, i7, i8⟩ := createLoop_spec S (copyMap s.broadCastClientMap) H
    hcnd (fun k v hk => hfresh k v (by rw [← hcopy k]; exact hk))
  simp only [hcopy] at i3 i4 i7 i8
  have hres1 : (s.createBroadcastClient H (fun _ => true) S).1.broadCastClientMap
      = (createLoop (fun _ => true) S (copyMap s.broadCastClientMap) H).1 := rfl
  have hres2 : (s.createBroadcastClient H (fun _ => true) S).2
      = (createLoop (fun _ => true) S (copyMap s.broadCastClientMap) H).2 := rfl
  have hkeys : ∀ k,
      (createLoop (fun _ => true) S (copyMap s.broadCastClientMap) H).1.get k ≠ none ↔
      (s.broadCastClientMap.get k ≠ none ∨ ∃ a ∈ S, k = nodeIDOf a) := by
    intro k
    constructor
    · intro hk
      by_contra hcon
      push_neg at hcon
      exact hk (i4 k hcon.1 hcon.2)
    · rintro (hk | ⟨a, ha, rfl⟩)
      · cases hg : s.broadCastClientMap.get k with
        | none => exact absurd hg hk
        | some v => rw [i3 k v hg]; exact Option.some_ne_none v
      · obtain ⟨v, hv⟩ := i5 a ha
        rw [hv]; exact Option.some_ne_none v
  rw [hres1, hres2]
  refine ⟨hkeys, ?_, ?_, ?_, ?_⟩
  · intro k v hk
    exact ⟨i3 k v hk, i6 v (hfresh k v hk)⟩
  · intro a ha hnone
    obtain ⟨v, hv⟩ := i5 a ha
    obtain ⟨j1, _, j3⟩ := i7 _ v hv hnone
    exact ⟨v, hv, j1, j3⟩
  · intro x hx1 hx2
    obtain ⟨j1, j2⟩ := i8 x hx1 hx2
    refine ⟨j1, j2, ?_⟩
    have := (hkeys _).mp (by rw [j1]; exact Option.some_ne_none x)
    rcases this with h1 | h1
    · exact absurd j2 h1
    · exact h1
  · obtain ⟨hcopy2, _⟩ := copyMap_spec
      (createLoop (fun _ => true) S (copyMap s.broadCastClientMap) H).1 i1
    have hnoop := createLoop_noop (fun _ => true) S
      (copyMap (createLoop (fun _ => true) S (copyMap s.broadCastClientMap) H).1)
      (createLoop (fun _ => true) S (copyMap s.broadCastClientMap) H).2
      (by
        intro a ha
        obtain ⟨v, hv⟩ := i5 a ha
        exact ⟨v, by rw [hcopy2, hv]⟩)
    simp only [PushManagerServer.createBroadcastClient, hnoop]
    exact ⟨trivial, trivial, hcopy2⟩

/-- C21, amended, on the manager that knows the node `"a"` and the snapshot
`["b"]`: the client of `"a"` stays and `"b"` gets the new client at address
1. -/
theorem C21_reconcile_adds_missing_clients_witness :
    (managerOfA.1.createBroadcastClient managerOfA.2 (fun _ => true)
        [addrB]).1.broadCastClientMap.get (nodeIDOf addrA) = some 0 ∧
    ∃ v : Nat, (managerOfA.1.createBroadcastClient managerOfA.2 (fun _ => true)
        [addrB]).1.broadCastClientMap.get (nodeIDOf addrB) = some v ∧ 1 ≤ v := by
  have h := C21_reconcile_adds_missing_clients managerOfA.1 managerOfA.2 [addrB]
    (by decide) (by
      intro k v hk
      have hm : managerOfA.1.broadCastClientMap = [(nodeIDOf addrA, 0)] := by decide
      have hn : managerOfA.2.nextClient = 1 := by decide
      rw [hm, GoMap.get_cons] at hk
      rw [hn]
      split_ifs at hk
      · have e : (0 : Nat) = v := Option.some.inj hk
        omega
      · cases hk)
  obtain ⟨v, hv, hle, _⟩ := h.2.2.1 addrB (List.mem_singleton_self _) (by decide)
  exact ⟨(h.2.1 (nodeIDOf addrA) 0 (by decide)).1, v, hv, hle⟩

/-- C22, the code at the failing input: `EnqueueBroadcastMsg` builds its
request with `ProtoOp: req.Proto.Op`, a field read through the frame pointer,
so `Broadcast` on a request that carries no frame panics, for every client
map, instead of replying with code `"0"`. -/
theorem C22_broadcast_nil_frame_panics (s : PushManagerServer) (H : ClientHeap) :
    s.Broadcast H { Proto := none } = .panic := rfl

end Pubsub
